import Mathlib

/-!
# mgd-proto codecs: a shallow embedding

The Go package `codecs` (src/codecs.go) binds protobuf well-known types to the
BSON codec registry of the MongoDB driver.  The code is written against
`reflect.Value`, the driver's `bsonrw.ValueWriter` / `bsonrw.ValueReader`
interfaces and the driver's registry, so the embedding has four layers:

* `GoType`, `GoValue`: the reflective view of the Go values the codecs touch;
* `WireValue`, `ValueWriter`, the reader primitives: the BSON value being
  written or read;
* `Registry`, `Codec`: type descriptor to codec binding and its lookup;
* the six codecs of this package and `Register`, translated statement by
  statement, plus the driver's native scalar codecs and pointer codec they
  delegate to.

Calls through the registry are dynamic, so `EncodeValue` and `DecodeValue` are
one dispatcher each, indexed by a fuel counter that bounds the call depth and
the iterations of the one unbounded loop of the source.
-/

namespace Codecs

/-! ## Reflective view of Go types and values -/

/-- Run-time type descriptors (reflect.Type) of the Go types the package touches. -/
inductive GoType where
  | bool | int32 | int64 | uint32 | uint64 | float32 | float64 | string
  | byteSlice
  | BoolValue | BytesValue | DoubleValue | FloatValue | Int32Value
  | Int64Value | StringValue | UInt32Value | UInt64Value
  | ListValue | Value | NullValue
  | Value_StringValue | Value_NullValue | Value_NumberValue
  | Value_BoolValue | Value_StructValue | Value_ListValue
  | Struct
  | Timestamp
  | Time
  | ObjectId
  | PrimitiveObjectID
  | isValue_Kind
  | valueSlice
  | fieldsMap
  | ptr (elem : GoType)
  deriving DecidableEq, Repr

/-- Kinds of Go types (reflect.Kind), as far as the model types have them. -/
inductive Kind where
  | Bool | Int32 | Int64 | Uint32 | Uint64 | Float32 | Float64 | String
  | Slice | Struct | Ptr | Interface | Map | Array
  deriving DecidableEq, Repr

/-- Method Kind of reflect.Type. -/
def GoType.Kind : GoType → Kind
  | .bool => .Bool
  | .int32 => .Int32
  | .int64 => .Int64
  | .uint32 => .Uint32
  | .uint64 => .Uint64
  | .float32 => .Float32
  | .float64 => .Float64
  | .string => .String
  | .byteSlice => .Slice
  | .NullValue => .Int32
  | .PrimitiveObjectID => .Array
  | .isValue_Kind => .Interface
  | .valueSlice => .Slice
  | .fieldsMap => .Map
  | .ptr _ => .Ptr
  | _ => .Struct

/-- Method Elem of reflect.Type: defined for pointer and slice types, a panic
(none) for the other kinds of the model. -/
def GoType.Elem : GoType → Option GoType
  | .ptr e => some e
  | .valueSlice => some (.ptr .Value)
  | _ => none

/-- Go values as reflect.Value sees them.  Structs carry their type and their
exported fields in declaration order (the protobuf bookkeeping fields XXX_ are
left out: no codec reads or writes them); a pointer carries its element type
and is nil (none) or points at a value; an interface value is nil or holds a
dynamic value; a slice of Value pointers is its element sequence (a nil slice
and an empty slice are the same sequence).  Floats are their IEEE bit patterns,
time.Time is the pair (seconds, nanoseconds) since the Unix epoch in UTC. -/
inductive GoValue where
  | bool (b : Bool)
  | int32 (i : Int)
  | int64 (i : Int)
  | uint32 (n : Nat)
  | uint64 (n : Nat)
  | float32 (bits : Nat)
  | float64 (bits : Nat)
  | string (s : String)
  | byteSlice (b : Option (List Nat))
  | time (sec : Int) (nsec : Int)
  | objectID (b : List Nat)
  | nullValue (n : Int)
  | struct (t : GoType) (fields : List GoValue)
  | ptr (elem : GoType) (target : Option GoValue)
  | iface (dyn : Option GoValue)
  | slice (elems : List GoValue)
  | map (keys : List String) (vals : List GoValue)
  deriving Repr

/-- Method Type of reflect.Value. -/
def GoValue.TypeOf : GoValue → GoType
  | .bool _ => .bool
  | .int32 _ => .int32
  | .int64 _ => .int64
  | .uint32 _ => .uint32
  | .uint64 _ => .uint64
  | .float32 _ => .float32
  | .float64 _ => .float64
  | .string _ => .string
  | .byteSlice _ => .byteSlice
  | .time _ _ => .Time
  | .objectID _ => .PrimitiveObjectID
  | .nullValue _ => .NullValue
  | .struct t _ => t
  | .ptr e _ => .ptr e
  | .iface _ => .isValue_Kind
  | .slice _ => .valueSlice
  | .map _ _ => .fieldsMap

/-- Method Kind of reflect.Value. -/
def GoValue.Kind (v : GoValue) : Kind := v.TypeOf.Kind

/-- Method Field of reflect.Value: the i-th field of a struct; none stands for
the panic reflect raises on a non-struct or a missing field. -/
def GoValue.Field : GoValue → Nat → Option GoValue
  | .struct _ fs, i => fs.get? i
  | _, _ => none

/-- Method IsNil of reflect.Value on a pointer. -/
def GoValue.IsNil : GoValue → Bool
  | .ptr _ none => true
  | .iface none => true
  | .byteSlice none => true
  | _ => false

/-- Method Elem of reflect.Value on a non-nil pointer. -/
def GoValue.Elem : GoValue → Option GoValue
  | .ptr _ (some v) => some v
  | .iface (some v) => some v
  | _ => none

/-- Function reflect.Indirect: the value a pointer points at, the value itself
when it is not a pointer; none for a nil pointer (the invalid Value, on which
the next reflect call panics). -/
def reflect.Indirect : GoValue → Option GoValue
  | .ptr _ none => none
  | .ptr _ (some v) => some v
  | v => some v

/-- Method Interface of reflect.Value: for a value of interface kind the
dynamic value inside (none for the nil interface), otherwise the value. -/
def GoValue.Interface : GoValue → Option GoValue
  | .iface d => d
  | v => some v

/-- Elements of a slice value (methods Len and Index of reflect.Value); none
stands for the panic on a value that is not a slice. -/
def GoValue.Elems : GoValue → Option (List GoValue)
  | .slice vs => some vs
  | _ => none

/-- Store into field i of a struct reached through a settable reflect.Value. -/
def GoValue.SetField : GoValue → Nat → GoValue → GoValue
  | .struct t fs, i, x => .struct t (fs.set i x)
  | v, _, _ => v

/-- The caller's view after the value reached by reflect.Indirect was
updated in place: a pointer still points at the updated value. -/
def reflect.StoreIndirect : GoValue → GoValue → GoValue
  | .ptr e (some _), s => .ptr e (some s)
  | .ptr e none, _ => .ptr e none
  | _, s => s

/-- Function reflect.Zero: the zero value of a type. -/
def reflect.Zero : GoType → GoValue
  | .bool => .bool false
  | .int32 => .int32 0
  | .int64 => .int64 0
  | .uint32 => .uint32 0
  | .uint64 => .uint64 0
  | .float32 => .float32 0
  | .float64 => .float64 0
  | .string => .string ""
  | .byteSlice => .byteSlice none
  | .BoolValue => .struct .BoolValue [.bool false]
  | .BytesValue => .struct .BytesValue [.byteSlice none]
  | .DoubleValue => .struct .DoubleValue [.float64 0]
  | .FloatValue => .struct .FloatValue [.float32 0]
  | .Int32Value => .struct .Int32Value [.int32 0]
  | .Int64Value => .struct .Int64Value [.int64 0]
  | .StringValue => .struct .StringValue [.string ""]
  | .UInt32Value => .struct .UInt32Value [.uint32 0]
  | .UInt64Value => .struct .UInt64Value [.uint64 0]
  | .ListValue => .struct .ListValue [.slice []]
  | .Value => .struct .Value [.iface none]
  | .NullValue => .nullValue 0
  | .Value_StringValue => .struct .Value_StringValue [.string ""]
  | .Value_NullValue => .struct .Value_NullValue [.nullValue 0]
  | .Value_NumberValue => .struct .Value_NumberValue [.float64 0]
  | .Value_BoolValue => .struct .Value_BoolValue [.bool false]
  | .Value_StructValue => .struct .Value_StructValue [.ptr .Struct none]
  | .Value_ListValue => .struct .Value_ListValue [.ptr .ListValue none]
  | .Struct => .struct .Struct [.map [] []]
  | .Timestamp => .struct .Timestamp [.int64 0, .int32 0]
  | .Time => .time (-62135596800) 0
  | .ObjectId => .struct .ObjectId [.string ""]
  | .PrimitiveObjectID => .objectID (List.replicate 12 0)
  | .isValue_Kind => .iface none
  | .valueSlice => .slice []
  | .fieldsMap => .map [] []
  | .ptr e => .ptr e none

/-- Function reflect.New: a pointer to a fresh zero value of the type. -/
def reflect.New (t : GoType) : GoValue := .ptr t (some (reflect.Zero t))

/-! ## Package-level type descriptors (src/codecs.go, var block) -/

abbrev boolValueType : GoType := .BoolValue
abbrev bytesValueType : GoType := .BytesValue
abbrev doubleValueType : GoType := .DoubleValue
abbrev floatValueType : GoType := .FloatValue
abbrev int32ValueType : GoType := .Int32Value
abbrev int64ValueType : GoType := .Int64Value
abbrev stringValueType : GoType := .StringValue
abbrev uint32ValueType : GoType := .UInt32Value
abbrev uint64ValueType : GoType := .UInt64Value
abbrev tListValueType : GoType := .ListValue
abbrev tValue : GoType := .Value
abbrev tNullValue : GoType := .NullValue
abbrev tValue_StringValue : GoType := .Value_StringValue
abbrev tValue_NullValue : GoType := .Value_NullValue
abbrev tValue_NumberValue : GoType := .Value_NumberValue
abbrev tValue_BoolValue : GoType := .Value_BoolValue
abbrev tValue_StructValue : GoType := .Value_StructValue
abbrev tValue_ListValue : GoType := .Value_ListValue
abbrev tStruct : GoType := .Struct
abbrev timestampType : GoType := .Timestamp
abbrev timeType : GoType := .Time
abbrev objectIDType : GoType := .ObjectId
abbrev objectIDPrimitiveType : GoType := .PrimitiveObjectID

/-- The enum constant types.NullValue_NULL_VALUE. -/
abbrev NullValue_NULL_VALUE : GoValue := .nullValue 0

/-! ## Wire values, the value writer and the value reader -/

/-- Wire type tags (bsontype.Type). -/
inductive BsonType where
  | Double | String | EmbeddedDocument | Array | Binary | Undefined | ObjectID
  | Boolean | DateTime | Null | Regex | DBPointer | JavaScript | Symbol
  | CodeWithScope | Int32 | Timestamp | Int64 | Decimal128 | MinKey | MaxKey
  deriving DecidableEq, Repr

/-- Wire tags whose content no codec of the model reads. -/
inductive OtherTag where
  | Undefined | Regex | DBPointer | JavaScript | Symbol | CodeWithScope
  | Timestamp | Decimal128 | MinKey | MaxKey
  deriving DecidableEq, Repr

/-- Wire tag of a tag of the remaining group. -/
def OtherTag.toType : OtherTag → BsonType
  | .Undefined => .Undefined
  | .Regex => .Regex
  | .DBPointer => .DBPointer
  | .JavaScript => .JavaScript
  | .Symbol => .Symbol
  | .CodeWithScope => .CodeWithScope
  | .Timestamp => .Timestamp
  | .Decimal128 => .Decimal128
  | .MinKey => .MinKey
  | .MaxKey => .MaxKey

/-- A value of the self-describing wire format.  Doubles are their bit
pattern, a date-time is milliseconds since the Unix epoch, an embedded
document and the values of the remaining tags are kept as their raw bytes. -/
inductive WireValue where
  | double (bits : Nat)
  | string (s : String)
  | document (raw : List Nat)
  | array (elems : List WireValue)
  | binary (subtype : Nat) (data : List Nat)
  | objectID (b : List Nat)
  | boolean (b : Bool)
  | dateTime (ms : Int)
  | null
  | int32 (i : Int)
  | int64 (i : Int)
  | other (t : OtherTag) (raw : List Nat)
  deriving Repr

/-- Errors the calls of the model return. -/
inductive Err where
  | ErrNoEncoder (t : GoType)
  | ErrNoDecoder (t : GoType)
  | TransitionError
  | ReadTypeError (want : BsonType) (got : BsonType)
  | UnexpectedType (t : BsonType)
  | ErrInvalidHex
  | Overflow
  | CannotTruncate
  | HostDecodeType (got : BsonType)
  | ValueCodecError
  | TimestampInvalid
  deriving DecidableEq, Repr

/-- How a call ends: it returns nil, returns an error, panics, or is still
running when the fuel is used up. -/
inductive Status where
  | ok
  | error (e : Err)
  | panic
  | timeout
  deriving DecidableEq, Repr

/-- Frames of the value writer: a slot waiting for one value, or an open array
with the elements completed so far. -/
inductive Frame where
  | value
  | array (done : List WireValue)
  deriving Repr

/-- State of a bsonrw.ValueWriter from the slot handed to a codec upwards:
the open frames (innermost first) and the values completed in the handed
slot.  A writer is unchanged exactly when nothing was written. -/
structure ValueWriter where
  stack : List Frame
  out : List WireValue
  deriving Repr

/-- A writer positioned at one empty value slot. -/
def ValueWriter.slot : ValueWriter := ⟨[.value], []⟩

/-- Completing a value: it becomes the next element of the enclosing open
array, or the content of the handed slot. -/
def ValueWriter.attach (w : WireValue) (rest : List Frame) (out : List WireValue) : ValueWriter :=
  match rest with
  | .array done :: rest1 => ⟨.array (done ++ [w]) :: rest1, out⟩
  | _ => ⟨rest, out ++ [w]⟩

/-- Writing one scalar: legal only in a value slot (otherwise the writer
reports a transition error and writes nothing). -/
def ValueWriter.writeValue (vw : ValueWriter) (w : WireValue) : Status × ValueWriter :=
  match vw.stack with
  | .value :: rest => (.ok, ValueWriter.attach w rest vw.out)
  | _ => (.error .TransitionError, vw)

/-- Method WriteNull of the writer. -/
def ValueWriter.WriteNull (vw : ValueWriter) : Status × ValueWriter := vw.writeValue .null

/-- Method WriteBoolean of the writer. -/
def ValueWriter.WriteBoolean (vw : ValueWriter) (b : Bool) : Status × ValueWriter :=
  vw.writeValue (.boolean b)

/-- Method WriteDouble of the writer. -/
def ValueWriter.WriteDouble (vw : ValueWriter) (bits : Nat) : Status × ValueWriter :=
  vw.writeValue (.double bits)

/-- Method WriteString of the writer. -/
def ValueWriter.WriteString (vw : ValueWriter) (s : String) : Status × ValueWriter :=
  vw.writeValue (.string s)

/-- Method WriteInt32 of the writer. -/
def ValueWriter.WriteInt32 (vw : ValueWriter) (i : Int) : Status × ValueWriter :=
  vw.writeValue (.int32 i)

/-- Method WriteInt64 of the writer. -/
def ValueWriter.WriteInt64 (vw : ValueWriter) (i : Int) : Status × ValueWriter :=
  vw.writeValue (.int64 i)

/-- Method WriteBinary of the writer (generic subtype 0). -/
def ValueWriter.WriteBinary (vw : ValueWriter) (b : List Nat) : Status × ValueWriter :=
  vw.writeValue (.binary 0 b)

/-- Method WriteDateTime of the writer. -/
def ValueWriter.WriteDateTime (vw : ValueWriter) (ms : Int) : Status × ValueWriter :=
  vw.writeValue (.dateTime ms)

/-- Method WriteObjectID of the writer. -/
def ValueWriter.WriteObjectID (vw : ValueWriter) (b : List Nat) : Status × ValueWriter :=
  vw.writeValue (.objectID b)

/-- Method WriteArray of the writer: legal in a value slot, opens an array. -/
def ValueWriter.WriteArray (vw : ValueWriter) : Status × ValueWriter :=
  match vw.stack with
  | .value :: rest => (.ok, ⟨.array [] :: .value :: rest, vw.out⟩)
  | _ => (.error .TransitionError, vw)

/-- Method WriteArrayElement of the array writer: legal in an open array,
opens the slot of the next element. -/
def ValueWriter.WriteArrayElement (aw : ValueWriter) : Status × ValueWriter :=
  match aw.stack with
  | .array done :: rest => (.ok, ⟨.value :: .array done :: rest, aw.out⟩)
  | _ => (.error .TransitionError, aw)

/-- Method WriteArrayEnd of the array writer: legal in an open array, closes
it and completes the slot it was opened in. -/
def ValueWriter.WriteArrayEnd (aw : ValueWriter) : Status × ValueWriter :=
  match aw.stack with
  | .array done :: rest => (.ok, ValueWriter.attach (.array done) (rest.drop 1) aw.out)
  | _ => (.error .TransitionError, aw)

/-- Method Type of a value reader: the tag of the value it is positioned at.
A value reader of the model is the wire value it is positioned at. -/
def WireValue.Type_ : WireValue → BsonType
  | .double _ => .Double
  | .string _ => .String
  | .document _ => .EmbeddedDocument
  | .array _ => .Array
  | .binary _ _ => .Binary
  | .objectID _ => .ObjectID
  | .boolean _ => .Boolean
  | .dateTime _ => .DateTime
  | .null => .Null
  | .int32 _ => .Int32
  | .int64 _ => .Int64
  | .other t _ => t.toType

/-- Method ReadNull of the reader: fails unless the value is the null marker. -/
def WireValue.ReadNull (vr : WireValue) : Except Err Unit :=
  match vr with
  | .null => .ok ()
  | w => .error (.ReadTypeError .Null w.Type_)

/-- Method ReadArray of the reader: the array reader is the sequence of the
elements still to be read. -/
def WireValue.ReadArray (vr : WireValue) : Except Err (List WireValue) :=
  match vr with
  | .array elems => .ok elems
  | w => .error (.ReadTypeError .Array w.Type_)

/-- Method ReadValue of the array reader: the next element and the rest, none
at the end of the array (bsonrw.ErrEOA). -/
def ArrayReader.ReadValue : List WireValue → Option (WireValue × List WireValue)
  | [] => none
  | w :: rest => some (w, rest)

/-- The dispatch table from wire tags to Value variants. -/
def convFromType : BsonType → Option GoType
  | .String => some tValue_StringValue
  | .Boolean => some tValue_BoolValue
  | .Double => some tValue_NumberValue
  | .Array => some tValue_ListValue
  | .EmbeddedDocument => some tValue_StructValue
  | .Null => some tValue_NullValue
  | _ => none

/-! ## Codecs and the registry -/

/-- Codec instances: the six singletons of this package and the native codecs
of the host (scalar codecs and the pointer codec). -/
inductive Codec where
  | wrapperValueCodecRef
  | listValueCodecRef
  | valueCodecRef
  | timestampCodecRef
  | objectIDCodecRef
  | nullValueCodecRef
  | hostBool
  | hostInt
  | hostUint
  | hostFloat
  | hostString
  | hostByteSlice
  | hostTime
  | hostObjectID
  | hostPointer
  deriving DecidableEq, Repr

/-- A registry builder of the host (bsoncodec.RegistryBuilder): codecs bound
to exact types and codecs bound to kinds, for encoding and for decoding. -/
structure RegistryBuilder where
  typeEncoders : GoType → Option Codec
  typeDecoders : GoType → Option Codec
  kindEncoders : Kind → Option Codec
  kindDecoders : Kind → Option Codec

/-- The registry a builder produces (method Build): an immutable snapshot of
the builder's tables. -/
structure Registry where
  typeEncoders : GoType → Option Codec
  typeDecoders : GoType → Option Codec
  kindEncoders : Kind → Option Codec
  kindDecoders : Kind → Option Codec

/-- Method RegisterCodec of the builder: binds the codec to the type for both
directions; the last registration for a type wins. -/
def RegistryBuilder.RegisterCodec (rb : RegistryBuilder) (t : GoType) (codec : Codec) :
    RegistryBuilder :=
  { rb with
    typeEncoders := fun u => if u = t then some codec else rb.typeEncoders u
    typeDecoders := fun u => if u = t then some codec else rb.typeDecoders u }

/-- Method Build of the builder. -/
def RegistryBuilder.Build (rb : RegistryBuilder) : Registry :=
  ⟨rb.typeEncoders, rb.typeDecoders, rb.kindEncoders, rb.kindDecoders⟩

/-- Method LookupEncoder of the registry: the codec bound to the exact type,
else the codec bound to the kind of the type, else ErrNoEncoder. -/
def Registry.LookupEncoder (r : Registry) (t : GoType) : Except Err Codec :=
  match r.typeEncoders t with
  | some c => .ok c
  | none =>
    match r.kindEncoders t.Kind with
    | some c => .ok c
    | none => .error (.ErrNoEncoder t)

/-- Method LookupDecoder of the registry. -/
def Registry.LookupDecoder (r : Registry) (t : GoType) : Except Err Codec :=
  match r.typeDecoders t with
  | some c => .ok c
  | none =>
    match r.kindDecoders t.Kind with
    | some c => .ok c
    | none => .error (.ErrNoDecoder t)

/-- A builder with no registration at all (bsoncodec.NewRegistryBuilder). -/
def emptyBuilder : RegistryBuilder :=
  ⟨fun _ => none, fun _ => none, fun _ => none, fun _ => none⟩

/-- The native codecs of the host the package delegates to: byte slices,
time.Time and primitive.ObjectID by exact type, the scalar kinds and the
pointer kind by kind.  This is a part of what bson.NewRegistryBuilder()
registers, not all of it: the driver's default codecs for the struct, map,
slice and interface kinds are left out, so a lookup by one of these kinds
fails here where the driver's default builder answers with its codec of the
kind. -/
def hostBuilder : RegistryBuilder where
  typeEncoders := fun t =>
    match t with
    | .byteSlice => some .hostByteSlice
    | .Time => some .hostTime
    | .PrimitiveObjectID => some .hostObjectID
    | _ => none
  typeDecoders := fun t =>
    match t with
    | .byteSlice => some .hostByteSlice
    | .Time => some .hostTime
    | .PrimitiveObjectID => some .hostObjectID
    | _ => none
  kindEncoders := fun k =>
    match k with
    | .Bool => some .hostBool
    | .Int32 => some .hostInt
    | .Int64 => some .hostInt
    | .Uint32 => some .hostUint
    | .Uint64 => some .hostUint
    | .Float32 => some .hostFloat
    | .Float64 => some .hostFloat
    | .String => some .hostString
    | .Ptr => some .hostPointer
    | _ => none
  kindDecoders := fun k =>
    match k with
    | .Bool => some .hostBool
    | .Int32 => some .hostInt
    | .Int64 => some .hostInt
    | .Uint32 => some .hostUint
    | .Uint64 => some .hostUint
    | .Float32 => some .hostFloat
    | .Float64 => some .hostFloat
    | .String => some .hostString
    | .Ptr => some .hostPointer
    | _ => none

/-- Register registers the codecs of the package (src/codecs.go, Register). -/
def Register (rb : RegistryBuilder) : RegistryBuilder :=
  rb.RegisterCodec boolValueType .wrapperValueCodecRef
    |>.RegisterCodec bytesValueType .wrapperValueCodecRef
    |>.RegisterCodec doubleValueType .wrapperValueCodecRef
    |>.RegisterCodec floatValueType .wrapperValueCodecRef
    |>.RegisterCodec int32ValueType .wrapperValueCodecRef
    |>.RegisterCodec int64ValueType .wrapperValueCodecRef
    |>.RegisterCodec stringValueType .wrapperValueCodecRef
    |>.RegisterCodec uint32ValueType .wrapperValueCodecRef
    |>.RegisterCodec uint64ValueType .wrapperValueCodecRef
    |>.RegisterCodec timestampType .timestampCodecRef
    |>.RegisterCodec objectIDType .objectIDCodecRef
    |>.RegisterCodec tListValueType .listValueCodecRef
    |>.RegisterCodec tValue_StringValue .valueCodecRef
    |>.RegisterCodec tValue_NullValue .valueCodecRef
    |>.RegisterCodec tValue_NumberValue .valueCodecRef
    |>.RegisterCodec tValue_BoolValue .valueCodecRef
    |>.RegisterCodec tValue_StructValue .valueCodecRef
    |>.RegisterCodec tValue_ListValue .valueCodecRef
    |>.RegisterCodec tNullValue .nullValueCodecRef

/-- Register applied to hostBuilder.  The tests and the example program build
Register(bson.NewRegistryBuilder()).Build(); this registry is that one cut down
to the host codecs of hostBuilder.  Its lookups agree with the real registry
on every type Register binds, on the scalar types and on the pointer types.
They differ on the types of struct, map, slice or interface kind that Register
does not bind (Value, Struct, the map of a Struct): there the real registry
finds the driver's default codec of the kind and the lookup here fails. -/
def testRegistry : Registry := (Register hostBuilder).Build

/-- Two's complement wrap-around of 64-bit signed arithmetic. -/
def wrapInt64 (i : Int) : Int := (i + 2 ^ 63) % 2 ^ 64 - 2 ^ 63

/-- Bytes of a Go string: the UTF-8 encoding of its characters. -/
def utf8Bytes (c : Char) : List Nat :=
  let n := c.toNat
  if n < 128 then [n]
  else if n < 2048 then [192 + n / 64, 128 + n % 64]
  else if n < 65536 then [224 + n / 4096, 128 + n / 64 % 64, 128 + n % 64]
  else [240 + n / 262144, 128 + n / 4096 % 64, 128 + n / 64 % 64, 128 + n % 64]

/-- Bytes of a Go string. -/
def goBytes (s : String) : List Nat := s.toList.flatMap utf8Bytes

/-- Value of one hexadecimal digit byte (encoding/hex, fromHexChar): digits
0-9, a-f and A-F are accepted. -/
def fromHexChar (c : Nat) : Option Nat :=
  if 48 ≤ c ∧ c ≤ 57 then some (c - 48)
  else if 97 ≤ c ∧ c ≤ 102 then some (c - 97 + 10)
  else if 65 ≤ c ∧ c ≤ 70 then some (c - 65 + 10)
  else none

/-- Function hex.Decode on the bytes of the source: pairs of hexadecimal
digits give one byte each; a byte that is no hexadecimal digit or an odd
length is an error (none). -/
def hex.Decode : List Nat → Option (List Nat)
  | [] => some []
  | [_] => none
  | p :: q :: rest =>
    match fromHexChar p, fromHexChar q with
    | some a, some b =>
      match hex.Decode rest with
      | some bs => some ((a * 16 + b) :: bs)
      | none => none
    | _, _ => none

/-- Function hex.DecodeString. -/
def hex.DecodeString (s : String) : Option (List Nat) := hex.Decode (goBytes s)

/-- One lowercase hexadecimal digit (encoding/hex, hextable). -/
def hexDigit (d : Nat) : Char :=
  if d < 10 then Char.ofNat (48 + d) else Char.ofNat (87 + d)

/-- Function hex.EncodeToString: two lowercase digits per byte. -/
def hex.EncodeToString (b : List Nat) : String :=
  String.mk (b.flatMap fun x => [hexDigit (x / 16), hexDigit (x % 16)])

/-- Function primitive.ObjectIDFromHex of the host: the 12 bytes a string of
24 hexadecimal digits denotes, an error for every other string (the host's
three error values are not told apart). -/
def primitive.ObjectIDFromHex (s : String) : Except Err (List Nat) :=
  match hex.DecodeString s with
  | none => .error .ErrInvalidHex
  | some b => if b.length ≠ 12 then .error .ErrInvalidHex else .ok b

/-- Modelled from the spec: pmongo.NewObjectId is code of this repository that
is not under src/.  Spec 4.4: the decoder obtains 12 raw bytes and renders them
as a 24-character hex string; the rendering is the one of the identifier's Hex
method (hex.EncodeToString: two lowercase digits per byte). -/
def pmongo.NewObjectId (id : List Nat) : GoValue :=
  .struct objectIDType [.string (hex.EncodeToString id)]

/-- Function time.Unix: the time sec seconds and nsec nanoseconds after the
epoch, with the nanoseconds brought into [0, 10^9). -/
def time.Unix (sec nsec : Int) : GoValue :=
  if nsec < 0 ∨ nsec ≥ 1000000000 then
    let n := Int.tdiv nsec 1000000000
    let sec1 := wrapInt64 (sec + n)
    let nsec1 := nsec - n * 1000000000
    if nsec1 < 0 then .time (wrapInt64 (sec1 - 1)) (nsec1 + 1000000000)
    else .time sec1 nsec1
  else .time sec nsec

/-- Lower bound (inclusive) of valid Timestamp seconds: 0001-01-01. -/
def minValidSeconds : Int := -62135596800

/-- Upper bound (exclusive) of valid Timestamp seconds: 10000-01-01. -/
def maxValidSeconds : Int := 253402300800

/-- Function validateTimestamp of the protobuf types library. -/
def types.validateTimestamp (seconds nanos : Int) : Except Err Unit :=
  if seconds < minValidSeconds then .error .TimestampInvalid
  else if seconds ≥ maxValidSeconds then .error .TimestampInvalid
  else if nanos < 0 ∨ nanos ≥ 1000000000 then .error .TimestampInvalid
  else .ok ()

/-- Function types.TimestampFromProto: the time time.Unix gives for the pair,
together with the validation result (the time is returned also on error). -/
def types.TimestampFromProto (seconds nanos : Int) : GoValue × Except Err Unit :=
  (time.Unix seconds nanos, types.validateTimestamp seconds nanos)

/-- Function types.TimestampProto: the Timestamp of a time, an error when it
is outside the valid range. -/
def types.TimestampProto (t : GoValue) : Except Err GoValue :=
  match t with
  | .time sec nsec =>
    match types.validateTimestamp sec nsec with
    | .error e => .error e
    | .ok _ => .ok (.struct timestampType [.int64 sec, .int32 nsec])
  | _ => .error .ValueCodecError

/-- Conversion of a float32 to float64 on the bit patterns.  A NaN is widened
to a quiet NaN with the payload kept. -/
def float32To64 (b : Nat) : Nat :=
  let s := b / 2 ^ 31 % 2
  let e := b / 2 ^ 23 % 256
  let m := b % 2 ^ 23
  if e = 255 then
    if m = 0 then s * 2 ^ 63 + 2047 * 2 ^ 52
    else s * 2 ^ 63 + 2047 * 2 ^ 52 + 2 ^ 51 + (m % 2 ^ 22) * 2 ^ 29
  else if e = 0 then
    if m = 0 then s * 2 ^ 63
    else s * 2 ^ 63 + (874 + Nat.log 2 m) * 2 ^ 52 + (m - 2 ^ Nat.log 2 m) * 2 ^ (52 - Nat.log 2 m)
  else s * 2 ^ 63 + (e + 896) * 2 ^ 52 + m * 2 ^ 29

/-- The float32 whose widening is the given float64, if there is one and the
float64 is not a NaN: exactly the case in which the host's check
float64(float32(f)) == f succeeds, and then the value float32(f). -/
def float64To32Exact (f : Nat) : Option Nat :=
  let s := f / 2 ^ 63 % 2
  let e := f / 2 ^ 52 % 2048
  let m := f % 2 ^ 52
  if e = 2047 then
    if m = 0 then some (s * 2 ^ 31 + 255 * 2 ^ 23) else none
  else if e = 0 then
    if m = 0 then some (s * 2 ^ 31) else none
  else if 897 ≤ e ∧ e ≤ 1150 then
    if m % 2 ^ 29 = 0 then some (s * 2 ^ 31 + (e - 896) * 2 ^ 23 + m / 2 ^ 29) else none
  else if 874 ≤ e ∧ e ≤ 896 then
    if m % 2 ^ (52 - (e - 874)) = 0 then
      some (s * 2 ^ 31 + 2 ^ (e - 874) + m / 2 ^ (52 - (e - 874)))
    else none
  else none

/-! ## Native codecs of the host

Each decoder is modelled on the wire tag its encoder writes.  For the other
tags the host's decoders either fail or convert (depending on the tag and the
driver version); the model reports HostDecodeType there. -/

/-- Host encoder for bool. -/
def hostBool.EncodeValue (vw : ValueWriter) (val : GoValue) : Status × ValueWriter :=
  match val with
  | .bool b => vw.WriteBoolean b
  | _ => (.error .ValueCodecError, vw)

/-- Host decoder for bool. -/
def hostBool.DecodeValue (vr : WireValue) (val : GoValue) : Status × GoValue :=
  match val, vr with
  | .bool _, .boolean b => (.ok, .bool b)
  | .bool _, w => (.error (.HostDecodeType w.Type_), val)
  | _, _ => (.error .ValueCodecError, val)

/-- Host encoder for signed integers (IntEncodeValue, MinSize unset): int32 as
a wire int32, int64 as a wire int64. -/
def hostInt.EncodeValue (vw : ValueWriter) (val : GoValue) : Status × ValueWriter :=
  match val with
  | .int32 i => vw.WriteInt32 i
  | .nullValue i => vw.WriteInt32 i
  | .int64 i => vw.WriteInt64 i
  | _ => (.error .ValueCodecError, vw)

/-- Host decoder for signed integers (IntDecodeValue): a wire int32 or int64,
range-checked against the kind of the destination. -/
def hostInt.DecodeValue (vr : WireValue) (val : GoValue) : Status × GoValue :=
  match val with
  | .int32 _ =>
    match vr with
    | .int32 i => if i < -2147483648 ∨ i > 2147483647 then (.error .Overflow, val) else (.ok, .int32 i)
    | .int64 i => if i < -2147483648 ∨ i > 2147483647 then (.error .Overflow, val) else (.ok, .int32 i)
    | w => (.error (.HostDecodeType w.Type_), val)
  | .nullValue _ =>
    match vr with
    | .int32 i => if i < -2147483648 ∨ i > 2147483647 then (.error .Overflow, val) else (.ok, .nullValue i)
    | .int64 i => if i < -2147483648 ∨ i > 2147483647 then (.error .Overflow, val) else (.ok, .nullValue i)
    | w => (.error (.HostDecodeType w.Type_), val)
  | .int64 _ =>
    match vr with
    | .int32 i => (.ok, .int64 i)
    | .int64 i => (.ok, .int64 i)
    | w => (.error (.HostDecodeType w.Type_), val)
  | _ => (.error .ValueCodecError, val)

/-- Host encoder for unsigned integers (UintEncodeValue, MinSize unset): the
value as a wire int64, an error when it exceeds math.MaxInt64. -/
def hostUint.EncodeValue (vw : ValueWriter) (val : GoValue) : Status × ValueWriter :=
  match val with
  | .uint32 u => if u > 9223372036854775807 then (.error .Overflow, vw) else vw.WriteInt64 u
  | .uint64 u => if u > 9223372036854775807 then (.error .Overflow, vw) else vw.WriteInt64 u
  | _ => (.error .ValueCodecError, vw)

/-- Host decoder for unsigned integers (UintDecodeValue). -/
def hostUint.DecodeValue (vr : WireValue) (val : GoValue) : Status × GoValue :=
  match val with
  | .uint32 _ =>
    match vr with
    | .int32 i => if i < 0 ∨ i > 4294967295 then (.error .Overflow, val) else (.ok, .uint32 i.toNat)
    | .int64 i => if i < 0 ∨ i > 4294967295 then (.error .Overflow, val) else (.ok, .uint32 i.toNat)
    | w => (.error (.HostDecodeType w.Type_), val)
  | .uint64 _ =>
    match vr with
    | .int32 i => if i < 0 then (.error .Overflow, val) else (.ok, .uint64 i.toNat)
    | .int64 i => if i < 0 then (.error .Overflow, val) else (.ok, .uint64 i.toNat)
    | w => (.error (.HostDecodeType w.Type_), val)
  | _ => (.error .ValueCodecError, val)

/-- Host encoder for floats (FloatEncodeValue): the value as a wire double. -/
def hostFloat.EncodeValue (vw : ValueWriter) (val : GoValue) : Status × ValueWriter :=
  match val with
  | .float32 b => vw.WriteDouble (float32To64 b)
  | .float64 b => vw.WriteDouble b
  | _ => (.error .ValueCodecError, vw)

/-- Host decoder for floats (FloatDecodeValue, Truncate unset): a wire double;
into a float32 only when float64(float32(f)) == f. -/
def hostFloat.DecodeValue (vr : WireValue) (val : GoValue) : Status × GoValue :=
  match val with
  | .float32 _ =>
    match vr with
    | .double f =>
      match float64To32Exact f with
      | some b => (.ok, .float32 b)
      | none => (.error .CannotTruncate, val)
    | w => (.error (.HostDecodeType w.Type_), val)
  | .float64 _ =>
    match vr with
    | .double f => (.ok, .float64 f)
    | w => (.error (.HostDecodeType w.Type_), val)
  | _ => (.error .ValueCodecError, val)

/-- Host encoder for strings. -/
def hostString.EncodeValue (vw : ValueWriter) (val : GoValue) : Status × ValueWriter :=
  match val with
  | .string s => vw.WriteString s
  | _ => (.error .ValueCodecError, vw)

/-- Host decoder for strings. -/
def hostString.DecodeValue (vr : WireValue) (val : GoValue) : Status × GoValue :=
  match val, vr with
  | .string _, .string s => (.ok, .string s)
  | .string _, w => (.error (.HostDecodeType w.Type_), val)
  | _, _ => (.error .ValueCodecError, val)

/-- Host encoder for byte slices (ByteSliceEncodeValue): a nil slice is the
wire null, another slice a wire binary. -/
def hostByteSlice.EncodeValue (vw : ValueWriter) (val : GoValue) : Status × ValueWriter :=
  match val with
  | .byteSlice none => vw.WriteNull
  | .byteSlice (some b) => vw.WriteBinary b
  | _ => (.error .ValueCodecError, vw)

/-- Host decoder for byte slices (ByteSliceDecodeValue). -/
def hostByteSlice.DecodeValue (vr : WireValue) (val : GoValue) : Status × GoValue :=
  match val with
  | .byteSlice _ =>
    match vr with
    | .null => (.ok, .byteSlice none)
    | .binary 0 data => (.ok, .byteSlice (some data))
    | w => (.error (.HostDecodeType w.Type_), val)
  | _ => (.error .ValueCodecError, val)

/-- Host encoder for time.Time (TimeEncodeValue): milliseconds since the
epoch, tt.Unix()*1000 + tt.Nanosecond()/1e6 in int64 arithmetic. -/
def hostTime.EncodeValue (vw : ValueWriter) (val : GoValue) : Status × ValueWriter :=
  match val with
  | .time sec nsec => vw.WriteDateTime (wrapInt64 (wrapInt64 (sec * 1000) + Int.tdiv nsec 1000000))
  | _ => (.error .ValueCodecError, vw)

/-- Host decoder for time.Time (TimeDecodeValue):
time.Unix(dt/1000, dt%1000*1000000) in UTC. -/
def hostTime.DecodeValue (vr : WireValue) (val : GoValue) : Status × GoValue :=
  match val with
  | .time _ _ =>
    match vr with
    | .dateTime dt => (.ok, time.Unix (Int.tdiv dt 1000) (Int.tmod dt 1000 * 1000000))
    | w => (.error (.HostDecodeType w.Type_), val)
  | _ => (.error .ValueCodecError, val)

/-- Host encoder for primitive.ObjectID. -/
def hostObjectID.EncodeValue (vw : ValueWriter) (val : GoValue) : Status × ValueWriter :=
  match val with
  | .objectID b => vw.WriteObjectID b
  | _ => (.error .ValueCodecError, vw)

/-- Host decoder for primitive.ObjectID. -/
def hostObjectID.DecodeValue (vr : WireValue) (val : GoValue) : Status × GoValue :=
  match val with
  | .objectID _ =>
    match vr with
    | .objectID b => (.ok, .objectID b)
    | w => (.error (.HostDecodeType w.Type_), val)
  | _ => (.error .ValueCodecError, val)

/-- A call enc.EncodeValue(ectx, vw, val) through a codec found in the registry. -/
abbrev Encoder := Codec → ValueWriter → GoValue → Status × ValueWriter

/-- A call dec.DecodeValue(ectx, vr, val) through a codec found in the
registry; the second component is the destination after the call. -/
abbrev Decoder := Codec → WireValue → GoValue → Status × GoValue

/-- Host pointer codec, encoding (PointerCodec.EncodeValue): a nil pointer is
the wire null, otherwise the encoder of the element type encodes the target. -/
def hostPointer.EncodeValue (call : Encoder) (ec : Registry) (vw : ValueWriter) (val : GoValue) :
    Status × ValueWriter :=
  match val with
  | .ptr _ none => vw.WriteNull
  | .ptr e (some target) =>
    match ec.LookupEncoder e with
    | .error err => (.error err, vw)
    | .ok enc => call enc vw target
  | _ => (.error .ValueCodecError, vw)

/-- Host pointer codec, decoding (PointerCodec.DecodeValue): the wire null
sets the pointer to nil; otherwise a nil pointer is first set to a fresh zero
value, then the decoder of the element type decodes into the target. -/
def hostPointer.DecodeValue (call : Decoder) (dc : Registry) (vr : WireValue) (val : GoValue) :
    Status × GoValue :=
  match val with
  | .ptr e target =>
    match vr with
    | .null => (.ok, .ptr e none)
    | _ =>
      let cur := match target with
        | some v => v
        | none => reflect.Zero e
      match dc.LookupDecoder e with
      | .error err => (.error err, .ptr e (some cur))
      | .ok dec =>
        match call dec vr cur with
        | (st, cur1) => (st, .ptr e (some cur1))
  | _ => (.error .ValueCodecError, val)

/-! ## The codecs of the package (src/codecs.go) -/

/-- Method nullValueCodec.EncodeValue: writes the null marker, whatever the value. -/
def nullValueCodec.EncodeValue (vw : ValueWriter) (_val : GoValue) : Status × ValueWriter :=
  vw.WriteNull

/-- Method nullValueCodec.DecodeValue: the destination is set to
NullValue_NULL_VALUE first, then the null marker is read.  Setting a
destination of another type panics in reflect. -/
def nullValueCodec.DecodeValue (vr : WireValue) (val : GoValue) : Status × GoValue :=
  if val.TypeOf = tNullValue then
    let val := NullValue_NULL_VALUE
    match vr.ReadNull with
    | .ok _ => (.ok, val)
    | .error err => (.error err, val)
  else (.panic, val)

/-- Method valueCodec.EncodeValue: the codec of the type of field 0 encodes
field 0. -/
def valueCodec.EncodeValue (call : Encoder) (ectx : Registry) (vw : ValueWriter) (val : GoValue) :
    Status × ValueWriter :=
  match reflect.Indirect val with
  | none => (.panic, vw)
  | some val =>
    match val.Field 0 with
    | none => (.panic, vw)
    | some val =>
      match ectx.LookupEncoder val.TypeOf with
      | .error err => (.error err, vw)
      | .ok enc => call enc vw val

/-- Method valueCodec.DecodeValue: the codec of the static type of field 0
decodes into field 0. -/
def valueCodec.DecodeValue (call : Decoder) (ectx : Registry) (vr : WireValue) (val : GoValue) :
    Status × GoValue :=
  match reflect.Indirect val with
  | none => (.panic, val)
  | some s =>
    match s.Field 0 with
    | none => (.panic, val)
    | some x =>
      match ectx.LookupDecoder x.TypeOf with
      | .error err => (.error err, val)
      | .ok enc =>
        match call enc vr x with
        | (st, x1) => (st, reflect.StoreIndirect val (s.SetField 0 x1))

/-- The loop `for v.Kind() == reflect.Ptr` of listValueCodec.EncodeValue.  On a
nil pointer the body calls vw.WriteNull(), drops its result and continues this
same loop with v unchanged; on a non-nil pointer v becomes its target.  The
result is the writer and the unwrapped value when the loop is left, none when
the fuel is used up first. -/
def listValueCodec.unwrapLoop : Nat → ValueWriter → GoValue → Option (ValueWriter × GoValue)
  | 0, _, _ => none
  | fuel + 1, vw, v =>
    if v.Kind = .Ptr then
      if v.IsNil then
        listValueCodec.unwrapLoop fuel (vw.WriteNull).2 v
      else
        match v.Elem with
        | none => none
        | some v1 => listValueCodec.unwrapLoop fuel vw v1
    else some (vw, v)

/-- The loop over the elements of listValueCodec.EncodeValue, from the current
element on, followed by the closing aw.WriteArrayEnd(). -/
def listValueCodec.encodeLoop (call : Encoder) (fuel : Nat) (ectx : Registry) :
    List GoValue → ValueWriter → Status × ValueWriter
  | [], aw => aw.WriteArrayEnd
  | v :: rest, aw =>
    match aw.WriteArrayElement with
    | (.ok, vw) =>
      match listValueCodec.unwrapLoop fuel vw v with
      | none => (.timeout, vw)
      | some (vw, v) =>
        match (if v.TypeOf = tValue then v.Field 0 else some v) with
        | none => (.panic, vw)
        | some v =>
          match v.Interface with
          | none => (.panic, vw)
          | some x =>
            match x.TypeOf.Elem with
            | none => (.panic, vw)
            | some t =>
              match ectx.LookupEncoder t with
              | .error err => (.error err, vw)
              | .ok enc =>
                match call enc vw x with
                | (.ok, vw) => listValueCodec.encodeLoop call fuel ectx rest vw
                | (st, vw) => (st, vw)
    | (st, vw) => (st, vw)

/-- Method listValueCodec.EncodeValue: opens a wire array, encodes the
elements of field 0 in order, closes the array. -/
def listValueCodec.EncodeValue (call : Encoder) (fuel : Nat) (ectx : Registry) (vw : ValueWriter)
    (val : GoValue) : Status × ValueWriter :=
  match val.Field 0 with
  | none => (.panic, vw)
  | some val =>
    match vw.WriteArray with
    | (.ok, aw) =>
      match val.Elems with
      | none => (.panic, aw)
      | some vs => listValueCodec.encodeLoop call fuel ectx vs aw
    | (st, vw) => (st, vw)

/-- The reading loop of listValueCodec.DecodeValue: the elements still to be
read and the buffer elems of the Value nodes decoded so far.  Returns the
status and the buffer. -/
def listValueCodec.decodeLoop (call : Decoder) (ectx : Registry) :
    List WireValue → List GoValue → Status × List GoValue
  | [], elems => (.ok, elems)
  | vr :: ar, elems =>
    match convFromType vr.Type_ with
    | none => (.error (.UnexpectedType vr.Type_), elems)
    | some cvt =>
      match ectx.LookupDecoder cvt with
      | .error err => (.error err, elems)
      | .ok decoder =>
        match call decoder vr (reflect.New cvt) with
        | (.ok, elem) =>
          let target := (reflect.Zero tValue).SetField 0 (.iface (some elem))
          listValueCodec.decodeLoop call ectx ar (elems ++ [target])
        | (st, _) => (st, elems)

/-- Method listValueCodec.DecodeValue: reads the wire array into a buffer of
Value nodes, then sets field 0 of the destination to the pointers to them. -/
def listValueCodec.DecodeValue (call : Decoder) (ectx : Registry) (vr : WireValue) (val : GoValue) :
    Status × GoValue :=
  match val.Field 0 with
  | none => (.panic, val)
  | some vals =>
    match vr.ReadArray with
    | .error err => (.error err, val)
    | .ok ar =>
      match listValueCodec.decodeLoop call ectx ar [] with
      | (.ok, elems) =>
        if vals.TypeOf = .valueSlice then
          (.ok, val.SetField 0 (.slice (elems.map fun elem => .ptr tValue (some elem))))
        else (.panic, val)
      | (st, _) => (st, val)

/-- Method wrapperValueCodec.EncodeValue: the codec of the type of field 0
encodes field 0. -/
def wrapperValueCodec.EncodeValue (call : Encoder) (ectx : Registry) (vw : ValueWriter)
    (val : GoValue) : Status × ValueWriter :=
  match reflect.Indirect val with
  | none => (.panic, vw)
  | some val =>
    match val.Field 0 with
    | none => (.panic, vw)
    | some val =>
      match ectx.LookupEncoder val.TypeOf with
      | .error err => (.error err, vw)
      | .ok enc => call enc vw val

/-- Method wrapperValueCodec.DecodeValue: the codec of the type of field 0
decodes into field 0. -/
def wrapperValueCodec.DecodeValue (call : Decoder) (ectx : Registry) (vr : WireValue)
    (val : GoValue) : Status × GoValue :=
  match reflect.Indirect val with
  | none => (.panic, val)
  | some s =>
    match s.Field 0 with
    | none => (.panic, val)
    | some x =>
      match ectx.LookupDecoder x.TypeOf with
      | .error err => (.error err, val)
      | .ok enc =>
        match call enc vr x with
        | (st, x1) => (st, reflect.StoreIndirect val (s.SetField 0 x1))

/-- Method timestampCodec.EncodeValue.  The error of TimestampFromProto is
assigned to err and overwritten by the lookup that follows before it is
looked at; the time is encoded by the codec of time.Time. -/
def timestampCodec.EncodeValue (call : Encoder) (ectx : Registry) (vw : ValueWriter)
    (val : GoValue) : Status × ValueWriter :=
  match val with
  | .struct .Timestamp [.int64 seconds, .int32 nanos] =>
    match types.TimestampFromProto seconds nanos with
    | (t, _) =>
      match ectx.LookupEncoder timeType with
      | .error err => (.error err, vw)
      | .ok enc => call enc vw t
  | _ => (.panic, vw)

/-- Method timestampCodec.DecodeValue: the codec of time.Time decodes a time,
which TimestampProto converts; the destination is set on success only. -/
def timestampCodec.DecodeValue (call : Decoder) (ectx : Registry) (vr : WireValue)
    (val : GoValue) : Status × GoValue :=
  match ectx.LookupDecoder timeType with
  | .error err => (.error err, val)
  | .ok enc =>
    match call enc vr (reflect.Zero timeType) with
    | (.ok, t) =>
      match types.TimestampProto t with
      | .error err => (.error err, val)
      | .ok ts => if val.TypeOf = timestampType then (.ok, ts) else (.panic, val)
    | (st, _) => (st, val)

/-- Method objectIDCodec.EncodeValue: the string is parsed first, then the
codec of primitive.ObjectID is looked up and encodes the identifier. -/
def objectIDCodec.EncodeValue (call : Encoder) (ectx : Registry) (vw : ValueWriter)
    (val : GoValue) : Status × ValueWriter :=
  match val with
  | .struct .ObjectId [.string value] =>
    match primitive.ObjectIDFromHex value with
    | .error err => (.error err, vw)
    | .ok id =>
      match ectx.LookupEncoder objectIDPrimitiveType with
      | .error err => (.error err, vw)
      | .ok enc => call enc vw (.objectID id)
  | _ => (.panic, vw)

/-- Method objectIDCodec.DecodeValue: the codec of primitive.ObjectID decodes
the identifier, NewObjectId renders it; the destination is set on success only
(the second test of err in the source can never fire). -/
def objectIDCodec.DecodeValue (call : Decoder) (ectx : Registry) (vr : WireValue)
    (val : GoValue) : Status × GoValue :=
  match ectx.LookupDecoder objectIDPrimitiveType with
  | .error err => (.error err, val)
  | .ok enc =>
    match call enc vr (reflect.Zero objectIDPrimitiveType) with
    | (.ok, .objectID id) =>
      if val.TypeOf = objectIDType then (.ok, pmongo.NewObjectId id) else (.panic, val)
    | (.ok, _) => (.panic, val)
    | (st, _) => (st, val)

/-- Dynamic dispatch of enc.EncodeValue(ectx, vw, val) for a codec of the
registry.  The fuel bounds the depth of nested codec calls and the iterations
of the pointer loop; timeout means the fuel did not suffice. -/
def EncodeValue : Nat → Registry → Codec → ValueWriter → GoValue → Status × ValueWriter
  | 0, _, _, vw, _ => (.timeout, vw)
  | fuel + 1, ectx, codec, vw, val =>
    match codec with
    | .wrapperValueCodecRef => wrapperValueCodec.EncodeValue (EncodeValue fuel ectx) ectx vw val
    | .listValueCodecRef => listValueCodec.EncodeValue (EncodeValue fuel ectx) fuel ectx vw val
    | .valueCodecRef => valueCodec.EncodeValue (EncodeValue fuel ectx) ectx vw val
    | .timestampCodecRef => timestampCodec.EncodeValue (EncodeValue fuel ectx) ectx vw val
    | .objectIDCodecRef => objectIDCodec.EncodeValue (EncodeValue fuel ectx) ectx vw val
    | .nullValueCodecRef => nullValueCodec.EncodeValue vw val
    | .hostBool => hostBool.EncodeValue vw val
    | .hostInt => hostInt.EncodeValue vw val
    | .hostUint => hostUint.EncodeValue vw val
    | .hostFloat => hostFloat.EncodeValue vw val
    | .hostString => hostString.EncodeValue vw val
    | .hostByteSlice => hostByteSlice.EncodeValue vw val
    | .hostTime => hostTime.EncodeValue vw val
    | .hostObjectID => hostObjectID.EncodeValue vw val
    | .hostPointer => hostPointer.EncodeValue (EncodeValue fuel ectx) ectx vw val

/-- Dynamic dispatch of dec.DecodeValue(ectx, vr, val) for a codec of the
registry; returns the status and the destination after the call. -/
def DecodeValue : Nat → Registry → Codec → WireValue → GoValue → Status × GoValue
  | 0, _, _, _, val => (.timeout, val)
  | fuel + 1, ectx, codec, vr, val =>
    match codec with
    | .wrapperValueCodecRef => wrapperValueCodec.DecodeValue (DecodeValue fuel ectx) ectx vr val
    | .listValueCodecRef => listValueCodec.DecodeValue (DecodeValue fuel ectx) ectx vr val
    | .valueCodecRef => valueCodec.DecodeValue (DecodeValue fuel ectx) ectx vr val
    | .timestampCodecRef => timestampCodec.DecodeValue (DecodeValue fuel ectx) ectx vr val
    | .objectIDCodecRef => objectIDCodec.DecodeValue (DecodeValue fuel ectx) ectx vr val
    | .nullValueCodecRef => nullValueCodec.DecodeValue vr val
    | .hostBool => hostBool.DecodeValue vr val
    | .hostInt => hostInt.DecodeValue vr val
    | .hostUint => hostUint.DecodeValue vr val
    | .hostFloat => hostFloat.DecodeValue vr val
    | .hostString => hostString.DecodeValue vr val
    | .hostByteSlice => hostByteSlice.DecodeValue vr val
    | .hostTime => hostTime.DecodeValue vr val
    | .hostObjectID => hostObjectID.DecodeValue vr val
    | .hostPointer => hostPointer.DecodeValue (DecodeValue fuel ectx) ectx vr val

/-! ## The well-formed lists of the claims -/

/-- The list elements the round-trip claims speak about: a non-nil Value
whose active variant is String, Number, Bool, Null (holding the enum's one
constant NullValue_NULL_VALUE) or List, the List variant holding a non-nil
ListValue whose elements are again of this form.  The same type indexes the
wire arrays whose elements have the tags string, double, boolean, null and
array (nested arrays of the same form). -/
inductive WfValue where
  | str (s : String)
  | num (bits : Nat)
  | bool (b : Bool)
  | null
  | list (values : List WfValue)
  deriving Repr

/-- The Go expression &types.Value{Kind: kind}. -/
def mkValue (kind : GoValue) : GoValue :=
  .ptr tValue (some (.struct tValue [.iface (some kind)]))

/-- The Go expression types.ListValue{Values: values}. -/
def mkListValue (values : List GoValue) : GoValue :=
  .struct tListValueType [.slice values]

mutual
/-- The Kind field of a well-formed element: the pointer to its variant struct. -/
def WfValue.kind : WfValue → GoValue
  | .str s => .ptr tValue_StringValue (some (.struct tValue_StringValue [.string s]))
  | .num bits => .ptr tValue_NumberValue (some (.struct tValue_NumberValue [.float64 bits]))
  | .bool b => .ptr tValue_BoolValue (some (.struct tValue_BoolValue [.bool b]))
  | .null => .ptr tValue_NullValue (some (.struct tValue_NullValue [NullValue_NULL_VALUE]))
  | .list values =>
    .ptr tValue_ListValue (some (.struct tValue_ListValue
      [.ptr tListValueType (some (mkListValue (WfValue.goList values)))]))
/-- The Go elements (pointers to Value) of a sequence of well-formed elements. -/
def WfValue.goList : List WfValue → List GoValue
  | [] => []
  | v :: vs => mkValue v.kind :: WfValue.goList vs
end

/-- The Go value of a well-formed element: a non-nil pointer to a Value. -/
def WfValue.toGo (v : WfValue) : GoValue := mkValue v.kind

mutual
/-- The wire value of a well-formed element. -/
def WfValue.toWire : WfValue → WireValue
  | .str s => .string s
  | .num bits => .double bits
  | .bool b => .boolean b
  | .null => .null
  | .list values => .array (WfValue.wireList values)
/-- The wire elements of a sequence of well-formed elements. -/
def WfValue.wireList : List WfValue → List WireValue
  | [] => []
  | v :: vs => v.toWire :: WfValue.wireList vs
end

mutual
/-- Nesting depth of a well-formed element: 0 for a scalar, one more than the
deepest element for a list. -/
def WfValue.depth : WfValue → Nat
  | .str _ => 0
  | .num _ => 0
  | .bool _ => 0
  | .null => 0
  | .list values => 1 + WfValue.depthList values
/-- Largest nesting depth among the elements of a sequence. -/
def WfValue.depthList : List WfValue → Nat
  | [] => 0
  | v :: vs => max v.depth (WfValue.depthList vs)
end

mutual
/-- Nesting depth of a wire value: 0 for a scalar, one more than the deepest
element for an array. -/
def WireValue.depth : WireValue → Nat
  | .array elems => 1 + WireValue.depthList elems
  | _ => 0
/-- Largest nesting depth among the elements of a wire array. -/
def WireValue.depthList : List WireValue → Nat
  | [] => 0
  | w :: ws => max w.depth (WireValue.depthList ws)
end

mutual
/-- The element of a ListValue is a non-nil pointer to a Value whose Kind holds
a non-nil pointer to one of the variant structs String, Number, Bool, Null
(with NullValue_NULL_VALUE) or List, the List variant pointing at a non-nil
ListValue whose elements are again of this form. -/
def GoValue.wfElem : GoValue → Bool
  | .ptr .Value (some (.struct .Value [.iface (some
      (.ptr .Value_StringValue (some (.struct .Value_StringValue [.string _]))))])) => true
  | .ptr .Value (some (.struct .Value [.iface (some
      (.ptr .Value_NumberValue (some (.struct .Value_NumberValue [.float64 _]))))])) => true
  | .ptr .Value (some (.struct .Value [.iface (some
      (.ptr .Value_BoolValue (some (.struct .Value_BoolValue [.bool _]))))])) => true
  | .ptr .Value (some (.struct .Value [.iface (some
      (.ptr .Value_NullValue (some (.struct .Value_NullValue [.nullValue 0]))))])) => true
  | .ptr .Value (some (.struct .Value [.iface (some
      (.ptr .Value_ListValue (some (.struct .Value_ListValue
        [.ptr .ListValue (some (.struct .ListValue [.slice vs]))]))))])) => GoValue.wfElems vs
  | _ => false
/-- Every element of the sequence is a well-formed list element. -/
def GoValue.wfElems : List GoValue → Bool
  | [] => true
  | v :: vs => v.wfElem && GoValue.wfElems vs
end

mutual
/-- The wire value has one of the tags string, boolean, double, null and
array, and the elements of an array are again of this form. -/
def WireValue.supported : WireValue → Bool
  | .string _ => true
  | .boolean _ => true
  | .double _ => true
  | .null => true
  | .array elems => WireValue.supportedList elems
  | _ => false
/-- Every element of the sequence of wire values is supported. -/
def WireValue.supportedList : List WireValue → Bool
  | [] => true
  | w :: ws => w.supported && WireValue.supportedList ws
end

/-! ## The wrappers of the claims -/

/-- A wrapper message of one of the nine kinds, with its inner scalar (field
Value): floats as bit patterns, a byte slice nil or a byte sequence. -/
inductive Wrapper where
  | BoolValue (value : Bool)
  | BytesValue (value : Option (List Nat))
  | DoubleValue (bits : Nat)
  | FloatValue (bits : Nat)
  | Int32Value (value : Int)
  | Int64Value (value : Int)
  | StringValue (value : String)
  | UInt32Value (value : Nat)
  | UInt64Value (value : Nat)
  deriving Repr

/-- The Go value of a wrapper: the struct of its kind with the scalar in field 0. -/
def Wrapper.toGo : Wrapper → GoValue
  | .BoolValue v => .struct boolValueType [.bool v]
  | .BytesValue v => .struct bytesValueType [.byteSlice v]
  | .DoubleValue b => .struct doubleValueType [.float64 b]
  | .FloatValue b => .struct floatValueType [.float32 b]
  | .Int32Value v => .struct int32ValueType [.int32 v]
  | .Int64Value v => .struct int64ValueType [.int64 v]
  | .StringValue v => .struct stringValueType [.string v]
  | .UInt32Value v => .struct uint32ValueType [.uint32 v]
  | .UInt64Value v => .struct uint64ValueType [.uint64 v]

/-- The inner scalar is a value of its Go type: integers within the range of
their width, float bit patterns within their width. -/
def Wrapper.inRange : Wrapper → Bool
  | .DoubleValue b => decide (b < 2 ^ 64)
  | .FloatValue b => decide (b < 2 ^ 32)
  | .Int32Value v => decide (-2147483648 ≤ v ∧ v ≤ 2147483647)
  | .Int64Value v => decide (-9223372036854775808 ≤ v ∧ v ≤ 9223372036854775807)
  | .UInt32Value v => decide (v ≤ 4294967295)
  | .UInt64Value v => decide (v ≤ 18446744073709551615)
  | _ => true

/-- A float32 bit pattern is a NaN: exponent all ones, fraction not zero. -/
def isNaN32 (b : Nat) : Bool := decide (b / 2 ^ 23 % 256 = 255 ∧ b % 2 ^ 23 ≠ 0)

/-- The wrappers the wire format carries: every wrapper except a UInt64Value
above math.MaxInt64 and a FloatValue holding a NaN. -/
def Wrapper.onWire : Wrapper → Bool
  | .UInt64Value v => decide (v ≤ 9223372036854775807)
  | .FloatValue b => !isNaN32 b
  | _ => true

/-! ## Hexadecimal identifier strings -/

/-- The character is a hexadecimal digit (0-9, a-f or A-F). -/
def isHexChar (c : Char) : Bool := (fromHexChar c.toNat).isSome

/-- The string consists of exactly 24 hexadecimal digits. -/
def isHex24 (s : String) : Bool := decide (s.length = 24) && s.toList.all isHexChar

/-- A hexadecimal digit in lowercase: A-F become a-f, other characters stay. -/
def lowerHexChar (c : Char) : Char :=
  if 65 ≤ c.toNat ∧ c.toNat ≤ 70 then Char.ofNat (c.toNat + 32) else c

/-- The string with its hexadecimal digits A-F in lowercase. -/
def lowerHex (s : String) : String := String.mk (s.toList.map lowerHexChar)

/-- The character is a lowercase hexadecimal digit (0-9 or a-f). -/
def isLowerHexChar (c : Char) : Bool :=
  decide ((48 ≤ c.toNat ∧ c.toNat ≤ 57) ∨ (97 ≤ c.toNat ∧ c.toNat ≤ 102))

/-- The string consists of exactly 24 lowercase hexadecimal digits. -/
def isLowerHex24 (s : String) : Bool := decide (s.length = 24) && s.toList.all isLowerHexChar

/-- Modelled from the spec: the type pmongo.ObjectId is declared outside src/;
the codec reads its field Value, the identifier's 24-character hexadecimal
string (spec 3, ObjectID).  This is the Go value pmongo.ObjectId{Value: s}. -/
def mkObjectId (s : String) : GoValue := .struct objectIDType [.string s]

/-! ## Notions used in the statements -/

/-- The registry binds, for encoding, the codecs the well-formed list elements
need in the way Register and the host's native codecs do: the five variant
structs to the value codec, their payload types string, float64, bool and
NullValue to the host's scalar codecs and the null codec, the pointer to a
ListValue to the host's pointer codec and ListValue to the list codec. -/
structure Registry.EncodesValues (r : Registry) : Prop where
  vString : r.LookupEncoder tValue_StringValue = .ok .valueCodecRef
  vNumber : r.LookupEncoder tValue_NumberValue = .ok .valueCodecRef
  vBool : r.LookupEncoder tValue_BoolValue = .ok .valueCodecRef
  vNull : r.LookupEncoder tValue_NullValue = .ok .valueCodecRef
  vList : r.LookupEncoder tValue_ListValue = .ok .valueCodecRef
  pString : r.LookupEncoder .string = .ok .hostString
  pNumber : r.LookupEncoder .float64 = .ok .hostFloat
  pBool : r.LookupEncoder .bool = .ok .hostBool
  pNull : r.LookupEncoder tNullValue = .ok .nullValueCodecRef
  pListPtr : r.LookupEncoder (.ptr tListValueType) = .ok .hostPointer
  pList : r.LookupEncoder tListValueType = .ok .listValueCodecRef

/-- The call returned: with nil or with an error (it neither panicked nor ran
out of fuel). -/
def Status.returned : Status → Bool
  | .ok => true
  | .error _ => true
  | _ => false

theorem EncodeValue_valueCodec (fuel : Nat) (ectx : Registry) (vw : ValueWriter) (val : GoValue) :
    EncodeValue (fuel + 1) ectx .valueCodecRef vw val
      = valueCodec.EncodeValue (EncodeValue fuel ectx) ectx vw val := rfl

theorem EncodeValue_listCodec (fuel : Nat) (ectx : Registry) (vw : ValueWriter) (val : GoValue) :
    EncodeValue (fuel + 1) ectx .listValueCodecRef vw val
      = listValueCodec.EncodeValue (EncodeValue fuel ectx) fuel ectx vw val := rfl

theorem EncodeValue_timestampCodec (fuel : Nat) (ectx : Registry) (vw : ValueWriter)
    (val : GoValue) :
    EncodeValue (fuel + 1) ectx .timestampCodecRef vw val
      = timestampCodec.EncodeValue (EncodeValue fuel ectx) ectx vw val := rfl

theorem EncodeValue_objectIDCodec (fuel : Nat) (ectx : Registry) (vw : ValueWriter)
    (val : GoValue) :
    EncodeValue (fuel + 1) ectx .objectIDCodecRef vw val
      = objectIDCodec.EncodeValue (EncodeValue fuel ectx) ectx vw val := rfl

theorem EncodeValue_hostPointer (fuel : Nat) (ectx : Registry) (vw : ValueWriter) (val : GoValue) :
    EncodeValue (fuel + 1) ectx .hostPointer vw val
      = hostPointer.EncodeValue (EncodeValue fuel ectx) ectx vw val := rfl

theorem DecodeValue_valueCodec (fuel : Nat) (ectx : Registry) (vr : WireValue) (val : GoValue) :
    DecodeValue (fuel + 1) ectx .valueCodecRef vr val
      = valueCodec.DecodeValue (DecodeValue fuel ectx) ectx vr val := rfl

theorem DecodeValue_wrapperCodec (fuel : Nat) (ectx : Registry) (vr : WireValue) (val : GoValue) :
    DecodeValue (fuel + 1) ectx .wrapperValueCodecRef vr val
      = wrapperValueCodec.DecodeValue (DecodeValue fuel ectx) ectx vr val := rfl

theorem DecodeValue_listCodec (fuel : Nat) (ectx : Registry) (vr : WireValue) (val : GoValue) :
    DecodeValue (fuel + 1) ectx .listValueCodecRef vr val
      = listValueCodec.DecodeValue (DecodeValue fuel ectx) ectx vr val := rfl

theorem DecodeValue_timestampCodec (fuel : Nat) (ectx : Registry) (vr : WireValue)
    (val : GoValue) :
    DecodeValue (fuel + 1) ectx .timestampCodecRef vr val
      = timestampCodec.DecodeValue (DecodeValue fuel ectx) ectx vr val := rfl

theorem DecodeValue_objectIDCodec (fuel : Nat) (ectx : Registry) (vr : WireValue)
    (val : GoValue) :
    DecodeValue (fuel + 1) ectx .objectIDCodecRef vr val
      = objectIDCodec.DecodeValue (DecodeValue fuel ectx) ectx vr val := rfl

theorem DecodeValue_hostPointer (fuel : Nat) (ectx : Registry) (vr : WireValue) (val : GoValue) :
    DecodeValue (fuel + 1) ectx .hostPointer vr val
      = hostPointer.DecodeValue (DecodeValue fuel ectx) ectx vr val := rfl

theorem DecodeValue_nullCodec (fuel : Nat) (ectx : Registry) (vr : WireValue) (val : GoValue) :
    DecodeValue (fuel + 1) ectx .nullValueCodecRef vr val = nullValueCodec.DecodeValue vr val := rfl

theorem EncodeValue_nullCodec (fuel : Nat) (ectx : Registry) (vw : ValueWriter) (val : GoValue) :
    EncodeValue (fuel + 1) ectx .nullValueCodecRef vw val = nullValueCodec.EncodeValue vw val := rfl

theorem goList_eq_map (vs : List WfValue) : WfValue.goList vs = vs.map WfValue.toGo := by
  induction vs with
  | nil => rfl
  | cons v vs ih => simp [WfValue.goList, WfValue.toGo, ih]

theorem wireList_eq_map (vs : List WfValue) : WfValue.wireList vs = vs.map WfValue.toWire := by
  induction vs with
  | nil => rfl
  | cons v vs ih => simp [WfValue.wireList, ih]

theorem depth_le_depthList {v : WfValue} {vs : List WfValue} (h : v ∈ vs) :
    v.depth ≤ WfValue.depthList vs := by
  induction vs with
  | nil => cases h
  | cons a vs ih =>
    simp only [WfValue.depthList]
    rcases List.mem_cons.mp h with rfl | h1
    · omega
    · have := ih h1
      omega

theorem unwrapLoop_mkValue (fuel : Nat) (vw : ValueWriter) (kind : GoValue) :
    listValueCodec.unwrapLoop (fuel + 2) vw (mkValue kind)
      = some (vw, .struct tValue [.iface (some kind)]) := by
  rfl

theorem testRegistry_encodesValues : testRegistry.EncodesValues :=
  ⟨rfl, rfl, rfl, rfl, rfl, rfl, rfl, rfl, rfl, rfl, rfl⟩

theorem kind_typeOf_lookup (r : Registry) (hr : r.EncodesValues) (v : WfValue) :
    ∃ t, v.kind.TypeOf.Elem = some t ∧ r.LookupEncoder t = .ok .valueCodecRef := by
  cases v with
  | str s => exact ⟨_, rfl, hr.vString⟩
  | num b => exact ⟨_, rfl, hr.vNumber⟩
  | bool b => exact ⟨_, rfl, hr.vBool⟩
  | null => exact ⟨_, rfl, hr.vNull⟩
  | list vs => exact ⟨_, rfl, hr.vList⟩

/-- One round of the element loop of the list encoder on a non-nil Value
element whose Kind the codec enc, found for its variant type, encodes to the
wire value w. -/
theorem encodeLoop_round (call : Encoder) (ectx : Registry) (fuel : Nat) (kind : GoValue)
    (t : GoType) (enc : Codec) (gs : List GoValue) (vw1 : ValueWriter)
    (done : List WireValue) (rest : List Frame) (out : List WireValue)
    (ht : kind.TypeOf.Elem = some t) (hl : ectx.LookupEncoder t = .ok enc)
    (h : call enc ⟨.value :: .array done :: .value :: rest, out⟩ kind = (.ok, vw1)) :
    listValueCodec.encodeLoop call (fuel + 2) ectx
        (mkValue kind :: gs) ⟨.array done :: .value :: rest, out⟩
      = listValueCodec.encodeLoop call (fuel + 2) ectx gs vw1 := by
  have hi : (GoValue.iface (some kind)).Interface = some kind := rfl
  have hty : (GoValue.struct tValue [.iface (some kind)]).TypeOf = tValue := rfl
  have hfd : (GoValue.struct tValue [.iface (some kind)]).Field 0
      = some (.iface (some kind)) := rfl
  simp only [listValueCodec.encodeLoop, ValueWriter.WriteArrayElement, unwrapLoop_mkValue,
    hty, hfd, if_true, hi, ht, hl, h]

theorem encodeLoop_step (r : Registry) (hr : r.EncodesValues) (fuel : Nat) (v : WfValue)
    (gs : List GoValue) (w : WireValue)
    (done : List WireValue) (rest : List Frame) (out : List WireValue)
    (h : EncodeValue (fuel + 2) r .valueCodecRef
          ⟨.value :: .array done :: .value :: rest, out⟩ v.kind
        = (.ok, ⟨.array (done ++ [w]) :: .value :: rest, out⟩)) :
    listValueCodec.encodeLoop (EncodeValue (fuel + 2) r) (fuel + 2) r
        (mkValue v.kind :: gs) ⟨.array done :: .value :: rest, out⟩
      = listValueCodec.encodeLoop (EncodeValue (fuel + 2) r) (fuel + 2) r
        gs ⟨.array (done ++ [w]) :: .value :: rest, out⟩ := by
  obtain ⟨t, ht, hl⟩ := kind_typeOf_lookup r hr v
  exact encodeLoop_round _ r fuel v.kind t _ gs _ done rest out ht hl h

theorem encodeLoop_leading (r : Registry) (hr : r.EncodesValues) (fuel : Nat)
    (vs : List WfValue) (gs : List GoValue)
    (hk : ∀ v ∈ vs, ∀ rest out,
      EncodeValue (fuel + 2) r .valueCodecRef ⟨.value :: rest, out⟩ v.kind
        = (.ok, ValueWriter.attach v.toWire rest out)) :
    ∀ done rest out,
      listValueCodec.encodeLoop (EncodeValue (fuel + 2) r) (fuel + 2) r
          (WfValue.goList vs ++ gs) ⟨.array done :: .value :: rest, out⟩
        = listValueCodec.encodeLoop (EncodeValue (fuel + 2) r) (fuel + 2) r
          gs ⟨.array (done ++ WfValue.wireList vs) :: .value :: rest, out⟩ := by
  induction vs with
  | nil =>
    intro done rest out
    simp [WfValue.goList, WfValue.wireList]
  | cons v vs ih =>
    intro done rest out
    have h1 := hk v (List.mem_cons_self v vs) (.array done :: .value :: rest) out
    simp only [ValueWriter.attach] at h1
    rw [WfValue.goList, List.cons_append, encodeLoop_step r hr fuel v _ v.toWire done rest out h1,
      ih (fun u hu => hk u (List.mem_cons_of_mem v hu))]
    simp [WfValue.wireList]

theorem encodeLoop_of_kind (r : Registry) (hr : r.EncodesValues) (fuel : Nat)
    (vs : List WfValue)
    (hk : ∀ v ∈ vs, ∀ rest out,
      EncodeValue (fuel + 2) r .valueCodecRef ⟨.value :: rest, out⟩ v.kind
        = (.ok, ValueWriter.attach v.toWire rest out)) :
    ∀ done rest out,
      listValueCodec.encodeLoop (EncodeValue (fuel + 2) r) (fuel + 2) r
          (WfValue.goList vs) ⟨.array done :: .value :: rest, out⟩
        = (.ok, ValueWriter.attach (.array (done ++ WfValue.wireList vs)) rest out) := by
  intro done rest out
  have h := encodeLoop_leading r hr fuel vs [] hk done rest out
  rw [List.append_nil] at h
  rw [h]
  simp [listValueCodec.encodeLoop, ValueWriter.WriteArrayEnd]

theorem encode_scalar_kind (r : Registry) (hr : r.EncodesValues) (v : WfValue)
    (hv : v.depth = 0) (k : Nat) (rest : List Frame) (out : List WireValue) :
    EncodeValue (k + 2) r .valueCodecRef ⟨.value :: rest, out⟩ v.kind
      = (.ok, ValueWriter.attach v.toWire rest out) := by
  rw [EncodeValue_valueCodec]
  cases v with
  | list vs => simp [WfValue.depth] at hv
  | str s =>
    simp only [valueCodec.EncodeValue, WfValue.kind, reflect.Indirect, GoValue.Field, List.get?,
      GoValue.TypeOf, hr.pString]
    rfl
  | num b =>
    simp only [valueCodec.EncodeValue, WfValue.kind, reflect.Indirect, GoValue.Field, List.get?,
      GoValue.TypeOf, hr.pNumber]
    rfl
  | bool b =>
    simp only [valueCodec.EncodeValue, WfValue.kind, reflect.Indirect, GoValue.Field, List.get?,
      GoValue.TypeOf, hr.pBool]
    rfl
  | null =>
    simp only [valueCodec.EncodeValue, WfValue.kind, reflect.Indirect, GoValue.Field, List.get?,
      GoValue.TypeOf, hr.pNull]
    rfl

theorem encode_list_kind (r : Registry) (hr : r.EncodesValues) (vs : List WfValue) (k : Nat)
    (rest : List Frame) (out : List WireValue) :
    EncodeValue (k + 5) r .valueCodecRef ⟨.value :: rest, out⟩ (WfValue.list vs).kind
      = listValueCodec.encodeLoop (EncodeValue (k + 2) r) (k + 2) r
          (WfValue.goList vs) ⟨.array [] :: .value :: rest, out⟩ := by
  rw [EncodeValue_valueCodec]
  simp only [valueCodec.EncodeValue, WfValue.kind, reflect.Indirect, GoValue.Field, List.get?,
    GoValue.TypeOf, hr.pListPtr]
  rw [EncodeValue_hostPointer]
  simp only [hostPointer.EncodeValue, hr.pList]
  rfl

theorem encode_kind (r : Registry) (hr : r.EncodesValues) (n : Nat) :
    ∀ v : WfValue, v.depth ≤ n → ∀ fuel, 3 * n + 2 ≤ fuel → ∀ rest out,
      EncodeValue fuel r .valueCodecRef ⟨.value :: rest, out⟩ v.kind
        = (.ok, ValueWriter.attach v.toWire rest out) := by
  induction n with
  | zero =>
    intro v hv fuel hf rest out
    obtain ⟨k, rfl⟩ : ∃ k, fuel = k + 2 := ⟨fuel - 2, by omega⟩
    exact encode_scalar_kind r hr v (by omega) k rest out
  | succ m ih =>
    intro v hv fuel hf rest out
    cases hv0 : v with
    | list vs =>
      subst hv0
      obtain ⟨k, rfl⟩ : ∃ k, fuel = k + 5 := ⟨fuel - 5, by omega⟩
      have hd : WfValue.depthList vs ≤ m := by
        simp only [WfValue.depth] at hv
        omega
      have hloop := encodeLoop_of_kind r hr k vs
        (fun u hu rest out => ih u (le_trans (depth_le_depthList hu) hd) (k + 2) (by omega) rest out)
        [] rest out
      rw [encode_list_kind r hr vs k rest out, hloop]
      simp [WfValue.toWire]
    | _ =>
      subst hv0
      obtain ⟨k, rfl⟩ : ∃ k, fuel = k + 2 := ⟨fuel - 2, by omega⟩
      refine encode_scalar_kind r hr _ ?_ k rest out
      rfl

/-- The Value node the list decoder builds around a decoded Kind. -/
theorem decode_target (kind : GoValue) :
    (reflect.Zero tValue).SetField 0 (.iface (some kind)) = .struct tValue [.iface (some kind)] := by
  rfl

theorem conv_toWire (v : WfValue) :
    ∃ cvt, convFromType v.toWire.Type_ = some cvt ∧
      testRegistry.LookupDecoder cvt = .ok .valueCodecRef ∧
      (∀ k, v.depth = 0 →
        DecodeValue (k + 2) testRegistry .valueCodecRef v.toWire (reflect.New cvt) = (.ok, v.kind)) ∧
      (∀ k vs, v = .list vs →
        DecodeValue (k + 5) testRegistry .valueCodecRef v.toWire (reflect.New cvt)
          = match listValueCodec.decodeLoop (DecodeValue (k + 2) testRegistry) testRegistry
              (WfValue.wireList vs) [] with
            | (.ok, elems) =>
              (.ok, .ptr tValue_ListValue (some (.struct tValue_ListValue
                [.ptr tListValueType (some (mkListValue
                  (elems.map fun elem => .ptr tValue (some elem))))])))
            | (st, _) =>
              (st, .ptr tValue_ListValue (some (.struct tValue_ListValue
                [.ptr tListValueType (some (mkListValue []))])))) := by
  cases v with
  | list vs =>
    refine ⟨_, rfl, rfl, ?_, ?_⟩
    · intro k h
      simp [WfValue.depth] at h
    · intro k vs1 h
      cases h
      have l1 : testRegistry.LookupDecoder (.ptr .ListValue) = .ok .hostPointer := rfl
      have l2 : testRegistry.LookupDecoder .ListValue = .ok .listValueCodecRef := rfl
      rw [DecodeValue_valueCodec]
      simp only [WfValue.toWire, valueCodec.DecodeValue, reflect.New, reflect.Zero,
        reflect.Indirect, GoValue.Field, List.get?, GoValue.TypeOf, l1]
      rw [DecodeValue_hostPointer]
      simp only [hostPointer.DecodeValue, reflect.Zero, l2]
      rw [DecodeValue_listCodec]
      simp only [listValueCodec.DecodeValue, GoValue.Field, List.get?, WireValue.ReadArray,
        GoValue.TypeOf, if_true]
      rcases listValueCodec.decodeLoop (DecodeValue (k + 2) testRegistry) testRegistry
        (WfValue.wireList vs) [] with ⟨st, elems⟩
      cases st <;> rfl
  | _ =>
    refine ⟨_, rfl, rfl, ?_, ?_⟩
    · intro k _
      rfl
    · intro k vs h
      cases h

theorem decodeLoop_of_kind (fuel : Nat) (vs : List WfValue)
    (hk : ∀ v ∈ vs, ∀ cvt, convFromType v.toWire.Type_ = some cvt →
      DecodeValue fuel testRegistry .valueCodecRef v.toWire (reflect.New cvt) = (.ok, v.kind)) :
    ∀ acc,
      listValueCodec.decodeLoop (DecodeValue fuel testRegistry) testRegistry
          (WfValue.wireList vs) acc
        = (.ok, acc ++ vs.map fun v => .struct tValue [.iface (some v.kind)]) := by
  induction vs with
  | nil =>
    intro acc
    simp [WfValue.wireList, listValueCodec.decodeLoop]
  | cons v vs ih =>
    intro acc
    obtain ⟨cvt, hc, hl, -, -⟩ := conv_toWire v
    have h1 := hk v (List.mem_cons_self v vs) cvt hc
    simp only [WfValue.wireList, listValueCodec.decodeLoop, hc, hl, h1, decode_target]
    rw [ih (fun u hu => hk u (List.mem_cons_of_mem v hu))]
    simp

theorem decode_kind (n : Nat) :
    ∀ v : WfValue, v.depth ≤ n → ∀ fuel, 3 * n + 2 ≤ fuel →
      ∀ cvt, convFromType v.toWire.Type_ = some cvt →
      DecodeValue fuel testRegistry .valueCodecRef v.toWire (reflect.New cvt) = (.ok, v.kind) := by
  induction n with
  | zero =>
    intro v hv fuel hf cvt hc
    obtain ⟨k, rfl⟩ : ∃ k, fuel = k + 2 := ⟨fuel - 2, by omega⟩
    obtain ⟨cvt1, hc1, -, h0, -⟩ := conv_toWire v
    rw [hc1] at hc
    cases hc
    exact h0 k (by omega)
  | succ m ih =>
    intro v hv fuel hf cvt hc
    obtain ⟨cvt1, hc1, -, h0, hlist⟩ := conv_toWire v
    rw [hc1] at hc
    cases hc
    cases hv0 : v with
    | list vs =>
      obtain ⟨k, rfl⟩ : ∃ k, fuel = k + 5 := ⟨fuel - 5, by omega⟩
      subst hv0
      have hd : WfValue.depthList vs ≤ m := by
        simp only [WfValue.depth] at hv
        omega
      rw [hlist k vs rfl, decodeLoop_of_kind (k + 2) vs
        (fun u hu => ih u (le_trans (depth_le_depthList hu) hd) (k + 2) (by omega))]
      simp only [List.nil_append, List.map_map, WfValue.kind, goList_eq_map]
      rfl
    | _ =>
      subst hv0
      obtain ⟨k, rfl⟩ : ∃ k, fuel = k + 2 := ⟨fuel - 2, by omega⟩
      exact h0 k rfl

/-- Encoding a list of well-formed elements writes the wire array of their
wire values into the slot the writer is positioned at. -/
theorem encode_list (vs : List WfValue) (fuel : Nat)
    (hf : 3 * (WfValue.list vs).depth ≤ fuel) (rest : List Frame) (out : List WireValue) :
    EncodeValue fuel testRegistry .listValueCodecRef ⟨.value :: rest, out⟩
        (mkListValue (WfValue.goList vs))
      = (.ok, ValueWriter.attach (.array (WfValue.wireList vs)) rest out) := by
  simp only [WfValue.depth] at hf
  obtain ⟨k, rfl⟩ : ∃ k, fuel = k + 3 := ⟨fuel - 3, by omega⟩
  have hloop := encodeLoop_of_kind testRegistry testRegistry_encodesValues k vs
    (fun u hu rest out => encode_kind testRegistry testRegistry_encodesValues
      (WfValue.depthList vs) u (depth_le_depthList hu) (k + 2) (by omega) rest out)
    [] rest out
  have hstep : EncodeValue (k + 3) testRegistry .listValueCodecRef ⟨.value :: rest, out⟩
        (mkListValue (WfValue.goList vs))
      = listValueCodec.encodeLoop (EncodeValue (k + 2) testRegistry) (k + 2) testRegistry
          (WfValue.goList vs) ⟨.array [] :: .value :: rest, out⟩ := by
    rfl
  rw [hstep, hloop]
  simp

/-- Decoding the wire array of well-formed elements sets the destination to
the list of their Go values, whatever the destination held. -/
theorem decode_list (vs : List WfValue) (fuel : Nat)
    (hf : 3 * (WfValue.list vs).depth ≤ fuel) (old : List GoValue) :
    DecodeValue fuel testRegistry .listValueCodecRef (.array (WfValue.wireList vs))
        (mkListValue old)
      = (.ok, mkListValue (WfValue.goList vs)) := by
  simp only [WfValue.depth] at hf
  obtain ⟨k, rfl⟩ : ∃ k, fuel = k + 3 := ⟨fuel - 3, by omega⟩
  rw [DecodeValue_listCodec]
  simp only [listValueCodec.DecodeValue, mkListValue, GoValue.Field, List.get?,
    WireValue.ReadArray, GoValue.TypeOf, if_true]
  rw [decodeLoop_of_kind (k + 2) vs
    (fun u hu => decode_kind (WfValue.depthList vs) u (depth_le_depthList hu) (k + 2) (by omega))]
  simp only [List.nil_append, List.map_map, GoValue.SetField, List.set, goList_eq_map]
  rfl

/-! ### The well-formedness predicates and the view type agree -/

set_option maxHeartbeats 4000000 in
theorem wfElem_cases (g : GoValue) (h : g.wfElem = true) :
    (∃ v : WfValue, v.depth = 0 ∧ mkValue v.kind = g) ∨
    (∃ vs : List GoValue, GoValue.wfElems vs = true ∧ sizeOf vs < sizeOf g ∧
      g = mkValue (.ptr tValue_ListValue (some (.struct tValue_ListValue
        [.ptr tListValueType (some (mkListValue vs))])))) := by
  unfold GoValue.wfElem at h
  split at h
  · exact Or.inl ⟨.str _, rfl, rfl⟩
  · exact Or.inl ⟨.num _, rfl, rfl⟩
  · exact Or.inl ⟨.bool _, rfl, rfl⟩
  · exact Or.inl ⟨.null, rfl, rfl⟩
  · rename_i vs
    refine Or.inr ⟨vs, h, ?_, rfl⟩
    simp
    omega
  · cases h

theorem wfElems_exists_aux (n : Nat) :
    ∀ gs : List GoValue, sizeOf gs ≤ n → GoValue.wfElems gs = true →
      ∃ vs : List WfValue, WfValue.goList vs = gs := by
  induction n with
  | zero =>
    intro gs hsz _
    cases gs <;> simp at hsz
  | succ m ih =>
    intro gs hsz h
    cases gs with
    | nil => exact ⟨[], rfl⟩
    | cons g gs =>
      simp only [GoValue.wfElems, Bool.and_eq_true] at h
      simp only [List.cons.sizeOf_spec] at hsz
      obtain ⟨vs, hvs⟩ := ih gs (by omega) h.2
      rcases wfElem_cases g h.1 with ⟨v, -, hv⟩ | ⟨us, hus, hlt, hg⟩
      · exact ⟨v :: vs, by simp [WfValue.goList, hv, hvs]⟩
      · obtain ⟨ws, hws⟩ := ih us (by omega) hus
        exact ⟨.list ws :: vs, by simp [WfValue.goList, WfValue.kind, hws, hvs, hg]⟩

/-- Every sequence of Go values that satisfies the well-formedness predicate
is the Go form of a sequence of well-formed elements. -/
theorem wfElems_exists (gs : List GoValue) (h : GoValue.wfElems gs = true) :
    ∃ vs : List WfValue, WfValue.goList vs = gs :=
  wfElems_exists_aux (sizeOf gs) gs (le_refl _) h

theorem supportedList_exists_aux (n : Nat) :
    ∀ ws : List WireValue, WireValue.depthList ws ≤ n → WireValue.supportedList ws = true →
      ∃ vs : List WfValue, WfValue.wireList vs = ws := by
  induction n with
  | zero =>
    intro ws hd h
    induction ws with
    | nil => exact ⟨[], rfl⟩
    | cons w ws ihw =>
      simp only [WireValue.supportedList, Bool.and_eq_true] at h
      simp only [WireValue.depthList] at hd
      obtain ⟨vs, hvs⟩ := ihw (by omega) h.2
      cases w with
      | string s => exact ⟨.str s :: vs, by simp [WfValue.wireList, WfValue.toWire, hvs]⟩
      | boolean b => exact ⟨.bool b :: vs, by simp [WfValue.wireList, WfValue.toWire, hvs]⟩
      | double x => exact ⟨.num x :: vs, by simp [WfValue.wireList, WfValue.toWire, hvs]⟩
      | null => exact ⟨.null :: vs, by simp [WfValue.wireList, WfValue.toWire, hvs]⟩
      | array es =>
        simp only [WireValue.depth] at hd
        omega
      | _ => simp [WireValue.supported] at h
  | succ m ih =>
    intro ws hd h
    induction ws with
    | nil => exact ⟨[], rfl⟩
    | cons w ws ihw =>
      simp only [WireValue.supportedList, Bool.and_eq_true] at h
      simp only [WireValue.depthList] at hd
      obtain ⟨vs, hvs⟩ := ihw (by omega) h.2
      cases w with
      | string s => exact ⟨.str s :: vs, by simp [WfValue.wireList, WfValue.toWire, hvs]⟩
      | boolean b => exact ⟨.bool b :: vs, by simp [WfValue.wireList, WfValue.toWire, hvs]⟩
      | double x => exact ⟨.num x :: vs, by simp [WfValue.wireList, WfValue.toWire, hvs]⟩
      | null => exact ⟨.null :: vs, by simp [WfValue.wireList, WfValue.toWire, hvs]⟩
      | array es =>
        simp only [WireValue.depth] at hd
        obtain ⟨us, hus⟩ := ih es (by omega) (by simpa [WireValue.supported] using h.1)
        exact ⟨.list us :: vs, by simp [WfValue.wireList, WfValue.toWire, hus, hvs]⟩
      | _ => simp [WireValue.supported] at h

/-- Every sequence of wire values with the tags string, boolean, double, null
and array (nested arrays of the same form) is the wire form of a sequence of
well-formed elements. -/
theorem supportedList_exists (ws : List WireValue) (h : WireValue.supportedList ws = true) :
    ∃ vs : List WfValue, WfValue.wireList vs = ws :=
  supportedList_exists_aux (WireValue.depthList ws) ws (le_refl _) h

/-! ## List round trip and wrappers -/

/-- C1. List round trip.  For every ListValue whose elements are non-nil
Values with active variant String, Number, Bool, Null or List (nested lists
non-nil and of the same form, any depth, the empty list included), there is a
fuel bound from which on listValueCodec.EncodeValue under the registry built by
Register returns nil having written one wire array w into the slot, and
listValueCodec.DecodeValue on w returns nil and leaves in the destination a
list equal to the original, whatever the destination held before. -/
theorem c1_list_round_trip (values : List GoValue) (hwf : GoValue.wfElems values = true) :
    ∃ (bound : Nat) (w : WireValue), ∀ fuel, bound ≤ fuel → ∀ old : List GoValue,
      EncodeValue fuel testRegistry .listValueCodecRef ValueWriter.slot (mkListValue values)
        = (.ok, ⟨[], [w]⟩) ∧
      DecodeValue fuel testRegistry .listValueCodecRef w (mkListValue old)
        = (.ok, mkListValue values) := by
  obtain ⟨vs, rfl⟩ := wfElems_exists values hwf
  exact ⟨3 * (WfValue.list vs).depth, .array (WfValue.wireList vs), fun fuel hf old =>
    ⟨encode_list vs fuel hf [] [], decode_list vs fuel hf old⟩⟩

/-- Witness of C1: the list of the test fixture,
[String a, Number 1.0, Bool false, Null, List [String b, Number 2.0]]. -/
theorem c1_list_round_trip_witness :
    GoValue.wfElems (WfValue.goList [.str "a", .num 4607182418800017408, .bool false, .null,
        .list [.str "b", .num 4611686018427387904]]) = true ∧
    ∃ (bound : Nat) (w : WireValue), ∀ fuel, bound ≤ fuel → ∀ old : List GoValue,
      EncodeValue fuel testRegistry .listValueCodecRef ValueWriter.slot
          (mkListValue (WfValue.goList [.str "a", .num 4607182418800017408, .bool false, .null,
            .list [.str "b", .num 4611686018427387904]])) = (.ok, ⟨[], [w]⟩) ∧
      DecodeValue fuel testRegistry .listValueCodecRef w (mkListValue old)
        = (.ok, mkListValue (WfValue.goList [.str "a", .num 4607182418800017408, .bool false,
            .null, .list [.str "b", .num 4611686018427387904]])) :=
  ⟨by decide, c1_list_round_trip _ (by decide)⟩

theorem float_normal (s e m : Nat) (hs : s < 2) (he : 1 ≤ e) (he2 : e ≤ 254) (hm : m < 2 ^ 23) :
    float64To32Exact (s * 2 ^ 63 + (e + 896) * 2 ^ 52 + m * 2 ^ 29)
      = some (s * 2 ^ 31 + e * 2 ^ 23 + m) := by
  have h1 : (s * 2 ^ 63 + (e + 896) * 2 ^ 52 + m * 2 ^ 29) / 2 ^ 63 % 2 = s := by omega
  have h2 : (s * 2 ^ 63 + (e + 896) * 2 ^ 52 + m * 2 ^ 29) / 2 ^ 52 % 2048 = e + 896 := by omega
  have h3 : (s * 2 ^ 63 + (e + 896) * 2 ^ 52 + m * 2 ^ 29) % 2 ^ 52 = m * 2 ^ 29 := by omega
  simp only [float64To32Exact, h1, h2, h3]
  have h4 : m * 2 ^ 29 % 2 ^ 29 = 0 := by omega
  have h5 : m * 2 ^ 29 / 2 ^ 29 = m := by omega
  have h6 : ¬ (e + 896 = 2047) := by omega
  have h7 : ¬ (e + 896 = 0) := by omega
  have h8 : 897 ≤ e + 896 ∧ e + 896 ≤ 1150 := by omega
  simp [h4, h5, h6, h7, h8]

theorem float_subnormal (s m k : Nat) (hs : s < 2) (hk : k ≤ 22) (h1 : 2 ^ k ≤ m)
    (h2 : m < 2 ^ (k + 1)) :
    float64To32Exact (s * 2 ^ 63 + (874 + k) * 2 ^ 52 + (m - 2 ^ k) * 2 ^ (52 - k))
      = some (s * 2 ^ 31 + m) := by
  have hq : 0 < 2 ^ (52 - k) := Nat.two_pow_pos _
  have hpq : 2 ^ k * 2 ^ (52 - k) = 2 ^ 52 := by
    rw [← pow_add]
    congr 1
    omega
  have hlt : m - 2 ^ k < 2 ^ k := by
    rw [pow_succ] at h2
    omega
  have hM : (m - 2 ^ k) * 2 ^ (52 - k) < 2 ^ 52 := by
    rw [← hpq]
    exact Nat.mul_lt_mul_of_pos_right hlt hq
  have hmod : (m - 2 ^ k) * 2 ^ (52 - k) % 2 ^ (52 - k) = 0 := Nat.mul_mod_left _ _
  have hdiv : (m - 2 ^ k) * 2 ^ (52 - k) / 2 ^ (52 - k) = m - 2 ^ k := Nat.mul_div_cancel _ hq
  generalize (m - 2 ^ k) * 2 ^ (52 - k) = M at hM hmod hdiv
  have e1 : (s * 2 ^ 63 + (874 + k) * 2 ^ 52 + M) / 2 ^ 63 % 2 = s := by omega
  have e2 : (s * 2 ^ 63 + (874 + k) * 2 ^ 52 + M) / 2 ^ 52 % 2048 = 874 + k := by omega
  have e3 : (s * 2 ^ 63 + (874 + k) * 2 ^ 52 + M) % 2 ^ 52 = M := by omega
  simp only [float64To32Exact, e1, e2, e3]
  have h6 : ¬ (874 + k = 2047) := by omega
  have h7 : ¬ (874 + k = 0) := by omega
  have h8 : ¬ (897 ≤ 874 + k ∧ 874 + k ≤ 1150) := by omega
  have h9 : 874 ≤ 874 + k ∧ 874 + k ≤ 896 := by omega
  have h10 : 874 + k - 874 = k := by omega
  simp only [h6, h7, h8, h9, h10, hmod, hdiv, if_true, if_false, and_self, Option.some.injEq]
  omega

theorem float32_round_trip (b : Nat) (hb : b < 2 ^ 32)
    (hn : ¬ (b / 2 ^ 23 % 256 = 255 ∧ b % 2 ^ 23 ≠ 0)) :
    float64To32Exact (float32To64 b) = some b := by
  obtain ⟨s, e, m, hs, he1, hm, rfl⟩ :
      ∃ s e m, s < 2 ∧ e < 256 ∧ m < 2 ^ 23 ∧ b = s * 2 ^ 31 + e * 2 ^ 23 + m :=
    ⟨b / 2 ^ 31, b / 2 ^ 23 % 256, b % 2 ^ 23, by omega, by omega, by omega, by omega⟩
  have d1 : (s * 2 ^ 31 + e * 2 ^ 23 + m) / 2 ^ 31 % 2 = s := by omega
  have d2 : (s * 2 ^ 31 + e * 2 ^ 23 + m) / 2 ^ 23 % 256 = e := by omega
  have d3 : (s * 2 ^ 31 + e * 2 ^ 23 + m) % 2 ^ 23 = m := by omega
  rw [d2, d3] at hn
  unfold float32To64
  simp only [d1, d2, d3]
  by_cases h255 : e = 255
  · have hm0 : m = 0 := by
      by_contra hne
      exact hn ⟨h255, hne⟩
    subst h255 hm0
    have e1 : (s * 2 ^ 63 + 2047 * 2 ^ 52) / 2 ^ 63 % 2 = s := by omega
    have e2 : (s * 2 ^ 63 + 2047 * 2 ^ 52) / 2 ^ 52 % 2048 = 2047 := by omega
    have e3 : (s * 2 ^ 63 + 2047 * 2 ^ 52) % 2 ^ 52 = 0 := by omega
    rw [if_pos rfl, if_pos rfl]
    simp only [float64To32Exact, e1, e2, e3]
    simp
  · simp only [h255, if_false]
    by_cases h0 : e = 0
    · subst h0
      rw [if_pos rfl]
      by_cases hm0 : m = 0
      · subst hm0
        have e1 : (s * 2 ^ 63) / 2 ^ 63 % 2 = s := by omega
        have e2 : (s * 2 ^ 63) / 2 ^ 52 % 2048 = 0 := by omega
        have e3 : (s * 2 ^ 63) % 2 ^ 52 = 0 := by omega
        rw [if_pos rfl]
        simp only [float64To32Exact, e1, e2, e3]
        simp
      · rw [if_neg hm0]
        have hk1 : 2 ^ Nat.log 2 m ≤ m := Nat.pow_log_le_self 2 hm0
        have hk2 : m < 2 ^ (Nat.log 2 m + 1) := Nat.lt_pow_succ_log_self (by norm_num) m
        have hk : Nat.log 2 m ≤ 22 := by
          have : Nat.log 2 m < 23 := Nat.log_lt_of_lt_pow hm0 hm
          omega
        rw [float_subnormal s m (Nat.log 2 m) hs hk hk1 hk2]
        simp only [Option.some.injEq]
        omega
    · simp only [h0, if_false]
      rw [float_normal s e m hs (by omega) (by omega) hm]

/-- C2 (counterexample).  The wrapper UInt64Value{Value: 2^63} is not encoded:
the host's encoder for unsigned integers rejects a value above math.MaxInt64,
wrapperValueCodec.EncodeValue returns that error and writes nothing, and no
fuel makes the call return nil.  The wrapper FloatValue holding the quiet NaN
0x7fc00000 is encoded to a double, and decoding that double fails. -/
theorem c2_wrapper_round_trip_counterexample :
    EncodeValue 2 testRegistry .wrapperValueCodecRef ValueWriter.slot
        (Wrapper.UInt64Value 9223372036854775808).toGo = (.error .Overflow, ValueWriter.slot) ∧
    (¬ ∃ fuel, (EncodeValue fuel testRegistry .wrapperValueCodecRef ValueWriter.slot
        (Wrapper.UInt64Value 9223372036854775808).toGo).1 = .ok) ∧
    EncodeValue 2 testRegistry .wrapperValueCodecRef ValueWriter.slot
        (Wrapper.FloatValue 2143289344).toGo
      = (.ok, ⟨[], [.double 9221120237041090560]⟩) ∧
    DecodeValue 2 testRegistry .wrapperValueCodecRef (.double 9221120237041090560)
        (Wrapper.FloatValue 0).toGo
      = (.error .CannotTruncate, (Wrapper.FloatValue 0).toGo) := by
  refine ⟨rfl, ?_, rfl, rfl⟩
  rintro ⟨fuel, h⟩
  match fuel, h with
  | 0, h => exact absurd h (by decide)
  | 1, h => exact absurd h (by decide)
  | k + 2, h =>
    have e : EncodeValue (k + 2) testRegistry .wrapperValueCodecRef ValueWriter.slot
        (Wrapper.UInt64Value 9223372036854775808).toGo = (.error .Overflow, ValueWriter.slot) := rfl
    rw [e] at h
    exact absurd h (by decide)

/-- C2 (amended).  Wrapper round trip: for each of the nine wrapper kinds and
every wrapper w of that kind, other than a UInt64Value above math.MaxInt64 and
a FloatValue holding a NaN, wrapperValueCodec.EncodeValue writes one wire
value and returns nil, and wrapperValueCodec.DecodeValue applied to that wire
value, into any destination wrapper of the same kind, returns nil and leaves a
wrapper equal to w. -/
theorem c2_wrapper_round_trip_amended (w d : Wrapper) (hr : w.inRange = true)
    (hw : w.onWire = true) (hd : d.toGo.TypeOf = w.toGo.TypeOf) (fuel : Nat) (hf : 2 ≤ fuel) :
    ∃ wire : WireValue,
      EncodeValue fuel testRegistry .wrapperValueCodecRef ValueWriter.slot w.toGo
        = (.ok, ⟨[], [wire]⟩) ∧
      DecodeValue fuel testRegistry .wrapperValueCodecRef wire d.toGo = (.ok, w.toGo) := by
  obtain ⟨k, rfl⟩ : ∃ k, fuel = k + 2 := ⟨fuel - 2, by omega⟩
  cases w with
  | BoolValue v =>
    cases d <;> try (simp [Wrapper.toGo, GoValue.TypeOf] at hd)
    exact ⟨.boolean v, rfl, rfl⟩
  | BytesValue v =>
    cases d <;> try (simp [Wrapper.toGo, GoValue.TypeOf] at hd)
    cases v
    · exact ⟨.null, rfl, rfl⟩
    · exact ⟨.binary 0 _, rfl, rfl⟩
  | DoubleValue b =>
    cases d <;> try (simp [Wrapper.toGo, GoValue.TypeOf] at hd)
    exact ⟨.double b, rfl, rfl⟩
  | FloatValue b =>
    cases d <;> try (simp [Wrapper.toGo, GoValue.TypeOf] at hd)
    refine ⟨.double (float32To64 b), rfl, ?_⟩
    have hb : b < 2 ^ 32 := by simpa [Wrapper.inRange] using hr
    have hn : ¬ (b / 2 ^ 23 % 256 = 255 ∧ b % 2 ^ 23 ≠ 0) := by
      rintro ⟨h1, h2⟩
      simp [Wrapper.onWire, isNaN32] at hw
      omega
    rw [DecodeValue_wrapperCodec]
    simp only [wrapperValueCodec.DecodeValue, Wrapper.toGo, reflect.Indirect, GoValue.Field,
      List.get?, GoValue.TypeOf]
    have hl : testRegistry.LookupDecoder .float32 = .ok .hostFloat := rfl
    simp only [hl]
    have hcall : ∀ x, DecodeValue (k + 1) testRegistry .hostFloat (.double (float32To64 b))
        (.float32 x) = (.ok, .float32 b) := by
      intro x
      show hostFloat.DecodeValue (.double (float32To64 b)) (.float32 x) = _
      simp only [hostFloat.DecodeValue, float32_round_trip b hb hn]
    simp only [hcall]
    rfl
  | Int32Value v =>
    cases d <;> try (simp [Wrapper.toGo, GoValue.TypeOf] at hd)
    refine ⟨.int32 v, rfl, ?_⟩
    have hv : -2147483648 ≤ v ∧ v ≤ 2147483647 := by simpa [Wrapper.inRange] using hr
    have hcall : ∀ x, DecodeValue (k + 1) testRegistry .hostInt (.int32 v) (.int32 x)
        = (.ok, .int32 v) := by
      intro x
      show hostInt.DecodeValue (.int32 v) (.int32 x) = _
      have hc : ¬ (v < -2147483648 ∨ v > 2147483647) := by omega
      simp only [hostInt.DecodeValue, hc, if_false]
    rw [DecodeValue_wrapperCodec]
    simp only [wrapperValueCodec.DecodeValue, Wrapper.toGo, reflect.Indirect, GoValue.Field,
      List.get?, GoValue.TypeOf]
    have hl : testRegistry.LookupDecoder .int32 = .ok .hostInt := rfl
    simp only [hl, hcall]
    rfl
  | Int64Value v =>
    cases d <;> try (simp [Wrapper.toGo, GoValue.TypeOf] at hd)
    exact ⟨.int64 v, rfl, rfl⟩
  | StringValue v =>
    cases d <;> try (simp [Wrapper.toGo, GoValue.TypeOf] at hd)
    exact ⟨.string v, rfl, rfl⟩
  | UInt32Value v =>
    cases d <;> try (simp [Wrapper.toGo, GoValue.TypeOf] at hd)
    have hv : v ≤ 4294967295 := by simpa [Wrapper.inRange] using hr
    refine ⟨.int64 v, ?_, ?_⟩
    · show hostUint.EncodeValue ValueWriter.slot (.uint32 v) = _
      have hc : ¬ (v > 9223372036854775807) := by omega
      simp only [hostUint.EncodeValue, hc, if_false]
      rfl
    · have hcall : ∀ x, DecodeValue (k + 1) testRegistry .hostUint (.int64 v) (.uint32 x)
          = (.ok, .uint32 v) := by
        intro x
        show hostUint.DecodeValue (.int64 v) (.uint32 x) = _
        have hc : ¬ ((v : Int) < 0 ∨ (v : Int) > 4294967295) := by omega
        simp only [hostUint.DecodeValue, hc, if_false, Int.toNat_ofNat]
      rw [DecodeValue_wrapperCodec]
      simp only [wrapperValueCodec.DecodeValue, Wrapper.toGo, reflect.Indirect,
        GoValue.Field, List.get?, GoValue.TypeOf]
      have hl : testRegistry.LookupDecoder .uint32 = .ok .hostUint := rfl
      simp only [hl, hcall]
      rfl
  | UInt64Value v =>
    cases d <;> try (simp [Wrapper.toGo, GoValue.TypeOf] at hd)
    have hv : v ≤ 9223372036854775807 := by simpa [Wrapper.onWire] using hw
    refine ⟨.int64 v, ?_, ?_⟩
    · show hostUint.EncodeValue ValueWriter.slot (.uint64 v) = _
      have hc : ¬ (v > 9223372036854775807) := by omega
      simp only [hostUint.EncodeValue, hc, if_false]
      rfl
    · have hcall : ∀ x, DecodeValue (k + 1) testRegistry .hostUint (.int64 v) (.uint64 x)
          = (.ok, .uint64 v) := by
        intro x
        show hostUint.DecodeValue (.int64 v) (.uint64 x) = _
        have hc : ¬ ((v : Int) < 0) := by omega
        simp only [hostUint.DecodeValue, hc, if_false, Int.toNat_ofNat]
      rw [DecodeValue_wrapperCodec]
      simp only [wrapperValueCodec.DecodeValue, Wrapper.toGo, reflect.Indirect,
        GoValue.Field, List.get?, GoValue.TypeOf]
      have hl : testRegistry.LookupDecoder .uint64 = .ok .hostUint := rfl
      simp only [hl, hcall]
      rfl

/-- Witness of C2 (amended): FloatValue{Value: 1.3} of the test fixture, decoded
into a zero FloatValue. -/
theorem c2_wrapper_round_trip_amended_witness :
    (Wrapper.FloatValue 1067869798).inRange = true ∧
    (Wrapper.FloatValue 1067869798).onWire = true ∧
    (Wrapper.FloatValue 0).toGo.TypeOf = (Wrapper.FloatValue 1067869798).toGo.TypeOf ∧
    2 ≤ 2 ∧
    ∃ wire : WireValue,
      EncodeValue 2 testRegistry .wrapperValueCodecRef ValueWriter.slot
          (Wrapper.FloatValue 1067869798).toGo = (.ok, ⟨[], [wire]⟩) ∧
      DecodeValue 2 testRegistry .wrapperValueCodecRef wire (Wrapper.FloatValue 0).toGo
        = (.ok, (Wrapper.FloatValue 1067869798).toGo) :=
  ⟨by decide, by decide, by decide, by decide,
    c2_wrapper_round_trip_amended (.FloatValue 1067869798) (.FloatValue 0) (by decide) (by decide)
      (by decide) 2 (by decide)⟩

/-! ### Timestamps -/

theorem wrapInt64_of_range (i : Int) (h1 : -9223372036854775808 ≤ i)
    (h2 : i ≤ 9223372036854775807) : wrapInt64 i = i := by
  unfold wrapInt64
  omega

theorem tdiv_of_nonneg (a b : Int) (ha : 0 ≤ a) (hb : 0 ≤ b) : Int.tdiv a b = a / b :=
  Int.tdiv_eq_ediv ha hb

theorem tdiv_of_neg (a b : Int) (ha : a < 0) (hb : 0 ≤ b) : Int.tdiv a b = -((-a) / b) := by
  have h : a = -(-a) := by omega
  rw [h, Int.neg_tdiv, Int.tdiv_eq_ediv (by omega) hb]
  simp

/-- The time the host decodes from the milliseconds s*1000 + q. -/
theorem time_of_millis (s q : Int) (hq1 : 0 ≤ q) (hq2 : q < 1000)
    (hs1 : -9223372036854775 ≤ s) (hs2 : s ≤ 9223372036854775) :
    time.Unix (Int.tdiv (s * 1000 + q) 1000) (Int.tmod (s * 1000 + q) 1000 * 1000000)
      = .time s (q * 1000000) := by
  rw [Int.tmod_def]
  by_cases hms : 0 ≤ s * 1000 + q
  · rw [tdiv_of_nonneg _ _ hms (by norm_num)]
    have e1 : (s * 1000 + q) / 1000 = s := by omega
    rw [e1]
    have e2 : (s * 1000 + q - 1000 * s) * 1000000 = q * 1000000 := by omega
    rw [e2]
    unfold time.Unix
    have hc : ¬ (q * 1000000 < 0 ∨ q * 1000000 ≥ 1000000000) := by omega
    rw [if_neg hc]
  · rw [tdiv_of_neg _ _ (by omega) (by norm_num)]
    by_cases hq0 : q = 0
    · subst hq0
      have e1 : -(-(s * 1000 + 0) / 1000) = s := by omega
      rw [e1]
      have e2 : (s * 1000 + 0 - 1000 * s) * 1000000 = 0 * 1000000 := by omega
      rw [e2]
      unfold time.Unix
      have hc : ¬ ((0 : Int) * 1000000 < 0 ∨ (0 : Int) * 1000000 ≥ 1000000000) := by omega
      rw [if_neg hc]
    · have e1 : -(-(s * 1000 + q) / 1000) = s + 1 := by omega
      rw [e1]
      have e2 : (s * 1000 + q - 1000 * (s + 1)) * 1000000 = q * 1000000 - 1000000000 := by omega
      rw [e2]
      unfold time.Unix
      have hc : q * 1000000 - 1000000000 < 0 ∨ q * 1000000 - 1000000000 ≥ 1000000000 := by omega
      rw [if_pos hc]
      have e3 : Int.tdiv (q * 1000000 - 1000000000) 1000000000 = 0 := by
        rw [tdiv_of_neg _ _ (by omega) (by norm_num)]
        omega
      simp only [e3]
      have e4 : wrapInt64 (s + 1 + 0) = s + 1 := by
        rw [wrapInt64_of_range _ (by omega) (by omega)]
        omega
      have e5 : wrapInt64 (s + 1 - 1) = s := by
        rw [wrapInt64_of_range _ (by omega) (by omega)]
        omega
      have hc2 : q * 1000000 - 1000000000 - 0 * 1000000000 < 0 := by omega
      rw [if_pos hc2, e4, e5]
      congr 1
      omega

/-- Encoding a valid Timestamp writes the date-time seconds*1000 + nanos/10^6. -/
theorem timestamp_encode (seconds nanos : Int) (k : Nat)
    (hs1 : minValidSeconds ≤ seconds) (hs2 : seconds < maxValidSeconds)
    (hn1 : 0 ≤ nanos) (hn2 : nanos < 1000000000) (rest : List Frame) (out : List WireValue) :
    EncodeValue (k + 2) testRegistry .timestampCodecRef ⟨.value :: rest, out⟩
        (.struct timestampType [.int64 seconds, .int32 nanos])
      = (.ok, ValueWriter.attach (.dateTime (seconds * 1000 + nanos / 1000000)) rest out) := by
  unfold minValidSeconds at hs1
  unfold maxValidSeconds at hs2
  rw [EncodeValue_timestampCodec]
  have hl : testRegistry.LookupEncoder timeType = .ok .hostTime := rfl
  have hu : time.Unix seconds nanos = .time seconds nanos := by
    unfold time.Unix
    have hc : ¬ (nanos < 0 ∨ nanos ≥ 1000000000) := by omega
    rw [if_neg hc]
  simp only [timestampCodec.EncodeValue, types.TimestampFromProto, hl, hu]
  show hostTime.EncodeValue ⟨.value :: rest, out⟩ (.time seconds nanos) = _
  have e1 : wrapInt64 (seconds * 1000) = seconds * 1000 :=
    wrapInt64_of_range _ (by omega) (by omega)
  have e2 : Int.tdiv nanos 1000000 = nanos / 1000000 := tdiv_of_nonneg _ _ hn1 (by norm_num)
  have e3 : wrapInt64 (seconds * 1000 + nanos / 1000000) = seconds * 1000 + nanos / 1000000 :=
    wrapInt64_of_range _ (by omega) (by omega)
  simp only [hostTime.EncodeValue, e1, e2, e3]
  rfl

/-- Decoding the date-time s*1000 + q into a Timestamp gives (s, q*10^6). -/
theorem timestamp_decode (s q : Int) (k : Nat)
    (hs1 : minValidSeconds ≤ s) (hs2 : s < maxValidSeconds)
    (hq1 : 0 ≤ q) (hq2 : q < 1000) (dst : GoValue) (hd : dst.TypeOf = timestampType) :
    DecodeValue (k + 2) testRegistry .timestampCodecRef (.dateTime (s * 1000 + q)) dst
      = (.ok, .struct timestampType [.int64 s, .int32 (q * 1000000)]) := by
  rw [DecodeValue_timestampCodec]
  have hl : testRegistry.LookupDecoder timeType = .ok .hostTime := rfl
  have hcall : DecodeValue (k + 1) testRegistry .hostTime (.dateTime (s * 1000 + q))
      (reflect.Zero timeType) = (.ok, .time s (q * 1000000)) := by
    show hostTime.DecodeValue (.dateTime (s * 1000 + q)) (.time (-62135596800) 0) = _
    unfold minValidSeconds at hs1
    unfold maxValidSeconds at hs2
    simp only [hostTime.DecodeValue, time_of_millis s q hq1 hq2 (by omega) (by omega)]
  have hv : types.validateTimestamp s (q * 1000000) = .ok () := by
    unfold types.validateTimestamp
    have c1 : ¬ (s < minValidSeconds) := by omega
    have c2 : ¬ (s ≥ maxValidSeconds) := by omega
    have c3 : ¬ (q * 1000000 < 0 ∨ q * 1000000 ≥ 1000000000) := by omega
    rw [if_neg c1, if_neg c2, if_neg c3]
  simp only [timestampCodec.DecodeValue, hl, hcall, types.TimestampProto, hv, hd, if_true]

/-- C3. Timestamp round trip at millisecond precision.  For every Timestamp
(seconds, nanos) with seconds in the valid range [0001-01-01, 10000-01-01),
negative seconds included, and nanos a multiple of 1,000,000 in [0, 10^9),
timestampCodec.EncodeValue writes one date-time and returns nil, and
timestampCodec.DecodeValue applied to that date-time returns nil and sets the
destination Timestamp to exactly (seconds, nanos). -/
theorem c3_timestamp_round_trip (seconds nanos : Int) (fuel : Nat) (dst : GoValue)
    (hs1 : minValidSeconds ≤ seconds) (hs2 : seconds < maxValidSeconds)
    (hn1 : 0 ≤ nanos) (hn2 : nanos < 1000000000) (hm : nanos % 1000000 = 0)
    (hf : 2 ≤ fuel) (hd : dst.TypeOf = timestampType) :
    ∃ ms : Int,
      EncodeValue fuel testRegistry .timestampCodecRef ValueWriter.slot
          (.struct timestampType [.int64 seconds, .int32 nanos])
        = (.ok, ⟨[], [.dateTime ms]⟩) ∧
      DecodeValue fuel testRegistry .timestampCodecRef (.dateTime ms) dst
        = (.ok, .struct timestampType [.int64 seconds, .int32 nanos]) := by
  obtain ⟨k, rfl⟩ : ∃ k, fuel = k + 2 := ⟨fuel - 2, by omega⟩
  refine ⟨seconds * 1000 + nanos / 1000000,
    timestamp_encode seconds nanos k hs1 hs2 hn1 hn2 [] [], ?_⟩
  rw [timestamp_decode seconds (nanos / 1000000) k hs1 hs2 (by omega) (by omega) dst hd]
  have e : nanos / 1000000 * 1000000 = nanos := by omega
  rw [e]

/-- Witness of C3: the time 4.001 seconds before the epoch, (-5, 999000000). -/
theorem c3_timestamp_round_trip_witness :
    minValidSeconds ≤ -5 ∧ (-5 : Int) < maxValidSeconds ∧ (0 : Int) ≤ 999000000 ∧
    (999000000 : Int) < 1000000000 ∧ (999000000 : Int) % 1000000 = 0 ∧ 2 ≤ 2 ∧
    (reflect.Zero timestampType).TypeOf = timestampType ∧
    ∃ ms : Int,
      EncodeValue 2 testRegistry .timestampCodecRef ValueWriter.slot
          (.struct timestampType [.int64 (-5), .int32 999000000])
        = (.ok, ⟨[], [.dateTime ms]⟩) ∧
      DecodeValue 2 testRegistry .timestampCodecRef (.dateTime ms) (reflect.Zero timestampType)
        = (.ok, .struct timestampType [.int64 (-5), .int32 999000000]) :=
  ⟨by decide, by decide, by decide, by decide, by decide, by decide, by decide,
    c3_timestamp_round_trip (-5) 999000000 2 (reflect.Zero timestampType) (by decide) (by decide)
      (by decide) (by decide) (by decide) (by decide) (by decide)⟩

/-! ### Object identifiers -/

theorem utf8Bytes_of_hex (c : Char) (h : isHexChar c = true) : utf8Bytes c = [c.toNat] := by
  unfold isHexChar fromHexChar at h
  unfold utf8Bytes
  have : c.toNat < 128 := by
    by_contra hc
    have h1 : ¬ (48 ≤ c.toNat ∧ c.toNat ≤ 57) := by omega
    have h2 : ¬ (97 ≤ c.toNat ∧ c.toNat ≤ 102) := by omega
    have h3 : ¬ (65 ≤ c.toNat ∧ c.toNat ≤ 70) := by omega
    simp [h1, h2, h3] at h
  simp [this]

theorem goBytes_of_hex (cs : List Char) (h : ∀ c ∈ cs, isHexChar c = true) :
    cs.flatMap utf8Bytes = cs.map Char.toNat := by
  induction cs with
  | nil => rfl
  | cons c cs ih =>
    simp only [List.flatMap_cons, List.map_cons]
    rw [utf8Bytes_of_hex c (h c (List.mem_cons_self c cs)),
      ih (fun d hd => h d (List.mem_cons_of_mem c hd))]
    rfl

theorem hexDigit_value (c : Char) (d : Nat) (h : fromHexChar c.toNat = some d) :
    d < 16 ∧ hexDigit d = lowerHexChar c := by
  unfold fromHexChar at h
  unfold hexDigit lowerHexChar
  by_cases h1 : 48 ≤ c.toNat ∧ c.toNat ≤ 57
  · rw [if_pos h1] at h
    cases h
    have e : 48 + (c.toNat - 48) = c.toNat := by omega
    have h3 : ¬ (65 ≤ c.toNat ∧ c.toNat ≤ 70) := by omega
    have h4 : c.toNat - 48 < 10 := by omega
    rw [if_pos h4, if_neg h3, e]
    exact ⟨by omega, Char.ofNat_toNat c⟩
  · rw [if_neg h1] at h
    by_cases h2 : 97 ≤ c.toNat ∧ c.toNat ≤ 102
    · rw [if_pos h2] at h
      cases h
      have e : 87 + (c.toNat - 97 + 10) = c.toNat := by omega
      have h3 : ¬ (65 ≤ c.toNat ∧ c.toNat ≤ 70) := by omega
      have h4 : ¬ (c.toNat - 97 + 10 < 10) := by omega
      rw [if_neg h4, if_neg h3, e]
      exact ⟨by omega, Char.ofNat_toNat c⟩
    · rw [if_neg h2] at h
      by_cases h3 : 65 ≤ c.toNat ∧ c.toNat ≤ 70
      · rw [if_pos h3] at h
        cases h
        have e : 87 + (c.toNat - 65 + 10) = c.toNat + 32 := by omega
        have h4 : ¬ (c.toNat - 65 + 10 < 10) := by omega
        rw [if_neg h4, if_pos h3, e]
        exact ⟨by omega, rfl⟩
      · rw [if_neg h3] at h
        cases h

/-- Decoding an even number of hexadecimal digits succeeds, gives one byte
per pair, and rendering the bytes gives the digits back in lowercase. -/
theorem hex_decode_of_hex (n : Nat) :
    ∀ cs : List Char, cs.length = 2 * n → (∀ c ∈ cs, isHexChar c = true) →
      ∃ b, hex.Decode (cs.map Char.toNat) = some b ∧ b.length = n ∧ (∀ x ∈ b, x < 256) ∧
        (b.flatMap fun x => [hexDigit (x / 16), hexDigit (x % 16)]) = cs.map lowerHexChar := by
  induction n with
  | zero =>
    intro cs hl _
    have : cs = [] := List.length_eq_zero.mp (by omega)
    subst this
    exact ⟨[], rfl, rfl, by simp, rfl⟩
  | succ m ih =>
    intro cs hl hh
    match cs, hl, hh with
    | p :: q :: rest, hl, hh =>
      have hp := hh p (by simp)
      have hq := hh q (by simp)
      obtain ⟨a, ha⟩ := Option.isSome_iff_exists.mp hp
      obtain ⟨c, hc⟩ := Option.isSome_iff_exists.mp hq
      obtain ⟨ha16, hal⟩ := hexDigit_value p a ha
      obtain ⟨hc16, hcl⟩ := hexDigit_value q c hc
      obtain ⟨b, hb, hbl, hb256, hbr⟩ := ih rest (by simp at hl; omega)
        (fun d hd => hh d (by simp [hd]))
      refine ⟨(a * 16 + c) :: b, ?_, by simp [hbl], ?_, ?_⟩
      · simp only [List.map_cons, hex.Decode, ha, hc, hb]
      · intro x hx
        rcases List.mem_cons.mp hx with rfl | hx
        · omega
        · exact hb256 x hx
      · have e1 : (a * 16 + c) / 16 = a := by omega
        have e2 : (a * 16 + c) % 16 = c := by omega
        simp only [List.flatMap_cons, e1, e2, hbr, hal, hcl, List.map_cons]
        rfl
    | [_], hl, _ => simp at hl; omega
    | [], hl, _ => simp at hl

theorem hex_decode_some (bs : List Nat) :
    ∀ b, hex.Decode bs = some b →
      (∀ x ∈ bs, (fromHexChar x).isSome = true) ∧ bs.length = 2 * b.length := by
  induction bs using hex.Decode.induct with
  | case1 =>
    intro b h
    simp only [hex.Decode, Option.some.injEq] at h
    subst h
    simp
  | case2 x =>
    intro b h
    simp [hex.Decode] at h
  | case3 p q rest a c hc ha bs1 hrest ih =>
    intro b h
    simp only [hex.Decode, ha, hc, hrest, Option.some.injEq] at h
    subst h
    obtain ⟨h1, h2⟩ := ih bs1 hrest
    refine ⟨?_, by simp [h2]; omega⟩
    intro x hx
    simp only [List.mem_cons] at hx
    rcases hx with rfl | rfl | hx
    · simp [ha]
    · simp [hc]
    · exact h1 x hx
  | case4 p q rest a c hc ha hrest _ =>
    intro b h
    simp [hex.Decode, ha, hc, hrest] at h
  | case5 p q rest hno =>
    intro b h
    unfold hex.Decode at h
    split at h
    · rename_i a c ha hc
      exact (hno a c ha hc).elim
    · cases h

theorem fromHexChar_none_of_ge (x : Nat) (h : 128 ≤ x) : fromHexChar x = none := by
  unfold fromHexChar
  have h1 : ¬ (48 ≤ x ∧ x ≤ 57) := by omega
  have h2 : ¬ (97 ≤ x ∧ x ≤ 102) := by omega
  have h3 : ¬ (65 ≤ x ∧ x ≤ 70) := by omega
  rw [if_neg h1, if_neg h2, if_neg h3]

theorem hexChar_of_bytes (c : Char)
    (h : ∀ x ∈ utf8Bytes c, (fromHexChar x).isSome = true) : isHexChar c = true := by
  unfold utf8Bytes at h
  by_cases h1 : c.toNat < 128
  · simp only [h1, if_true] at h
    exact h c.toNat (by simp)
  · simp only [h1, if_false] at h
    by_cases h2 : c.toNat < 2048
    · simp only [h2, if_true] at h
      have := h (192 + c.toNat / 64) (by simp)
      rw [fromHexChar_none_of_ge _ (by omega)] at this
      cases this
    · simp only [h2, if_false] at h
      by_cases h3 : c.toNat < 65536
      · simp only [h3, if_true] at h
        have := h (224 + c.toNat / 4096) (by simp)
        rw [fromHexChar_none_of_ge _ (by omega)] at this
        cases this
      · simp only [h3, if_false] at h
        have := h (240 + c.toNat / 262144) (by simp)
        rw [fromHexChar_none_of_ge _ (by omega)] at this
        cases this

/-- The host parses exactly the strings of 24 hexadecimal digits, to 12 bytes
whose lowercase rendering is the string in lowercase. -/
theorem objectIDFromHex_spec (s : String) :
    (isHex24 s = true →
      ∃ b, primitive.ObjectIDFromHex s = .ok b ∧ b.length = 12 ∧ (∀ x ∈ b, x < 256) ∧
        hex.EncodeToString b = lowerHex s) ∧
    (isHex24 s = false → primitive.ObjectIDFromHex s = .error .ErrInvalidHex) := by
  constructor
  · intro h
    simp only [isHex24, Bool.and_eq_true, decide_eq_true_eq, List.all_eq_true] at h
    obtain ⟨hlen, hall⟩ := h
    obtain ⟨b, hb, hbl, hb256, hbr⟩ := hex_decode_of_hex 12 s.toList hlen hall
    refine ⟨b, ?_, hbl, hb256, ?_⟩
    · simp only [primitive.ObjectIDFromHex, hex.DecodeString, goBytes,
        goBytes_of_hex s.toList hall, hb, hbl]
      simp
    · simp only [hex.EncodeToString, lowerHex, hbr]
  · intro h
    unfold primitive.ObjectIDFromHex hex.DecodeString
    cases hd : hex.Decode (goBytes s) with
    | none => rfl
    | some b =>
      simp only
      by_cases hl : b.length = 12
      · exfalso
        obtain ⟨hbytes, hlen⟩ := hex_decode_some (goBytes s) b hd
        have hall : ∀ c ∈ s.toList, isHexChar c = true := by
          intro c hc
          apply hexChar_of_bytes
          intro x hx
          exact hbytes x (by
            simp only [goBytes, List.mem_flatMap]
            exact ⟨c, hc, hx⟩)
        have hmap := goBytes_of_hex s.toList hall
        have hlen2 : s.length = 24 := by
          have : (goBytes s).length = s.toList.length := by
            simp only [goBytes, hmap, List.length_map]
          simp only [String.length]
          rw [hlen, hl] at this
          exact this.symm
        have : isHex24 s = true := by
          simp only [isHex24, Bool.and_eq_true, decide_eq_true_eq, List.all_eq_true]
          exact ⟨hlen2, hall⟩
        rw [h] at this
        cases this
      · simp [hl]

/-- The identifier encoder on a writer positioned at a value slot, for a
registry that binds primitive.ObjectID to the host's native codec. -/
theorem objectID_encode (ectx : Registry)
    (hl : ectx.LookupEncoder objectIDPrimitiveType = .ok .hostObjectID) (s : String) (k : Nat)
    (rest : List Frame) (out : List WireValue) :
    EncodeValue (k + 2) ectx .objectIDCodecRef ⟨.value :: rest, out⟩ (mkObjectId s)
      = match primitive.ObjectIDFromHex s with
        | .error err => (.error err, ⟨.value :: rest, out⟩)
        | .ok id => (.ok, ValueWriter.attach (.objectID id) rest out) := by
  rw [EncodeValue_objectIDCodec]
  simp only [objectIDCodec.EncodeValue, mkObjectId]
  cases primitive.ObjectIDFromHex s with
  | error err => rfl
  | ok id =>
    simp only [hl]
    rfl

/-- The identifier decoder under the registry built by Register. -/
theorem objectID_decode (b : List Nat) (k : Nat) (dst : GoValue)
    (hd : dst.TypeOf = objectIDType) :
    DecodeValue (k + 2) testRegistry .objectIDCodecRef (.objectID b) dst
      = (.ok, mkObjectId (hex.EncodeToString b)) := by
  rw [DecodeValue_objectIDCodec]
  have hl : testRegistry.LookupDecoder objectIDPrimitiveType = .ok .hostObjectID := rfl
  have hcall : DecodeValue (k + 1) testRegistry .hostObjectID (.objectID b)
      (reflect.Zero objectIDPrimitiveType) = (.ok, .objectID b) := rfl
  simp only [objectIDCodec.DecodeValue, hl, hcall, hd, if_true]
  rfl

/-- C4 (counterexample).  The ObjectId with Value AAAAAAAAAAAAAAAAAAAAAAAA (24
valid uppercase digits) is encoded to the 12 bytes 0xAA, and decoding them
yields the Value aaaaaaaaaaaaaaaaaaaaaaaa, which is not the original string. -/
theorem c4_objectid_round_trip_counterexample :
    isHex24 "AAAAAAAAAAAAAAAAAAAAAAAA" = true ∧
    EncodeValue 2 testRegistry .objectIDCodecRef ValueWriter.slot
        (mkObjectId "AAAAAAAAAAAAAAAAAAAAAAAA")
      = (.ok, ⟨[], [.objectID [170, 170, 170, 170, 170, 170, 170, 170, 170, 170, 170, 170]]⟩) ∧
    DecodeValue 2 testRegistry .objectIDCodecRef
        (.objectID [170, 170, 170, 170, 170, 170, 170, 170, 170, 170, 170, 170]) (mkObjectId "")
      = (.ok, mkObjectId "aaaaaaaaaaaaaaaaaaaaaaaa") ∧
    "aaaaaaaaaaaaaaaaaaaaaaaa" ≠ "AAAAAAAAAAAAAAAAAAAAAAAA" :=
  ⟨by decide, rfl, rfl, by decide⟩

/-- C4 (amended).  ObjectID round trip: for every ObjectId whose Value is a
string of 24 hexadecimal digits (any case), objectIDCodec.EncodeValue writes a
12-byte identifier and returns nil, and objectIDCodec.DecodeValue applied to
it returns nil and yields the ObjectId whose Value is the original string with
its digits A-F in lowercase; the Value is the original string when that has no
digit A-F in uppercase. -/
theorem c4_objectid_round_trip_amended (s : String) (fuel : Nat) (dst : GoValue)
    (hs : isHex24 s = true) (hf : 2 ≤ fuel) (hd : dst.TypeOf = objectIDType) :
    ∃ b : List Nat, b.length = 12 ∧
      EncodeValue fuel testRegistry .objectIDCodecRef ValueWriter.slot (mkObjectId s)
        = (.ok, ⟨[], [.objectID b]⟩) ∧
      DecodeValue fuel testRegistry .objectIDCodecRef (.objectID b) dst
        = (.ok, mkObjectId (lowerHex s)) ∧
      ((∀ c ∈ s.toList, ¬ (65 ≤ c.toNat ∧ c.toNat ≤ 70)) → lowerHex s = s) := by
  obtain ⟨k, rfl⟩ : ∃ k, fuel = k + 2 := ⟨fuel - 2, by omega⟩
  obtain ⟨b, hb, hbl, -, hbr⟩ := (objectIDFromHex_spec s).1 hs
  refine ⟨b, hbl, ?_, ?_, ?_⟩
  · have := objectID_encode testRegistry rfl s k [] []
    rw [hb] at this
    exact this
  · rw [objectID_decode b k dst hd, hbr]
  · intro h
    unfold lowerHex
    have : s.toList.map lowerHexChar = s.toList := by
      conv_rhs => rw [← List.map_id s.toList]
      apply List.map_congr_left
      intro c hc
      unfold lowerHexChar
      rw [if_neg (h c hc)]
      rfl
    rw [this]
    rfl

/-- Witness of C4 (amended): a mixed-case identifier. -/
theorem c4_objectid_round_trip_amended_witness :
    isHex24 "5F8d0A1b2c3d4e5f60718293" = true ∧ 2 ≤ 2 ∧
    (mkObjectId "").TypeOf = objectIDType ∧
    ∃ b : List Nat, b.length = 12 ∧
      EncodeValue 2 testRegistry .objectIDCodecRef ValueWriter.slot
          (mkObjectId "5F8d0A1b2c3d4e5f60718293") = (.ok, ⟨[], [.objectID b]⟩) ∧
      DecodeValue 2 testRegistry .objectIDCodecRef (.objectID b) (mkObjectId "")
        = (.ok, mkObjectId (lowerHex "5F8d0A1b2c3d4e5f60718293")) ∧
      ((∀ c ∈ "5F8d0A1b2c3d4e5f60718293".toList, ¬ (65 ≤ c.toNat ∧ c.toNat ≤ 70)) →
        lowerHex "5F8d0A1b2c3d4e5f60718293" = "5F8d0A1b2c3d4e5f60718293") :=
  ⟨by decide, by decide, by decide,
    c4_objectid_round_trip_amended "5F8d0A1b2c3d4e5f60718293" 2 (mkObjectId "") (by decide)
      (by decide) (by decide)⟩

/-- C5. ObjectID encode rejects malformed input.  Given a registry that binds
primitive.ObjectID to the native 12-byte-ID encoder and a writer positioned at
a value slot, objectIDCodec.EncodeValue returns an error and leaves the writer
as it was if and only if the ObjectId's Value is not a string of exactly 24
hexadecimal digits; otherwise it returns nil and has written, as the value of
the slot, the 12 bytes the string denotes (the bytes whose two-digit
hexadecimal rendering is the string, up to the case of its digits). -/
theorem c5_objectid_encode_rejects_malformed (ectx : Registry) (s : String) (fuel : Nat)
    (rest : List Frame) (out : List WireValue)
    (hl : ectx.LookupEncoder objectIDPrimitiveType = .ok .hostObjectID) (hf : 2 ≤ fuel) :
    ((∃ err, EncodeValue fuel ectx .objectIDCodecRef ⟨.value :: rest, out⟩ (mkObjectId s)
        = (.error err, ⟨.value :: rest, out⟩)) ↔ isHex24 s = false) ∧
    (isHex24 s = true →
      ∃ b : List Nat, b.length = 12 ∧ (∀ x ∈ b, x < 256) ∧ hex.EncodeToString b = lowerHex s ∧
        EncodeValue fuel ectx .objectIDCodecRef ⟨.value :: rest, out⟩ (mkObjectId s)
          = (.ok, ValueWriter.attach (.objectID b) rest out)) := by
  obtain ⟨k, rfl⟩ : ∃ k, fuel = k + 2 := ⟨fuel - 2, by omega⟩
  have henc := objectID_encode ectx hl s k rest out
  obtain ⟨hok, hbad⟩ := objectIDFromHex_spec s
  refine ⟨⟨?_, ?_⟩, ?_⟩
  · rintro ⟨err, he⟩
    cases hv : isHex24 s with
    | false => rfl
    | true =>
      obtain ⟨b, hb, -⟩ := hok hv
      rw [henc, hb] at he
      cases he
  · intro hv
    rw [henc, hbad hv]
    exact ⟨_, rfl⟩
  · intro hv
    obtain ⟨b, hb, hbl, hb256, hbr⟩ := hok hv
    rw [henc, hb]
    exact ⟨b, hbl, hb256, hbr, rfl⟩

/-- Witness of C5: a Value one digit short, under the registry testRegistry. -/
theorem c5_objectid_encode_rejects_malformed_witness :
    testRegistry.LookupEncoder objectIDPrimitiveType = .ok .hostObjectID ∧ 2 ≤ 2 ∧
    ((∃ err, EncodeValue 2 testRegistry .objectIDCodecRef ⟨.value :: [], []⟩
        (mkObjectId "5f8d0a1b2c3d4e5f6071829")
        = (.error err, ⟨.value :: [], []⟩)) ↔ isHex24 "5f8d0a1b2c3d4e5f6071829" = false) ∧
    (isHex24 "5f8d0a1b2c3d4e5f6071829" = true →
      ∃ b : List Nat, b.length = 12 ∧ (∀ x ∈ b, x < 256) ∧
        hex.EncodeToString b = lowerHex "5f8d0a1b2c3d4e5f6071829" ∧
        EncodeValue 2 testRegistry .objectIDCodecRef ⟨.value :: [], []⟩
            (mkObjectId "5f8d0a1b2c3d4e5f6071829")
          = (.ok, ValueWriter.attach (.objectID b) [] [])) :=
  ⟨rfl, by decide,
    c5_objectid_encode_rejects_malformed testRegistry "5f8d0a1b2c3d4e5f6071829" 2 [] [] rfl
      (by decide)⟩

/-! ### The list decoder on arbitrary wire arrays -/

theorem conv_lookup (t : BsonType) (cvt : GoType) (h : convFromType t = some cvt) :
    testRegistry.LookupDecoder cvt = .ok .valueCodecRef := by
  cases t <;> simp only [convFromType, Option.some.injEq] at h <;> first | (subst h; rfl) | cases h

theorem depthList_wire_le {w : WireValue} {ws : List WireValue} (h : w ∈ ws) :
    w.depth ≤ WireValue.depthList ws := by
  induction ws with
  | nil => cases h
  | cons a ws ih =>
    simp only [WireValue.depthList]
    rcases List.mem_cons.mp h with rfl | h1
    · omega
    · have := ih h1
      omega

theorem depthList_wire_append (xs ys : List WireValue) :
    WireValue.depthList (xs ++ ys) = max (WireValue.depthList xs) (WireValue.depthList ys) := by
  induction xs with
  | nil => simp [WireValue.depthList]
  | cons a xs ih =>
    rw [List.cons_append, WireValue.depthList, WireValue.depthList, ih]
    omega

/-- Decoding a wire array into a fresh List variant: the value codec and the
host's pointer codec lead to the reading loop of the list decoder. -/
theorem decode_array_kind (k : Nat) (es : List WireValue) :
    DecodeValue (k + 5) testRegistry .valueCodecRef (.array es) (reflect.New tValue_ListValue)
      = match listValueCodec.decodeLoop (DecodeValue (k + 2) testRegistry) testRegistry es [] with
        | (.ok, elems) =>
          (.ok, .ptr tValue_ListValue (some (.struct tValue_ListValue
            [.ptr tListValueType (some (mkListValue
              (elems.map fun elem => .ptr tValue (some elem))))])))
        | (st, _) =>
          (st, .ptr tValue_ListValue (some (.struct tValue_ListValue
            [.ptr tListValueType (some (mkListValue []))]))) := by
  have l1 : testRegistry.LookupDecoder (.ptr .ListValue) = .ok .hostPointer := rfl
  have l2 : testRegistry.LookupDecoder .ListValue = .ok .listValueCodecRef := rfl
  rw [DecodeValue_valueCodec]
  simp only [valueCodec.DecodeValue, reflect.New, reflect.Zero,
    reflect.Indirect, GoValue.Field, List.get?, GoValue.TypeOf, l1]
  rw [DecodeValue_hostPointer]
  simp only [hostPointer.DecodeValue, reflect.Zero, l2]
  rw [DecodeValue_listCodec]
  simp only [listValueCodec.DecodeValue, GoValue.Field, List.get?, WireValue.ReadArray,
    GoValue.TypeOf, if_true]
  rcases listValueCodec.decodeLoop (DecodeValue (k + 2) testRegistry) testRegistry es []
    with ⟨st, elems⟩
  cases st <;> rfl

theorem decodeLoop_cons_none (call : Decoder) (ectx : Registry) (w : WireValue)
    (ws : List WireValue) (acc : List GoValue) (hc : convFromType w.Type_ = none) :
    listValueCodec.decodeLoop call ectx (w :: ws) acc
      = (.error (.UnexpectedType w.Type_), acc) := by
  simp only [listValueCodec.decodeLoop, hc]

theorem decodeLoop_cons_nolookup (call : Decoder) (ectx : Registry) (w : WireValue)
    (ws : List WireValue) (acc : List GoValue) (cvt : GoType) (e : Err)
    (hc : convFromType w.Type_ = some cvt) (hl : ectx.LookupDecoder cvt = .error e) :
    listValueCodec.decodeLoop call ectx (w :: ws) acc = (.error e, acc) := by
  simp only [listValueCodec.decodeLoop, hc, hl]

theorem decodeLoop_cons_ok (call : Decoder) (ectx : Registry) (w : WireValue)
    (ws : List WireValue) (acc : List GoValue) (cvt : GoType) (dec : Codec) (elem : GoValue)
    (hc : convFromType w.Type_ = some cvt) (hl : ectx.LookupDecoder cvt = .ok dec)
    (hcall : call dec w (reflect.New cvt) = (.ok, elem)) :
    listValueCodec.decodeLoop call ectx (w :: ws) acc
      = listValueCodec.decodeLoop call ectx ws
          (acc ++ [(reflect.Zero tValue).SetField 0 (.iface (some elem))]) := by
  simp only [listValueCodec.decodeLoop, hc, hl, hcall]

theorem decodeLoop_cons_fail (call : Decoder) (ectx : Registry) (w : WireValue)
    (ws : List WireValue) (acc : List GoValue) (cvt : GoType) (dec : Codec) (st : Status)
    (elem : GoValue)
    (hc : convFromType w.Type_ = some cvt) (hl : ectx.LookupDecoder cvt = .ok dec)
    (hcall : call dec w (reflect.New cvt) = (st, elem)) (hst : st ≠ .ok) :
    listValueCodec.decodeLoop call ectx (w :: ws) acc = (st, acc) := by
  cases st with
  | ok => exact absurd rfl hst
  | _ => simp only [listValueCodec.decodeLoop, hc, hl, hcall]

/-- The reading loop returns when each variant decode it calls returns. -/
theorem decodeLoop_returned (fuel : Nat) (ws : List WireValue)
    (h : ∀ w ∈ ws, ∀ cvt, convFromType w.Type_ = some cvt →
      (DecodeValue fuel testRegistry .valueCodecRef w (reflect.New cvt)).1.returned = true) :
    ∀ acc, (listValueCodec.decodeLoop (DecodeValue fuel testRegistry) testRegistry ws acc).1.returned
      = true := by
  induction ws with
  | nil =>
    intro acc
    rfl
  | cons w ws ih =>
    intro acc
    cases hc : convFromType w.Type_ with
    | none =>
      rw [decodeLoop_cons_none _ _ _ _ _ hc]
      rfl
    | some cvt =>
      have h1 := h w (List.mem_cons_self w ws) cvt hc
      rcases hcall : DecodeValue fuel testRegistry .valueCodecRef w (reflect.New cvt)
        with ⟨st, elem⟩
      rw [hcall] at h1
      cases st with
      | ok =>
        rw [decodeLoop_cons_ok _ _ _ _ _ _ _ _ hc (conv_lookup _ _ hc) hcall]
        exact ih (fun u hu => h u (List.mem_cons_of_mem w hu)) _
      | error e =>
        rw [decodeLoop_cons_fail _ _ _ _ _ _ _ _ _ hc (conv_lookup _ _ hc) hcall (by simp)]
        rfl
      | panic => cases h1
      | timeout => cases h1

/-- Under the registry built by Register every variant decode of a wire value
returns, given three units of fuel per nesting level. -/
theorem decode_returned (n : Nat) :
    ∀ w : WireValue, w.depth ≤ n → ∀ cvt, convFromType w.Type_ = some cvt →
      ∀ fuel, 3 * n + 2 ≤ fuel →
      (DecodeValue fuel testRegistry .valueCodecRef w (reflect.New cvt)).1.returned = true := by
  induction n with
  | zero =>
    intro w hw cvt hc fuel hf
    obtain ⟨k, rfl⟩ : ∃ k, fuel = k + 2 := ⟨fuel - 2, by omega⟩
    cases w with
    | array es => simp [WireValue.depth] at hw
    | other t raw => cases t <;> cases hc
    | _ => first | (cases hc; rfl) | cases hc
  | succ m ih =>
    intro w hw cvt hc fuel hf
    cases w with
    | array es =>
      obtain ⟨k, rfl⟩ : ∃ k, fuel = k + 5 := ⟨fuel - 5, by omega⟩
      cases hc
      have hd : WireValue.depthList es ≤ m := by
        simp only [WireValue.depth] at hw
        omega
      have hloop := decodeLoop_returned (k + 2) es
        (fun u hu cvt hcu => ih u (le_trans (depthList_wire_le hu) hd) cvt hcu (k + 2) (by omega)) []
      rw [decode_array_kind]
      rcases hl : listValueCodec.decodeLoop (DecodeValue (k + 2) testRegistry) testRegistry es []
        with ⟨st, elems⟩
      rw [hl] at hloop
      cases st with
      | ok => rfl
      | error e => rfl
      | panic => cases hloop
      | timeout => cases hloop
    | other t raw => cases t <;> cases hc
    | _ =>
      obtain ⟨k, rfl⟩ : ∃ k, fuel = k + 2 := ⟨fuel - 2, by omega⟩
      first | (cases hc; rfl) | cases hc

/-- An element whose tag is not in the dispatch table keeps the reading loop
from returning nil. -/
theorem decodeLoop_bad_not_ok (call : Decoder) (ectx : Registry) (bad : WireValue)
    (post : List WireValue) (hbad : convFromType bad.Type_ = none) :
    ∀ (pre : List WireValue) (acc : List GoValue),
      (listValueCodec.decodeLoop call ectx (pre ++ bad :: post) acc).1 ≠ .ok := by
  intro pre
  induction pre with
  | nil =>
    intro acc
    rw [List.nil_append, decodeLoop_cons_none _ _ _ _ _ hbad]
    simp
  | cons w pre ih =>
    intro acc
    rw [List.cons_append]
    cases hc : convFromType w.Type_ with
    | none =>
      rw [decodeLoop_cons_none _ _ _ _ _ hc]
      simp
    | some cvt =>
      cases hl : ectx.LookupDecoder cvt with
      | error e =>
        rw [decodeLoop_cons_nolookup _ _ _ _ _ _ _ hc hl]
        simp
      | ok dec =>
        rcases hcall : call dec w (reflect.New cvt) with ⟨st, elem⟩
        by_cases hst : st = .ok
        · subst hst
          rw [decodeLoop_cons_ok _ _ _ _ _ _ _ _ hc hl hcall]
          exact ih _
        · rw [decodeLoop_cons_fail _ _ _ _ _ _ _ _ _ hc hl hcall hst]
          exact hst

/-- Once the reading loop has read a prefix successfully it continues with the
rest of the array from the buffer reached. -/
theorem decodeLoop_append_ok (call : Decoder) (ectx : Registry) (rest : List WireValue) :
    ∀ (pre : List WireValue) (acc elems : List GoValue),
      listValueCodec.decodeLoop call ectx pre acc = (.ok, elems) →
      listValueCodec.decodeLoop call ectx (pre ++ rest) acc
        = listValueCodec.decodeLoop call ectx rest elems := by
  intro pre
  induction pre with
  | nil =>
    intro acc elems h
    simp only [listValueCodec.decodeLoop, Prod.mk.injEq, true_and] at h
    subst h
    rfl
  | cons w pre ih =>
    intro acc elems h
    rw [List.cons_append]
    cases hc : convFromType w.Type_ with
    | none =>
      rw [decodeLoop_cons_none _ _ _ _ _ hc] at h
      cases h
    | some cvt =>
      cases hl : ectx.LookupDecoder cvt with
      | error e =>
        rw [decodeLoop_cons_nolookup _ _ _ _ _ _ _ hc hl] at h
        cases h
      | ok dec =>
        rcases hcall : call dec w (reflect.New cvt) with ⟨st, elem⟩
        by_cases hst : st = .ok
        · subst hst
          rw [decodeLoop_cons_ok _ _ _ _ _ _ _ _ hc hl hcall] at h ⊢
          exact ih _ _ h
        · rw [decodeLoop_cons_fail _ _ _ _ _ _ _ _ _ hc hl hcall hst] at h
          simp only [Prod.mk.injEq] at h
          exact absurd h.1 hst

/-- The elements after one whose tag is not in the dispatch table have no
influence on the reading loop. -/
theorem decodeLoop_bad_suffix (call : Decoder) (ectx : Registry) (bad : WireValue)
    (post post2 : List WireValue) (hbad : convFromType bad.Type_ = none) :
    ∀ (pre : List WireValue) (acc : List GoValue),
      listValueCodec.decodeLoop call ectx (pre ++ bad :: post) acc
        = listValueCodec.decodeLoop call ectx (pre ++ bad :: post2) acc := by
  intro pre
  induction pre with
  | nil =>
    intro acc
    rw [List.nil_append, List.nil_append, decodeLoop_cons_none _ _ _ _ _ hbad,
      decodeLoop_cons_none _ _ _ _ _ hbad]
  | cons w pre ih =>
    intro acc
    rw [List.cons_append, List.cons_append]
    cases hc : convFromType w.Type_ with
    | none =>
      rw [decodeLoop_cons_none _ _ _ _ _ hc, decodeLoop_cons_none _ _ _ _ _ hc]
    | some cvt =>
      cases hl : ectx.LookupDecoder cvt with
      | error e =>
        rw [decodeLoop_cons_nolookup _ _ _ _ _ _ _ hc hl,
          decodeLoop_cons_nolookup _ _ _ _ _ _ _ hc hl]
      | ok dec =>
        rcases hcall : call dec w (reflect.New cvt) with ⟨st, elem⟩
        by_cases hst : st = .ok
        · subst hst
          rw [decodeLoop_cons_ok _ _ _ _ _ _ _ _ hc hl hcall,
            decodeLoop_cons_ok _ _ _ _ _ _ _ _ hc hl hcall]
          exact ih _
        · rw [decodeLoop_cons_fail _ _ _ _ _ _ _ _ _ hc hl hcall hst,
            decodeLoop_cons_fail _ _ _ _ _ _ _ _ _ hc hl hcall hst]

/-- The list decoder on a ListValue destination, in terms of its reading loop. -/
theorem listDecode_mk (call : Decoder) (ectx : Registry) (ws : List WireValue)
    (old : List GoValue) :
    listValueCodec.DecodeValue call ectx (.array ws) (mkListValue old)
      = match listValueCodec.decodeLoop call ectx ws [] with
        | (.ok, elems) => (.ok, mkListValue (elems.map fun elem => .ptr tValue (some elem)))
        | (st, _) => (st, mkListValue old) := by
  simp only [listValueCodec.DecodeValue, mkListValue, GoValue.Field, List.get?,
    WireValue.ReadArray, GoValue.TypeOf, if_true]
  rcases listValueCodec.decodeLoop call ectx ws [] with ⟨st, elems⟩
  cases st <;> rfl

theorem listDecode_status_ne_ok (call : Decoder) (ectx : Registry) (ws : List WireValue)
    (dst : GoValue) (h : ∀ acc, (listValueCodec.decodeLoop call ectx ws acc).1 ≠ .ok) :
    (listValueCodec.DecodeValue call ectx (.array ws) dst).1 ≠ .ok := by
  unfold listValueCodec.DecodeValue
  cases dst.Field 0 with
  | none => simp
  | some vals =>
    simp only [WireValue.ReadArray]
    have h0 := h []
    rcases hL : listValueCodec.decodeLoop call ectx ws [] with ⟨st, elems⟩
    rw [hL] at h0
    cases st with
    | ok => exact absurd rfl h0
    | error e => simp
    | panic => simp
    | timeout => simp

/-- C6. Unsupported wire tag aborts list decode.  Let a wire array contain an
element bad whose tag has no entry in the dispatch table (it is none of
string, boolean, double, array, embedded document, null), after the elements
pre and before the elements post.  Then (1) listValueCodec.DecodeValue never
returns nil on it, for any registry, destination and fuel; (2) under the
registry built by Register, with three units of fuel per nesting level, it
returns an error and the destination list is unchanged; (3) for any registry,
when the reading loop decodes every element of pre successfully, the error is
the unsupported-type error naming the tag of bad; (4) the outcome is the same
for every other sequence post2 of elements after bad. -/
theorem c6_unsupported_tag_aborts (pre post post2 : List WireValue) (bad : WireValue)
    (old : List GoValue) (hbad : convFromType bad.Type_ = none) :
    (∀ (ectx : Registry) (fuel : Nat) (dst : GoValue),
      (DecodeValue fuel ectx .listValueCodecRef (.array (pre ++ bad :: post)) dst).1 ≠ .ok) ∧
    (∀ fuel : Nat, 3 * (WireValue.array (pre ++ bad :: post)).depth ≤ fuel →
      ∃ err, DecodeValue fuel testRegistry .listValueCodecRef (.array (pre ++ bad :: post))
          (mkListValue old) = (.error err, mkListValue old)) ∧
    (∀ (ectx : Registry) (fuel : Nat) (elems : List GoValue),
      listValueCodec.decodeLoop (DecodeValue fuel ectx) ectx pre [] = (.ok, elems) →
      DecodeValue (fuel + 1) ectx .listValueCodecRef (.array (pre ++ bad :: post))
          (mkListValue old) = (.error (.UnexpectedType bad.Type_), mkListValue old)) ∧
    (∀ (ectx : Registry) (fuel : Nat) (dst : GoValue),
      DecodeValue fuel ectx .listValueCodecRef (.array (pre ++ bad :: post)) dst
        = DecodeValue fuel ectx .listValueCodecRef (.array (pre ++ bad :: post2)) dst) := by
  refine ⟨?_, ?_, ?_, ?_⟩
  · intro ectx fuel dst
    cases fuel with
    | zero => simp [DecodeValue]
    | succ k =>
      rw [DecodeValue_listCodec]
      exact listDecode_status_ne_ok _ _ _ _
        (fun acc => decodeLoop_bad_not_ok _ _ bad post hbad pre acc)
  · intro fuel hf
    simp only [WireValue.depth] at hf
    obtain ⟨k, rfl⟩ : ∃ k, fuel = k + 3 := ⟨fuel - 3, by omega⟩
    rw [DecodeValue_listCodec, listDecode_mk]
    have hret := decodeLoop_returned (k + 2) (pre ++ bad :: post)
      (fun u hu cvt hcu => decode_returned (WireValue.depthList (pre ++ bad :: post)) u
        (depthList_wire_le hu) cvt hcu (k + 2) (by omega)) []
    have hne := decodeLoop_bad_not_ok (DecodeValue (k + 2) testRegistry) testRegistry bad post
      hbad pre []
    rcases hL : listValueCodec.decodeLoop (DecodeValue (k + 2) testRegistry) testRegistry
      (pre ++ bad :: post) [] with ⟨st, elems⟩
    rw [hL] at hne hret
    cases st with
    | ok => exact absurd rfl hne
    | error e => exact ⟨e, rfl⟩
    | panic => cases hret
    | timeout => cases hret
  · intro ectx fuel elems hpre
    rw [DecodeValue_listCodec, listDecode_mk, decodeLoop_append_ok _ _ _ _ _ _ hpre,
      decodeLoop_cons_none _ _ _ _ _ hbad]
  · intro ectx fuel dst
    cases fuel with
    | zero => rfl
    | succ k =>
      rw [DecodeValue_listCodec, DecodeValue_listCodec]
      unfold listValueCodec.DecodeValue
      simp only [WireValue.ReadArray, decodeLoop_bad_suffix _ _ bad post post2 hbad pre []]

/-- Witness of C6: the array [string a, int32 7, null] decoded under the
registry built by Register: the int32 element has no dispatch entry. -/
theorem c6_unsupported_tag_aborts_witness :
    convFromType (WireValue.int32 7).Type_ = none ∧
    ((∀ (ectx : Registry) (fuel : Nat) (dst : GoValue),
      (DecodeValue fuel ectx .listValueCodecRef
        (.array ([.string "a"] ++ .int32 7 :: [.null])) dst).1 ≠ .ok) ∧
    (∀ fuel : Nat, 3 * (WireValue.array ([.string "a"] ++ .int32 7 :: [.null])).depth ≤ fuel →
      ∃ err, DecodeValue fuel testRegistry .listValueCodecRef
          (.array ([.string "a"] ++ .int32 7 :: [.null]))
          (mkListValue []) = (.error err, mkListValue [])) ∧
    (∀ (ectx : Registry) (fuel : Nat) (elems : List GoValue),
      listValueCodec.decodeLoop (DecodeValue fuel ectx) ectx [.string "a"] [] = (.ok, elems) →
      DecodeValue (fuel + 1) ectx .listValueCodecRef
          (.array ([.string "a"] ++ .int32 7 :: [.null]))
          (mkListValue []) = (.error (.UnexpectedType (WireValue.int32 7).Type_), mkListValue [])) ∧
    (∀ (ectx : Registry) (fuel : Nat) (dst : GoValue),
      DecodeValue fuel ectx .listValueCodecRef (.array ([.string "a"] ++ .int32 7 :: [.null])) dst
        = DecodeValue fuel ectx .listValueCodecRef
            (.array ([.string "a"] ++ .int32 7 :: [])) dst)) :=
  ⟨rfl, c6_unsupported_tag_aborts [.string "a"] [.null] [] (.int32 7) [] rfl⟩

/-! ### Nil elements and null elements -/

/-- On a nil pointer the pointer loop of the list encoder never ends. -/
theorem unwrapLoop_nil (e : GoType) :
    ∀ (fuel : Nat) (vw : ValueWriter), listValueCodec.unwrapLoop fuel vw (.ptr e none) = none := by
  intro fuel
  induction fuel with
  | zero =>
    intro vw
    rfl
  | succ k ih =>
    intro vw
    have hk : (GoValue.ptr e none).Kind = Kind.Ptr := rfl
    have hn : (GoValue.ptr e none).IsNil = true := rfl
    simp only [listValueCodec.unwrapLoop, hk, hn, if_true, ih]

theorem encodeLoop_nil_head (call : Encoder) (fuel : Nat) (ectx : Registry) (e : GoType)
    (post : List GoValue) (aw : ValueWriter) :
    (listValueCodec.encodeLoop call fuel ectx (.ptr e none :: post) aw).1 ≠ .ok := by
  unfold listValueCodec.encodeLoop
  rcases hw : aw.WriteArrayElement with ⟨st, vw⟩
  cases st with
  | ok => simp [unwrapLoop_nil]
  | error err => simp
  | panic => simp
  | timeout => simp

theorem encodeLoop_nil_not_ok (call : Encoder) (fuel : Nat) (ectx : Registry) (e : GoType)
    (post : List GoValue) :
    ∀ (pre : List GoValue) (aw : ValueWriter),
      (listValueCodec.encodeLoop call fuel ectx (pre ++ .ptr e none :: post) aw).1 ≠ .ok := by
  intro pre
  induction pre with
  | nil =>
    intro aw
    exact encodeLoop_nil_head call fuel ectx e post aw
  | cons v pre ih =>
    intro aw
    rw [List.cons_append]
    unfold listValueCodec.encodeLoop
    rcases aw.WriteArrayElement with ⟨st, vw⟩
    cases st with
    | ok =>
      simp only
      cases listValueCodec.unwrapLoop fuel vw v with
      | none => simp
      | some p =>
        obtain ⟨vw1, v1⟩ := p
        simp only
        cases (if v1.TypeOf = tValue then v1.Field 0 else some v1) with
        | none => simp
        | some v2 =>
          simp only
          cases v2.Interface with
          | none => simp
          | some x =>
            simp only
            cases x.TypeOf.Elem with
            | none => simp
            | some t =>
              simp only
              cases ectx.LookupEncoder t with
              | error err => simp
              | ok enc =>
                simp only
                rcases call enc vw1 x with ⟨st2, vw2⟩
                cases st2 with
                | ok => exact ih vw2
                | error err => simp
                | panic => simp
                | timeout => simp
    | error err => simp
    | panic => simp
    | timeout => simp

/-- C7 (the code at the failing input).  On the list whose only element is a
nil pointer, listValueCodec.EncodeValue is still running whatever the fuel: the
pointer loop writes the null marker and continues with the same nil pointer.
More generally, on a list with a nil element at any index the call never
returns nil, for any registry, writer and fuel. -/
theorem c7_nil_element_never_returns :
    (∀ fuel : Nat,
      (EncodeValue fuel testRegistry .listValueCodecRef ValueWriter.slot
        (mkListValue [.ptr tValue none])).1 = .timeout) ∧
    (∀ (ectx : Registry) (fuel : Nat) (vw : ValueWriter) (pre post : List GoValue),
      (EncodeValue fuel ectx .listValueCodecRef vw
        (mkListValue (pre ++ .ptr tValue none :: post))).1 ≠ .ok) := by
  constructor
  · intro fuel
    cases fuel with
    | zero => rfl
    | succ k =>
      rw [EncodeValue_listCodec]
      simp only [listValueCodec.EncodeValue, mkListValue, GoValue.Field, List.get?,
        ValueWriter.WriteArray, ValueWriter.slot, GoValue.Elems, listValueCodec.encodeLoop,
        ValueWriter.WriteArrayElement, unwrapLoop_nil]
  · intro ectx fuel vw pre post
    cases fuel with
    | zero => simp [EncodeValue]
    | succ k =>
      rw [EncodeValue_listCodec]
      simp only [listValueCodec.EncodeValue, mkListValue, GoValue.Field, List.get?]
      rcases vw.WriteArray with ⟨st, aw⟩
      cases st with
      | ok => exact encodeLoop_nil_not_ok _ _ _ _ _ _ _
      | error err => simp
      | panic => simp
      | timeout => simp

/-- What a successful run of the reading loop has appended to its buffer: one
Value node per wire element, in order, each wrapping what the decoder found
for the element's dispatch-table type produced from the element. -/
theorem decodeLoop_ok_get (call : Decoder) (ectx : Registry) :
    ∀ (ws : List WireValue) (acc elems : List GoValue),
      listValueCodec.decodeLoop call ectx ws acc = (.ok, elems) →
      ∃ more, elems = acc ++ more ∧ more.length = ws.length ∧
        ∀ i w, ws.get? i = some w →
          ∃ cvt dec elem, convFromType w.Type_ = some cvt ∧ ectx.LookupDecoder cvt = .ok dec ∧
            call dec w (reflect.New cvt) = (.ok, elem) ∧
            more.get? i = some ((reflect.Zero tValue).SetField 0 (.iface (some elem))) := by
  intro ws
  induction ws with
  | nil =>
    intro acc elems h
    simp only [listValueCodec.decodeLoop, Prod.mk.injEq, true_and] at h
    subst h
    exact ⟨[], by simp, rfl, by simp⟩
  | cons w ws ih =>
    intro acc elems h
    cases hc : convFromType w.Type_ with
    | none =>
      rw [decodeLoop_cons_none _ _ _ _ _ hc] at h
      cases h
    | some cvt =>
      cases hl : ectx.LookupDecoder cvt with
      | error e =>
        rw [decodeLoop_cons_nolookup _ _ _ _ _ _ _ hc hl] at h
        cases h
      | ok dec =>
        rcases hcall : call dec w (reflect.New cvt) with ⟨st, elem⟩
        by_cases hst : st = .ok
        · subst hst
          rw [decodeLoop_cons_ok _ _ _ _ _ _ _ _ hc hl hcall] at h
          obtain ⟨more, hm, hlen, hget⟩ := ih _ _ h
          refine ⟨(reflect.Zero tValue).SetField 0 (.iface (some elem)) :: more, ?_, ?_, ?_⟩
          · rw [hm]
            simp
          · simp [hlen]
          · intro i u hu
            cases i with
            | zero =>
              simp only [List.get?, Option.some.injEq] at hu
              subst hu
              exact ⟨cvt, dec, elem, hc, hl, hcall, rfl⟩
            | succ j =>
              simp only [List.get?] at hu ⊢
              exact hget j u hu
        · rw [decodeLoop_cons_fail _ _ _ _ _ _ _ _ _ hc hl hcall hst] at h
          simp only [Prod.mk.injEq] at h
          exact absurd h.1 hst

/-- Under the registry built by Register a successful variant decode of the
wire null yields the Null variant holding NullValue_NULL_VALUE. -/
theorem decode_null_kind (fuel : Nat) (elem : GoValue)
    (h : DecodeValue fuel testRegistry .valueCodecRef .null (reflect.New tValue_NullValue)
      = (.ok, elem)) : elem = WfValue.null.kind := by
  match fuel, h with
  | 0, h => cases h
  | 1, h => cases h
  | k + 2, h =>
    have e : DecodeValue (k + 2) testRegistry .valueCodecRef .null (reflect.New tValue_NullValue)
        = (.ok, WfValue.null.kind) := rfl
    rw [e] at h
    simp only [Prod.mk.injEq, true_and] at h
    exact h.symm

/-- C8 (counterexample).  The wire array [null] decodes to a list of one
element that is a non-nil Value whose active variant is Null, not to a list
whose element is a nil pointer. -/
theorem c8_wire_null_element_counterexample :
    DecodeValue 3 testRegistry .listValueCodecRef (.array [.null]) (mkListValue [])
      = (.ok, mkListValue [mkValue (.ptr tValue_NullValue
          (some (.struct tValue_NullValue [NullValue_NULL_VALUE])))]) ∧
    mkValue (.ptr tValue_NullValue (some (.struct tValue_NullValue [NullValue_NULL_VALUE])))
      ≠ .ptr tValue none := by
  refine ⟨rfl, ?_⟩
  simp [mkValue]

/-- C8 (amended).  Wire null element on decode: for every wire array whose
i-th element is the wire null marker, whenever listValueCodec.DecodeValue
(under the registry built by Register) returns nil, the i-th element of the
list it produced is a non-nil Value whose active variant is Null, holding
NullValue_NULL_VALUE. -/
theorem c8_wire_null_element_amended (ws : List WireValue) (i : Nat) (fuel : Nat)
    (old : List GoValue) (r : GoValue) (hi : ws.get? i = some .null)
    (hr : DecodeValue fuel testRegistry .listValueCodecRef (.array ws) (mkListValue old)
      = (.ok, r)) :
    ∃ vs : List GoValue, r = mkListValue vs ∧ vs.length = ws.length ∧
      vs.get? i = some (mkValue (.ptr tValue_NullValue
        (some (.struct tValue_NullValue [NullValue_NULL_VALUE])))) := by
  match fuel, hr with
  | 0, hr => cases hr
  | k + 1, hr =>
    rw [DecodeValue_listCodec, listDecode_mk] at hr
    rcases hL : listValueCodec.decodeLoop (DecodeValue k testRegistry) testRegistry ws []
      with ⟨st, elems⟩
    rw [hL] at hr
    cases st with
    | ok =>
      simp only [Prod.mk.injEq, true_and] at hr
      obtain ⟨more, hm, hlen, hget⟩ := decodeLoop_ok_get _ _ ws [] elems hL
      obtain ⟨cvt, dec, elem, hc, hl, hcall, hg⟩ := hget i .null hi
      cases hc
      have hdec : dec = .valueCodecRef := by
        have : testRegistry.LookupDecoder tValue_NullValue = .ok .valueCodecRef := rfl
        rw [this] at hl
        cases hl
        rfl
      subst hdec
      have helem := decode_null_kind k elem hcall
      subst helem
      simp only [List.nil_append] at hm
      subst hm
      refine ⟨_, hr.symm, by simp [hlen], ?_⟩
      rw [List.get?_eq_getElem?] at hg ⊢
      rw [List.getElem?_map, hg]
      rfl
    | error e => cases hr
    | panic => cases hr
    | timeout => cases hr

/-- Witness of C8 (amended): the array [string a, null], index 1. -/
theorem c8_wire_null_element_amended_witness :
    [WireValue.string "a", WireValue.null].get? 1 = some .null ∧
    DecodeValue 3 testRegistry .listValueCodecRef (.array [.string "a", .null]) (mkListValue [])
      = (.ok, mkListValue (WfValue.goList [.str "a", .null])) ∧
    ∃ vs : List GoValue, mkListValue (WfValue.goList [.str "a", .null]) = mkListValue vs ∧
      vs.length = [WireValue.string "a", WireValue.null].length ∧
      vs.get? 1 = some (mkValue (.ptr tValue_NullValue
        (some (.struct tValue_NullValue [NullValue_NULL_VALUE])))) :=
  ⟨rfl, rfl, c8_wire_null_element_amended [.string "a", .null] 1 3 []
    (mkListValue (WfValue.goList [.str "a", .null])) rfl rfl⟩

/-! ### Failed lookups while encoding -/

theorem wireList_get (vs : List WfValue) (i : Nat) (w : WireValue)
    (h : (WfValue.wireList vs).get? i = some w) :
    ∃ v, vs.get? i = some v ∧ w = v.toWire ∧ (WfValue.goList vs).get? i = some (mkValue v.kind) := by
  induction vs generalizing i with
  | nil => simp [WfValue.wireList] at h
  | cons u vs ih =>
    cases i with
    | zero =>
      simp only [WfValue.wireList, List.get?, Option.some.injEq] at h
      exact ⟨u, rfl, h.symm, rfl⟩
    | succ j =>
      simp only [WfValue.wireList, List.get?] at h
      obtain ⟨v, h1, h2, h3⟩ := ih j h
      exact ⟨v, by simpa using h1, h2, by simpa [WfValue.goList] using h3⟩

/-- C10. List decode follows the dispatch table.  For every wire array whose
elements have the tags string, boolean, double, null and array (nested arrays
of the same form) there is a fuel bound from which on
listValueCodec.DecodeValue under the registry built by Register returns nil
and sets the destination to a list of the same length in which element i is a
non-nil Value whose active variant is String, Bool, Number, Null or List for a
wire string, boolean, double, null or array at index i, holding the wire
element's content (for an array: the list the decoder produces from that
array); the list is the same whatever the destination held before. -/
theorem c10_list_decode_dispatch (ws : List WireValue)
    (hs : WireValue.supportedList ws = true) :
    ∃ (bound : Nat) (values : List GoValue), values.length = ws.length ∧
      (∀ fuel, bound ≤ fuel → ∀ old : List GoValue,
        DecodeValue fuel testRegistry .listValueCodecRef (.array ws) (mkListValue old)
          = (.ok, mkListValue values)) ∧
      ∀ i w, ws.get? i = some w →
        (∀ s, w = .string s → values.get? i = some (mkValue
          (.ptr tValue_StringValue (some (.struct tValue_StringValue [.string s]))))) ∧
        (∀ b, w = .boolean b → values.get? i = some (mkValue
          (.ptr tValue_BoolValue (some (.struct tValue_BoolValue [.bool b]))))) ∧
        (∀ x, w = .double x → values.get? i = some (mkValue
          (.ptr tValue_NumberValue (some (.struct tValue_NumberValue [.float64 x]))))) ∧
        (w = .null → values.get? i = some (mkValue
          (.ptr tValue_NullValue (some (.struct tValue_NullValue [NullValue_NULL_VALUE]))))) ∧
        (∀ es, w = .array es → ∃ nested : List GoValue,
          values.get? i = some (mkValue
            (.ptr tValue_ListValue (some (.struct tValue_ListValue
              [.ptr tListValueType (some (mkListValue nested))])))) ∧
          ∀ fuel, bound ≤ fuel → ∀ old : List GoValue,
            DecodeValue fuel testRegistry .listValueCodecRef (.array es) (mkListValue old)
              = (.ok, mkListValue nested)) := by
  obtain ⟨vs, rfl⟩ := supportedList_exists ws hs
  refine ⟨3 * (WfValue.list vs).depth, WfValue.goList vs,
    by simp [goList_eq_map, wireList_eq_map], fun fuel hf old => decode_list vs fuel hf old, ?_⟩
  intro i w hw
  obtain ⟨v, hmem, hv, hg⟩ := wireList_get vs i w hw
  subst hv
  rw [hg]
  refine ⟨?_, ?_, ?_, ?_, ?_⟩
  · intro s h
    cases v <;> simp only [WfValue.toWire] at h <;> cases h
    rfl
  · intro b h
    cases v <;> simp only [WfValue.toWire] at h <;> cases h
    rfl
  · intro x h
    cases v <;> simp only [WfValue.toWire] at h <;> cases h
    rfl
  · intro h
    cases v <;> simp only [WfValue.toWire] at h <;> cases h
    rfl
  · intro es h
    cases v <;> simp only [WfValue.toWire] at h <;> cases h
    rename_i us
    refine ⟨WfValue.goList us, rfl, fun fuel hf old => decode_list us fuel ?_ old⟩
    have hd : (WfValue.list us).depth ≤ WfValue.depthList vs :=
      depth_le_depthList (List.get?_mem hmem)
    simp only [WfValue.depth] at hf hd ⊢
    omega

/-- Witness of C10: the wire array of the test fixture. -/
theorem c10_list_decode_dispatch_witness :
    WireValue.supportedList [.string "a", .double 4607182418800017408, .boolean false, .null,
      .array [.string "b", .double 4611686018427387904]] = true ∧
    ∃ (bound : Nat) (values : List GoValue),
      values.length = [WireValue.string "a", .double 4607182418800017408, .boolean false, .null,
        .array [.string "b", .double 4611686018427387904]].length ∧
      (∀ fuel, bound ≤ fuel → ∀ old : List GoValue,
        DecodeValue fuel testRegistry .listValueCodecRef
            (.array [.string "a", .double 4607182418800017408, .boolean false, .null,
              .array [.string "b", .double 4611686018427387904]]) (mkListValue old)
          = (.ok, mkListValue values)) := by
  refine ⟨by decide, ?_⟩
  obtain ⟨bound, values, h1, h2, -⟩ := c10_list_decode_dispatch
    [.string "a", .double 4607182418800017408, .boolean false, .null,
      .array [.string "b", .double 4611686018427387904]] (by decide)
  exact ⟨bound, values, h1, h2⟩

/-! ### The list encoder on well-formed lists -/

theorem goList_get (vs : List WfValue) (i : Nat) (g : GoValue)
    (h : (WfValue.goList vs).get? i = some g) :
    ∃ v, vs.get? i = some v ∧ g = mkValue v.kind ∧ (WfValue.wireList vs).get? i = some v.toWire := by
  induction vs generalizing i with
  | nil => simp [WfValue.goList] at h
  | cons u vs ih =>
    cases i with
    | zero =>
      simp only [WfValue.goList, List.get?, Option.some.injEq] at h
      exact ⟨u, rfl, h.symm, rfl⟩
    | succ j =>
      simp only [WfValue.goList, List.get?] at h
      obtain ⟨v, h1, h2, h3⟩ := ih j h
      exact ⟨v, by simpa using h1, h2, by simpa [WfValue.wireList] using h3⟩

/-- C11. List encode is total, order-preserving and variant-directed on
well-formed input.  For every ListValue whose elements are non-nil Values with
active variant String, Number, Bool, Null or List (nested lists non-nil and of
the same form) there is a fuel bound from which on listValueCodec.EncodeValue
under the registry built by Register returns nil and has written, as the value
of the slot the writer was positioned at, one wire array with as many elements
as the list, whose i-th element is a wire string, boolean, double or null
holding the payload of a String, Bool, Number or Null at index i, and for a
List at index i the array the encoder writes for that nested list. -/
theorem c11_list_encode_total (values : List GoValue) (hwf : GoValue.wfElems values = true) :
    ∃ (bound : Nat) (ws : List WireValue), ws.length = values.length ∧
      (∀ fuel, bound ≤ fuel → ∀ (rest : List Frame) (out : List WireValue),
        EncodeValue fuel testRegistry .listValueCodecRef ⟨.value :: rest, out⟩
            (mkListValue values)
          = (.ok, ValueWriter.attach (.array ws) rest out)) ∧
      ∀ i g, values.get? i = some g →
        (∀ s, g = mkValue (.ptr tValue_StringValue (some (.struct tValue_StringValue [.string s])))
          → ws.get? i = some (.string s)) ∧
        (∀ b, g = mkValue (.ptr tValue_BoolValue (some (.struct tValue_BoolValue [.bool b])))
          → ws.get? i = some (.boolean b)) ∧
        (∀ x, g = mkValue (.ptr tValue_NumberValue (some (.struct tValue_NumberValue [.float64 x])))
          → ws.get? i = some (.double x)) ∧
        (g = mkValue (.ptr tValue_NullValue (some (.struct tValue_NullValue [NullValue_NULL_VALUE])))
          → ws.get? i = some .null) ∧
        (∀ nested, g = mkValue (.ptr tValue_ListValue (some (.struct tValue_ListValue
              [.ptr tListValueType (some (mkListValue nested))])))
          → ∃ es : List WireValue, ws.get? i = some (.array es) ∧ es.length = nested.length ∧
            ∀ fuel, bound ≤ fuel → ∀ (rest : List Frame) (out : List WireValue),
              EncodeValue fuel testRegistry .listValueCodecRef ⟨.value :: rest, out⟩
                  (mkListValue nested)
                = (.ok, ValueWriter.attach (.array es) rest out)) := by
  obtain ⟨vs, rfl⟩ := wfElems_exists values hwf
  refine ⟨3 * (WfValue.list vs).depth, WfValue.wireList vs,
    by simp [goList_eq_map, wireList_eq_map],
    fun fuel hf rest out => encode_list vs fuel hf rest out, ?_⟩
  intro i g hg
  obtain ⟨v, hmem, hv, hw⟩ := goList_get vs i g hg
  subst hv
  rw [hw]
  refine ⟨?_, ?_, ?_, ?_, ?_⟩
  · intro s h
    cases v <;> simp [mkValue, WfValue.kind] at h
    subst h
    rfl
  · intro b h
    cases v <;> simp [mkValue, WfValue.kind] at h
    subst h
    rfl
  · intro x h
    cases v <;> simp [mkValue, WfValue.kind] at h
    subst h
    rfl
  · intro h
    cases v <;> simp [mkValue, WfValue.kind] at h
    rfl
  · intro nested h
    cases v <;> simp [mkValue, WfValue.kind, mkListValue] at h
    rename_i us
    subst h
    refine ⟨WfValue.wireList us, rfl, by simp [goList_eq_map, wireList_eq_map],
      fun fuel hf rest out => encode_list us fuel ?_ rest out⟩
    have hd : (WfValue.list us).depth ≤ WfValue.depthList vs :=
      depth_le_depthList (List.get?_mem hmem)
    simp only [WfValue.depth] at hf hd ⊢
    omega

/-- Witness of C11: the list of the test fixture. -/
theorem c11_list_encode_total_witness :
    GoValue.wfElems (WfValue.goList [.str "a", .num 4607182418800017408, .bool false, .null,
        .list [.str "b", .num 4611686018427387904]]) = true ∧
    ∃ (bound : Nat) (ws : List WireValue),
      ws.length = (WfValue.goList [.str "a", .num 4607182418800017408, .bool false, .null,
        .list [.str "b", .num 4611686018427387904]]).length ∧
      (∀ fuel, bound ≤ fuel → ∀ (rest : List Frame) (out : List WireValue),
        EncodeValue fuel testRegistry .listValueCodecRef ⟨.value :: rest, out⟩
            (mkListValue (WfValue.goList [.str "a", .num 4607182418800017408, .bool false, .null,
              .list [.str "b", .num 4611686018427387904]]))
          = (.ok, ValueWriter.attach (.array ws) rest out)) := by
  refine ⟨by decide, ?_⟩
  obtain ⟨bound, ws, h1, h2, -⟩ := c11_list_encode_total
    (WfValue.goList [.str "a", .num 4607182418800017408, .bool false, .null,
      .list [.str "b", .num 4611686018427387904]]) (by decide)
  exact ⟨bound, ws, h1, h2⟩

/-! ### Timestamps outside the valid range and below the millisecond -/

/-- Function time.Unix gives a time for every pair. -/
theorem time_unix_is_time (sec nsec : Int) : ∃ a b, time.Unix sec nsec = .time a b := by
  unfold time.Unix
  split
  · simp only []
    split
    · exact ⟨_, _, rfl⟩
    · exact ⟨_, _, rfl⟩
  · exact ⟨_, _, rfl⟩

/-- C12 (the code at the failing input).  The Timestamp (253402300800, 0), the
first second of the year 10000, and the Timestamp (0, -1), with negative
nanos, are rejected by the validation of TimestampFromProto, yet
timestampCodec.EncodeValue returns nil on them and has written a date-time: the
conversion error is assigned to err and overwritten by the lookup of the
encoder before it is tested.  For no Timestamp at all does the call return an
error under the registry built by Register. -/
theorem c12_timestamp_encode_drops_conversion_error :
    (types.TimestampFromProto 253402300800 0).2 = .error .TimestampInvalid ∧
    EncodeValue 2 testRegistry .timestampCodecRef ValueWriter.slot
        (.struct timestampType [.int64 253402300800, .int32 0])
      = (.ok, ⟨[], [.dateTime 253402300800000]⟩) ∧
    (types.TimestampFromProto 0 (-1)).2 = .error .TimestampInvalid ∧
    EncodeValue 2 testRegistry .timestampCodecRef ValueWriter.slot
        (.struct timestampType [.int64 0, .int32 (-1)])
      = (.ok, ⟨[], [.dateTime (-1)]⟩) ∧
    (∀ (seconds nanos : Int) (fuel : Nat), 2 ≤ fuel →
      ∃ ms : Int, EncodeValue fuel testRegistry .timestampCodecRef ValueWriter.slot
          (.struct timestampType [.int64 seconds, .int32 nanos])
        = (.ok, ⟨[], [.dateTime ms]⟩)) := by
  refine ⟨rfl, rfl, rfl, rfl, ?_⟩
  intro seconds nanos fuel hf
  obtain ⟨k, rfl⟩ : ∃ k, fuel = k + 2 := ⟨fuel - 2, by omega⟩
  obtain ⟨a, b, hu⟩ := time_unix_is_time seconds nanos
  have hl : testRegistry.LookupEncoder timeType = .ok .hostTime := rfl
  rw [EncodeValue_timestampCodec]
  simp only [timestampCodec.EncodeValue, types.TimestampFromProto, hl, hu]
  exact ⟨_, rfl⟩

/-- C13. Timestamp precision loss is exactly truncation to the millisecond.
For every valid Timestamp (seconds in [0001-01-01, 10000-01-01), negative
seconds included, nanos in [0, 10^9)), timestampCodec.EncodeValue writes one
date-time and returns nil, and timestampCodec.DecodeValue applied to that
date-time returns nil and sets the destination to
(seconds, nanos - nanos mod 1,000,000): the seconds are unchanged and the nanos
are cut down to the start of their millisecond. -/
theorem c13_timestamp_truncation (seconds nanos : Int) (fuel : Nat) (dst : GoValue)
    (hs1 : minValidSeconds ≤ seconds) (hs2 : seconds < maxValidSeconds)
    (hn1 : 0 ≤ nanos) (hn2 : nanos < 1000000000)
    (hf : 2 ≤ fuel) (hd : dst.TypeOf = timestampType) :
    ∃ ms : Int,
      EncodeValue fuel testRegistry .timestampCodecRef ValueWriter.slot
          (.struct timestampType [.int64 seconds, .int32 nanos])
        = (.ok, ⟨[], [.dateTime ms]⟩) ∧
      DecodeValue fuel testRegistry .timestampCodecRef (.dateTime ms) dst
        = (.ok, .struct timestampType [.int64 seconds, .int32 (nanos - nanos % 1000000)]) := by
  obtain ⟨k, rfl⟩ : ∃ k, fuel = k + 2 := ⟨fuel - 2, by omega⟩
  refine ⟨seconds * 1000 + nanos / 1000000,
    timestamp_encode seconds nanos k hs1 hs2 hn1 hn2 [] [], ?_⟩
  rw [timestamp_decode seconds (nanos / 1000000) k hs1 hs2 (by omega) (by omega) dst hd]
  have e : nanos / 1000000 * 1000000 = nanos - nanos % 1000000 := by omega
  rw [e]

/-- Witness of C13: one nanosecond before the time 4 seconds before the epoch,
(-5, 999999999), comes back as (-5, 999000000). -/
theorem c13_timestamp_truncation_witness :
    minValidSeconds ≤ -5 ∧ (-5 : Int) < maxValidSeconds ∧ (0 : Int) ≤ 999999999 ∧
    (999999999 : Int) < 1000000000 ∧ 2 ≤ 2 ∧
    (reflect.Zero timestampType).TypeOf = timestampType ∧
    ∃ ms : Int,
      EncodeValue 2 testRegistry .timestampCodecRef ValueWriter.slot
          (.struct timestampType [.int64 (-5), .int32 999999999])
        = (.ok, ⟨[], [.dateTime ms]⟩) ∧
      DecodeValue 2 testRegistry .timestampCodecRef (.dateTime ms) (reflect.Zero timestampType)
        = (.ok, .struct timestampType [.int64 (-5), .int32 (999999999 - 999999999 % 1000000)]) :=
  ⟨by decide, by decide, by decide, by decide, by decide, by decide,
    c13_timestamp_truncation (-5) 999999999 2 (reflect.Zero timestampType) (by decide) (by decide)
      (by decide) (by decide) (by decide) (by decide)⟩

/-! ### The null codec -/

/-- C14. The null codec.  Into a destination of type NullValue, the type the
codec is registered for, nullValueCodec.DecodeValue returns an error if and
only if the wire value being read is not the null marker, and on the null
marker it returns nil with the destination equal to NullValue_NULL_VALUE.
nullValueCodec.EncodeValue, on a writer positioned at a value slot, writes the
null marker for every input value.  So decoding what the encoder wrote for any
value returns nil and yields NullValue_NULL_VALUE.  The same holds for the
calls through the registry's dispatch. -/
theorem c14_null_codec (vr : WireValue) (val : GoValue) (hd : val.TypeOf = tNullValue) :
    ((∃ err, (nullValueCodec.DecodeValue vr val).1 = .error err) ↔ vr ≠ .null) ∧
    (vr = .null → nullValueCodec.DecodeValue vr val = (.ok, NullValue_NULL_VALUE)) ∧
    (∀ (x : GoValue) (rest : List Frame) (out : List WireValue),
      nullValueCodec.EncodeValue ⟨.value :: rest, out⟩ x
        = (.ok, ValueWriter.attach .null rest out)) ∧
    (∀ x : GoValue, ∃ w : WireValue,
      nullValueCodec.EncodeValue ValueWriter.slot x = (.ok, ⟨[], [w]⟩) ∧
      nullValueCodec.DecodeValue w val = (.ok, NullValue_NULL_VALUE)) ∧
    (∀ (ectx : Registry) (fuel : Nat) (x : GoValue), ∃ w : WireValue,
      EncodeValue (fuel + 1) ectx .nullValueCodecRef ValueWriter.slot x = (.ok, ⟨[], [w]⟩) ∧
      DecodeValue (fuel + 1) ectx .nullValueCodecRef w val = (.ok, NullValue_NULL_VALUE)) := by
  have hnull : nullValueCodec.DecodeValue .null val = (.ok, NullValue_NULL_VALUE) := by
    simp only [nullValueCodec.DecodeValue, hd, if_true, WireValue.ReadNull]
  refine ⟨?_, ?_, ?_, ?_, ?_⟩
  · constructor
    · rintro ⟨err, h⟩ rfl
      rw [hnull] at h
      cases h
    · intro h
      cases vr with
      | null => exact absurd rfl h
      | _ =>
        simp only [nullValueCodec.DecodeValue, hd, if_true, WireValue.ReadNull]
        exact ⟨_, rfl⟩
  · rintro rfl
    exact hnull
  · intro x rest out
    rfl
  · intro x
    exact ⟨.null, rfl, hnull⟩
  · intro ectx fuel x
    exact ⟨.null, rfl, by rw [DecodeValue_nullCodec]; exact hnull⟩

/-- Witness of C14: reading a wire string into a NullValue destination. -/
theorem c14_null_codec_witness :
    (GoValue.nullValue 0).TypeOf = tNullValue ∧
    ((∃ err, (nullValueCodec.DecodeValue (.string "x") (.nullValue 0)).1 = .error err)
      ↔ WireValue.string "x" ≠ .null) ∧
    (∀ x : GoValue, ∃ w : WireValue,
      nullValueCodec.EncodeValue ValueWriter.slot x = (.ok, ⟨[], [w]⟩) ∧
      nullValueCodec.DecodeValue w (.nullValue 0) = (.ok, NullValue_NULL_VALUE)) :=
  ⟨rfl, (c14_null_codec (.string "x") (.nullValue 0) rfl).1,
    (c14_null_codec (.string "x") (.nullValue 0) rfl).2.2.2.1⟩

/-! ### What Register binds -/

/-- C15 (counterexample).  Register binds no codec to the Value type and none
to the Struct type: in the registry built by Register from a builder without
registrations (bsoncodec.NewRegistryBuilder) the lookups of their encoders and
of their decoders fail. -/
theorem c15_register_binds_counterexample :
    (Register emptyBuilder).Build.LookupEncoder tValue = .error (.ErrNoEncoder tValue) ∧
    (Register emptyBuilder).Build.LookupDecoder tValue = .error (.ErrNoDecoder tValue) ∧
    (Register emptyBuilder).Build.LookupEncoder tStruct = .error (.ErrNoEncoder tStruct) ∧
    (Register emptyBuilder).Build.LookupDecoder tStruct = .error (.ErrNoDecoder tStruct) :=
  ⟨rfl, rfl, rfl, rfl⟩

/-- C15 (amended).  In the registry produced by Register(rb).Build() for any
builder rb, the lookup of the encoder and of the decoder succeeds for the nine
wrapper kinds (the wrapper codec), Timestamp (the timestamp codec), ObjectID
(the identifier codec), List (the list codec), the six variant payload types
of Value (the value codec) and the null enum (the null codec).  For the Value
type and the Struct type Register binds nothing: their lookups give what the
builder rb gave before Register. -/
theorem c15_register_binds_amended (rb : RegistryBuilder) :
    (∀ t ∈ [boolValueType, bytesValueType, doubleValueType, floatValueType, int32ValueType,
        int64ValueType, stringValueType, uint32ValueType, uint64ValueType],
      (Register rb).Build.LookupEncoder t = .ok .wrapperValueCodecRef ∧
      (Register rb).Build.LookupDecoder t = .ok .wrapperValueCodecRef) ∧
    ((Register rb).Build.LookupEncoder timestampType = .ok .timestampCodecRef ∧
      (Register rb).Build.LookupDecoder timestampType = .ok .timestampCodecRef) ∧
    ((Register rb).Build.LookupEncoder objectIDType = .ok .objectIDCodecRef ∧
      (Register rb).Build.LookupDecoder objectIDType = .ok .objectIDCodecRef) ∧
    ((Register rb).Build.LookupEncoder tListValueType = .ok .listValueCodecRef ∧
      (Register rb).Build.LookupDecoder tListValueType = .ok .listValueCodecRef) ∧
    (∀ t ∈ [tValue_NullValue, tValue_BoolValue, tValue_NumberValue, tValue_StringValue,
        tValue_ListValue, tValue_StructValue],
      (Register rb).Build.LookupEncoder t = .ok .valueCodecRef ∧
      (Register rb).Build.LookupDecoder t = .ok .valueCodecRef) ∧
    ((Register rb).Build.LookupEncoder tNullValue = .ok .nullValueCodecRef ∧
      (Register rb).Build.LookupDecoder tNullValue = .ok .nullValueCodecRef) ∧
    (∀ t ∈ [tValue, tStruct],
      (Register rb).Build.LookupEncoder t = rb.Build.LookupEncoder t ∧
      (Register rb).Build.LookupDecoder t = rb.Build.LookupDecoder t) := by
  refine ⟨?_, ⟨rfl, rfl⟩, ⟨rfl, rfl⟩, ⟨rfl, rfl⟩, ?_, ⟨rfl, rfl⟩, ?_⟩
  · intro t ht
    simp only [List.mem_cons, List.mem_singleton, List.not_mem_nil, or_false] at ht
    rcases ht with rfl | rfl | rfl | rfl | rfl | rfl | rfl | rfl | rfl <;> exact ⟨rfl, rfl⟩
  · intro t ht
    simp only [List.mem_cons, List.mem_singleton, List.not_mem_nil, or_false] at ht
    rcases ht with rfl | rfl | rfl | rfl | rfl | rfl <;> exact ⟨rfl, rfl⟩
  · intro t ht
    simp only [List.mem_cons, List.mem_singleton, List.not_mem_nil, or_false] at ht
    rcases ht with rfl | rfl <;> exact ⟨rfl, rfl⟩

/-! ### Embedded documents in a wire array -/

theorem readArray_ok (vr : WireValue) (ar : List WireValue) (h : vr.ReadArray = .ok ar) :
    vr = .array ar := by
  cases vr <;> simp only [WireValue.ReadArray] at h <;> cases h
  rfl

/-- C17. List decode is atomic on failure.  For every registry, fuel, wire
value and destination, let listValueCodec.DecodeValue end with status st and
leave the destination r.  When st is not nil (an error from reading the array,
from an element tag without dispatch entry, from a decoder lookup or from the
decode of an element at any index; the same for a panic of reflect and for
fuel used up) the destination is exactly what it was before the call.  When
st is nil, the wire value is an array, the reading loop has decoded every
element of it successfully into the buffer elems, one Value node per element
in order, and only then was field 0 of the destination set to the pointers to
those nodes. -/
theorem c17_list_decode_atomic (ectx : Registry) (fuel : Nat) (vr : WireValue) (dst : GoValue)
    (st : Status) (r : GoValue)
    (h : DecodeValue fuel ectx .listValueCodecRef vr dst = (st, r)) :
    (st ≠ .ok → r = dst) ∧
    (st = .ok → ∃ (ws : List WireValue) (elems : List GoValue), vr = .array ws ∧
      listValueCodec.decodeLoop (DecodeValue (fuel - 1) ectx) ectx ws [] = (.ok, elems) ∧
      elems.length = ws.length ∧
      r = dst.SetField 0 (.slice (elems.map fun elem => .ptr tValue (some elem))) ∧
      ∀ i w, ws.get? i = some w →
        ∃ cvt dec elem, convFromType w.Type_ = some cvt ∧ ectx.LookupDecoder cvt = .ok dec ∧
          DecodeValue (fuel - 1) ectx dec w (reflect.New cvt) = (.ok, elem) ∧
          elems.get? i = some ((reflect.Zero tValue).SetField 0 (.iface (some elem)))) := by
  cases fuel with
  | zero =>
    simp only [DecodeValue, Prod.mk.injEq] at h
    obtain ⟨rfl, rfl⟩ := h
    exact ⟨fun _ => rfl, fun h0 => by cases h0⟩
  | succ k =>
    rw [DecodeValue_listCodec] at h
    unfold listValueCodec.DecodeValue at h
    simp only [Nat.add_sub_cancel]
    cases hf : dst.Field 0 with
    | none =>
      simp only [hf, Prod.mk.injEq] at h
      obtain ⟨rfl, rfl⟩ := h
      exact ⟨fun _ => rfl, fun h0 => by cases h0⟩
    | some vals =>
      cases hr : vr.ReadArray with
      | error err =>
        simp only [hf, hr, Prod.mk.injEq] at h
        obtain ⟨rfl, rfl⟩ := h
        exact ⟨fun _ => rfl, fun h0 => by cases h0⟩
      | ok ar =>
        have hvr := readArray_ok vr ar hr
        rcases hL : listValueCodec.decodeLoop (DecodeValue k ectx) ectx ar [] with ⟨st1, elems⟩
        simp only [hf, hr, hL] at h
        cases st1 with
        | ok =>
          simp only at h
          by_cases hty : vals.TypeOf = .valueSlice
          · rw [if_pos hty] at h
            simp only [Prod.mk.injEq] at h
            obtain ⟨rfl, rfl⟩ := h
            refine ⟨fun h0 => absurd rfl h0, fun _ => ?_⟩
            obtain ⟨more, hm, hlen, hget⟩ := decodeLoop_ok_get (DecodeValue k ectx) ectx ar [] elems hL
            rw [List.nil_append] at hm
            subst hm
            exact ⟨ar, elems, hvr, hL, hlen, rfl, hget⟩
          · rw [if_neg hty] at h
            simp only [Prod.mk.injEq] at h
            obtain ⟨rfl, rfl⟩ := h
            exact ⟨fun _ => rfl, fun h0 => by cases h0⟩
        | error e =>
          simp only [Prod.mk.injEq] at h
          obtain ⟨rfl, rfl⟩ := h
          exact ⟨fun _ => rfl, fun h0 => by cases h0⟩
        | panic =>
          simp only [Prod.mk.injEq] at h
          obtain ⟨rfl, rfl⟩ := h
          exact ⟨fun _ => rfl, fun h0 => by cases h0⟩
        | timeout =>
          simp only [Prod.mk.injEq] at h
          obtain ⟨rfl, rfl⟩ := h
          exact ⟨fun _ => rfl, fun h0 => by cases h0⟩

/-- Witness of C17: the array [string a, array [int32 7]] read into a
destination that holds one element: the nested element has no dispatch entry,
the call returns the unsupported-type error and the destination still holds
its element. -/
theorem c17_list_decode_atomic_witness :
    DecodeValue 6 testRegistry .listValueCodecRef (.array [.string "a", .array [.int32 7]])
        (mkListValue (WfValue.goList [.bool true]))
      = (.error (.UnexpectedType .Int32), mkListValue (WfValue.goList [.bool true])) ∧
    (Status.error (.UnexpectedType .Int32) ≠ .ok →
      mkListValue (WfValue.goList [.bool true]) = mkListValue (WfValue.goList [.bool true])) :=
  ⟨rfl, (c17_list_decode_atomic testRegistry 6 (.array [.string "a", .array [.int32 7]])
    (mkListValue (WfValue.goList [.bool true])) (.error (.UnexpectedType .Int32))
    (mkListValue (WfValue.goList [.bool true])) rfl).1⟩

/-! ### Round trips from the wire side -/

/-- C18. Wire-side round trip for lists.  For every wire array whose elements
have the tags string, boolean, double, null and array (nested arrays of the
same form) there is a fuel bound from which on, under the registry built by
Register, listValueCodec.DecodeValue returns nil and leaves a list in the
destination, whatever the destination held, and listValueCodec.EncodeValue on
that list returns nil and has written exactly the original wire array. -/
theorem c18_wire_round_trip (ws : List WireValue) (hs : WireValue.supportedList ws = true) :
    ∃ (bound : Nat) (values : List GoValue), ∀ fuel, bound ≤ fuel → ∀ old : List GoValue,
      DecodeValue fuel testRegistry .listValueCodecRef (.array ws) (mkListValue old)
        = (.ok, mkListValue values) ∧
      EncodeValue fuel testRegistry .listValueCodecRef ValueWriter.slot (mkListValue values)
        = (.ok, ⟨[], [.array ws]⟩) := by
  obtain ⟨vs, rfl⟩ := supportedList_exists ws hs
  exact ⟨3 * (WfValue.list vs).depth, WfValue.goList vs, fun fuel hf old =>
    ⟨decode_list vs fuel hf old, encode_list vs fuel hf [] []⟩⟩

/-- Witness of C18: the wire array of the test fixture. -/
theorem c18_wire_round_trip_witness :
    WireValue.supportedList [.string "a", .double 4607182418800017408, .boolean false, .null,
      .array [.string "b", .double 4611686018427387904]] = true ∧
    ∃ (bound : Nat) (values : List GoValue), ∀ fuel, bound ≤ fuel → ∀ old : List GoValue,
      DecodeValue fuel testRegistry .listValueCodecRef
          (.array [.string "a", .double 4607182418800017408, .boolean false, .null,
            .array [.string "b", .double 4611686018427387904]]) (mkListValue old)
        = (.ok, mkListValue values) ∧
      EncodeValue fuel testRegistry .listValueCodecRef ValueWriter.slot (mkListValue values)
        = (.ok, ⟨[], [.array [.string "a", .double 4607182418800017408, .boolean false, .null,
            .array [.string "b", .double 4611686018427387904]]]⟩) :=
  ⟨by decide, c18_wire_round_trip _ (by decide)⟩

theorem hexDigit_spec (d : Nat) (h : d < 16) :
    isLowerHexChar (hexDigit d) = true ∧ fromHexChar (hexDigit d).toNat = some d := by
  interval_cases d <;> exact ⟨by decide, by decide⟩

theorem hexDigit_isHexChar (d : Nat) (h : d < 16) : isHexChar (hexDigit d) = true := by
  unfold isHexChar
  rw [(hexDigit_spec d h).2]
  rfl

/-- Parsing the lowercase rendering of a byte sequence gives the bytes back. -/
theorem hex_decode_encode (b : List Nat) (hx : ∀ x ∈ b, x < 256) :
    hex.Decode ((b.flatMap fun x => [hexDigit (x / 16), hexDigit (x % 16)]).map Char.toNat)
      = some b := by
  induction b with
  | nil => rfl
  | cons x b ih =>
    have hx1 : x < 256 := hx x (List.mem_cons_self x b)
    have h1 := (hexDigit_spec (x / 16) (by omega)).2
    have h2 := (hexDigit_spec (x % 16) (by omega)).2
    have e : x / 16 * 16 + x % 16 = x := by omega
    have hcons : ((x :: b).flatMap fun x => [hexDigit (x / 16), hexDigit (x % 16)])
        = hexDigit (x / 16) :: hexDigit (x % 16)
            :: (b.flatMap fun x => [hexDigit (x / 16), hexDigit (x % 16)]) := rfl
    rw [hcons]
    simp only [List.map_cons, hex.Decode, h1, h2,
      ih (fun y hy => hx y (List.mem_cons_of_mem x hy)), e]

/-- The rendering of a byte sequence has two lowercase hexadecimal digits per
byte. -/
theorem hex_encode_chars (b : List Nat) (hx : ∀ x ∈ b, x < 256) :
    (b.flatMap fun x => [hexDigit (x / 16), hexDigit (x % 16)]).length = 2 * b.length ∧
    (∀ c ∈ (b.flatMap fun x => [hexDigit (x / 16), hexDigit (x % 16)]),
      isLowerHexChar c = true ∧ isHexChar c = true) := by
  induction b with
  | nil => exact ⟨rfl, fun c hc => by cases hc⟩
  | cons x b ih =>
    have hx1 : x < 256 := hx x (List.mem_cons_self x b)
    obtain ⟨il, ic⟩ := ih (fun y hy => hx y (List.mem_cons_of_mem x hy))
    refine ⟨?_, ?_⟩
    · simp only [List.flatMap_cons, List.cons_append, List.nil_append, List.length_cons, il]
      omega
    · intro c hc
      simp only [List.flatMap_cons, List.cons_append, List.nil_append, List.mem_cons] at hc
      rcases hc with rfl | rfl | hc
      · exact ⟨(hexDigit_spec _ (by omega)).1, hexDigit_isHexChar _ (by omega)⟩
      · exact ⟨(hexDigit_spec _ (by omega)).1, hexDigit_isHexChar _ (by omega)⟩
      · exact ic c hc

/-- The host parses the rendering of 12 bytes back to the 12 bytes, and the
rendering consists of 24 lowercase hexadecimal digits. -/
theorem objectIDFromHex_encode (b : List Nat) (hb : b.length = 12) (hx : ∀ x ∈ b, x < 256) :
    primitive.ObjectIDFromHex (hex.EncodeToString b) = .ok b ∧
    isLowerHex24 (hex.EncodeToString b) = true := by
  obtain ⟨hlen, hch⟩ := hex_encode_chars b hx
  refine ⟨?_, ?_⟩
  · have hd : hex.DecodeString (hex.EncodeToString b) = some b := by
      show hex.Decode ((b.flatMap fun x => [hexDigit (x / 16), hexDigit (x % 16)]).flatMap
        utf8Bytes) = some b
      rw [goBytes_of_hex _ (fun c hc => (hch c hc).2)]
      exact hex_decode_encode b hx
    unfold primitive.ObjectIDFromHex
    rw [hd]
    simp [hb]
  · unfold isLowerHex24 hex.EncodeToString
    simp only [String.length, Bool.and_eq_true, decide_eq_true_eq, List.all_eq_true]
    exact ⟨by rw [hlen, hb], fun c hc => (hch c hc).1⟩

/-- C19. ObjectID decode is canonical and inverts encode on the wire side.
For every wire identifier b of 12 bytes, objectIDCodec.DecodeValue under the
registry built by Register returns nil and yields an ObjectId whose Value is a
string of exactly 24 lowercase hexadecimal digits, and
objectIDCodec.EncodeValue of that ObjectId returns nil and has written b
again. -/
theorem c19_objectid_decode_canonical (b : List Nat) (fuel : Nat) (dst : GoValue)
    (hb : b.length = 12) (hx : ∀ x ∈ b, x < 256) (hf : 2 ≤ fuel)
    (hd : dst.TypeOf = objectIDType) :
    ∃ s : String,
      DecodeValue fuel testRegistry .objectIDCodecRef (.objectID b) dst = (.ok, mkObjectId s) ∧
      isLowerHex24 s = true ∧
      EncodeValue fuel testRegistry .objectIDCodecRef ValueWriter.slot (mkObjectId s)
        = (.ok, ⟨[], [.objectID b]⟩) := by
  obtain ⟨k, rfl⟩ : ∃ k, fuel = k + 2 := ⟨fuel - 2, by omega⟩
  obtain ⟨hp, hl⟩ := objectIDFromHex_encode b hb hx
  refine ⟨hex.EncodeToString b, objectID_decode b k dst hd, hl, ?_⟩
  have he := objectID_encode testRegistry rfl (hex.EncodeToString b) k [] []
  rw [hp] at he
  exact he

/-- Witness of C19: the identifier 5f8d0a1b2c3d4e5f60718293. -/
theorem c19_objectid_decode_canonical_witness :
    [95, 141, 10, 27, 44, 61, 78, 95, 96, 113, 130, 147].length = 12 ∧
    (∀ x ∈ [95, 141, 10, 27, 44, 61, 78, 95, 96, 113, 130, 147], x < 256) ∧ 2 ≤ 2 ∧
    (mkObjectId "").TypeOf = objectIDType ∧
    ∃ s : String,
      DecodeValue 2 testRegistry .objectIDCodecRef
          (.objectID [95, 141, 10, 27, 44, 61, 78, 95, 96, 113, 130, 147]) (mkObjectId "")
        = (.ok, mkObjectId s) ∧
      isLowerHex24 s = true ∧
      EncodeValue 2 testRegistry .objectIDCodecRef ValueWriter.slot (mkObjectId s)
        = (.ok, ⟨[], [.objectID [95, 141, 10, 27, 44, 61, 78, 95, 96, 113, 130, 147]]⟩) :=
  ⟨by decide, by decide, by decide, by decide,
    c19_objectid_decode_canonical [95, 141, 10, 27, 44, 61, 78, 95, 96, 113, 130, 147] 2
      (mkObjectId "") (by decide) (by decide) (by decide) (by decide)⟩

/-- C20. Null decode overwrites the destination even when it fails.  Whatever
the wire value, after nullValueCodec.DecodeValue has returned, a destination
of type NullValue holds NullValue_NULL_VALUE: the destination is assigned
before the wire value is read.  When the wire value is not the null marker the
call returns the reader's error with the destination already overwritten; a
destination that held the enum value 7 holds NullValue_NULL_VALUE after the
failed decode of a wire string, so the failed call is not atomic. -/
theorem c20_null_decode_overwrites (vr : WireValue) (val : GoValue)
    (hd : val.TypeOf = tNullValue) :
    (nullValueCodec.DecodeValue vr val).2 = NullValue_NULL_VALUE ∧
    (nullValueCodec.DecodeValue vr val).1.returned = true ∧
    (vr ≠ .null →
      nullValueCodec.DecodeValue vr val
        = (.error (.ReadTypeError .Null vr.Type_), NullValue_NULL_VALUE)) ∧
    (∀ (ectx : Registry) (fuel : Nat),
      (DecodeValue (fuel + 1) ectx .nullValueCodecRef vr val).2 = NullValue_NULL_VALUE) ∧
    nullValueCodec.DecodeValue (.string "x") (.nullValue 7)
      = (.error (.ReadTypeError .Null .String), NullValue_NULL_VALUE) ∧
    NullValue_NULL_VALUE ≠ GoValue.nullValue 7 := by
  have h2 : (nullValueCodec.DecodeValue vr val).2 = NullValue_NULL_VALUE := by
    simp only [nullValueCodec.DecodeValue, hd, if_true]
    cases vr <;> rfl
  refine ⟨h2, ?_, ?_, ?_, rfl, by simp⟩
  · simp only [nullValueCodec.DecodeValue, hd, if_true]
    cases vr <;> rfl
  · intro h
    cases vr with
    | null => exact absurd rfl h
    | _ =>
      simp only [nullValueCodec.DecodeValue, hd, if_true, WireValue.ReadNull]
  · intro ectx fuel
    rw [DecodeValue_nullCodec]
    exact h2

/-- Witness of C20: a wire boolean read into a destination holding the enum
value 7. -/
theorem c20_null_decode_overwrites_witness :
    (GoValue.nullValue 7).TypeOf = tNullValue ∧
    (nullValueCodec.DecodeValue (.boolean true) (.nullValue 7)).2 = NullValue_NULL_VALUE ∧
    (WireValue.boolean true ≠ .null →
      nullValueCodec.DecodeValue (.boolean true) (.nullValue 7)
        = (.error (.ReadTypeError .Null (WireValue.boolean true).Type_), NullValue_NULL_VALUE)) :=
  ⟨rfl, (c20_null_decode_overwrites (.boolean true) (.nullValue 7) rfl).1,
    (c20_null_decode_overwrites (.boolean true) (.nullValue 7) rfl).2.2.1⟩

end Codecs
